import Mathlib

/-!
# donut.cpp: a rotating ASCII torus

A shallow embedding of `src/languages/cpp/donut.cpp` and theorems about it.

Numbers.  The C++ `double` is modelled by an arbitrary linearly ordered field `F` with a
floor function (`ℚ` for evaluation, `ℝ` for the trigonometric facts), i.e. by exact
arithmetic; `std::sin` and `std::cos` are parameters `sin cos : F → F` (instantiated with
`Real.sin` and `Real.cos` over `ℝ`).  The C++ `int` is modelled by `Int`; the two `int`
products that size the buffers are checked against the `int` range.  `static_cast<int>` of a
`double` is exact truncation toward zero, also for a value outside the `int` range: the
bounds test of line 96 and the clamps of lines 101-102 treat the exact integer as they treat
what the hardware conversion yields.

Faults.  Everything that leaves defined behaviour in the C++ program is an explicit
`Fault`: a zero divisor in `1.0 / (z2 + k2)`, a vector or string index out of range, an
`int` overflow, a negative allocation size.  The two `for` loops over angles are loops with
fuel, and running out of fuel is a fault of the model as well.
-/

namespace Donut

/-! ## Data model -/

/-- The ways a run can fail to produce a value. -/
inductive Fault where
  | outOfFuel
  | intOverflow
  | badAlloc
  | divByZero
  | indexOutOfRange
  deriving DecidableEq, Repr

/-- The `Config` struct (lines 9-23); `shading` is the `std::string` as its characters. -/
structure Config (F : Type) where
  width : Int
  height : Int
  r1 : F
  r2 : F
  k1 : F
  k2 : F
  a_step : F
  b_step : F
  theta_step : F
  phi_step : F
  shading : List Char
  benchmark : Bool
  frames : Int

/-- The `Renderer` class state (lines 123-125). -/
structure Renderer (F : Type) where
  cfg_ : Config F
  a_ : F
  b_ : F

/-- The two vectors local to `render_frame` (lines 59-60). -/
structure Buffers (F : Type) where
  buffer : List Char
  zbuffer : List F

/-- The per-sample locals of `render_frame` that the plotting step reads (lines 89-94). -/
structure Sample (F : Type) where
  ooz : F
  xp : Int
  yp : Int
  luminance : F

/-- Largest value of the C++ `int`. -/
def INT_MAX : Int := 2147483647

/-- Smallest value of the C++ `int`. -/
def INT_MIN : Int := -2147483648

/-- Whether an integer is a value of the C++ `int`. -/
def fits_int (n : Int) : Bool := decide (INT_MIN ≤ n) && decide (n ≤ INT_MAX)

section Text

variable {F : Type}

/-- Reading `v[static_cast<size_t>(i)]`: a fault outside `0 ≤ i < v.size()`. -/
def index {α : Type} (v : List α) (i : Int) : Except Fault α :=
  if i < 0 then .error .indexOutOfRange
  else
    match v[i.toNat]? with
    | none => .error .indexOutOfRange
    | some x => .ok x

/-- Writing `v[static_cast<size_t>(i)] = x`: a fault outside `0 ≤ i < v.size()`. -/
def store {α : Type} (v : List α) (i : Int) (x : α) : Except Fault (List α) :=
  if i < 0 then .error .indexOutOfRange
  else if i.toNat < v.length then .ok (v.set i.toNat x)
  else .error .indexOutOfRange

/-- Line 112: the loop `for (int x = 0; x < width; ++x) out.push_back(buffer[x + y * width])`,
as a counted loop over the `n` remaining columns. -/
def emit_row (cfg : Config F) (buffer : List Char) (y : Int) :
    Nat → Int → List Char → Except Fault (List Char)
  | 0, _, out => .ok out
  | n + 1, x, out =>
    match index buffer (x + y * cfg.width) with
    | .error e => .error e
    | .ok c => emit_row cfg buffer y n (x + 1) (out ++ [c])

/-- Lines 111-114: the loop over the rows, as a counted loop over the `n` remaining rows. -/
def emit_rows (cfg : Config F) (buffer : List Char) :
    Nat → Int → List Char → Except Fault (List Char)
  | 0, _, out => .ok out
  | n + 1, y, out =>
    match emit_row cfg buffer y cfg.width.toNat 0 out with
    | .error e => .error e
    | .ok out1 => emit_rows cfg buffer n (y + 1) (out1 ++ ['\n'])

/-- Lines 109-115 of `render_frame`: the text block. -/
def serialize (cfg : Config F) (buffer : List Char) : Except Fault (List Char) :=
  if !fits_int (cfg.width * cfg.height + cfg.height) then .error .intOverflow
  else if cfg.width * cfg.height + cfg.height < 0 then .error .badAlloc
  else emit_rows cfg buffer cfg.height.toNat 0 []

/-- The text of a list of rows: each row followed by a line feed. -/
def lines_text (rows : List (List Char)) : List Char :=
  (rows.map (fun row => row ++ ['\n'])).flatten

/-- The rows of a `w` by `h` grid stored row-major in `buffer`: cell `x` of row `y` is
`buffer[x + y * w]`. -/
def frame_rows (w h : Nat) (buffer : List Char) : List (List Char) :=
  (List.range h).map (fun y => (List.range w).map (fun x => buffer.getD (x + y * w) ' '))

/-- The text block of a `w` by `h` grid stored row-major in `buffer`. -/
def frame_text (w h : Nat) (buffer : List Char) : List Char :=
  lines_text (frame_rows w h buffer)

end Text

section Core

variable {F : Type} [LinearOrderedField F] [FloorRing F]

/-- The default member initialisers of `Config` (lines 10-22). -/
def default_config : Config F where
  width := 80
  height := 22
  r1 := 1
  r2 := 2
  k1 := 30
  k2 := 5
  a_step := 4 / 100
  b_step := 2 / 100
  theta_step := 7 / 100
  phi_step := 2 / 100
  shading := ['.', ',', '-', '~', ':', ';', '=', '!', '*', '#', '$', '@']
  benchmark := false
  frames := 500

/-- Construction `Renderer(Config cfg)` (line 27) with `a_ = 0.0`, `b_ = 0.0`. -/
def Renderer.mk_from (cfg : Config F) : Renderer F := ⟨cfg, 0, 0⟩

/-- The constant `two_pi = 6.283185307179586` (line 58). -/
def two_pi : F := 6283185307179586 / 1000000000000000

/-- The conversion `static_cast<int>(double)`: truncation toward zero. -/
def trunc (x : F) : Int := if 0 ≤ x then ⌊x⌋ else ⌈x⌉

/-- Lines 100-102: the shade index, from the luminance and the palette size. -/
def shade_index (luminance : F) (size : Int) : Int :=
  let shade := trunc (luminance * 8)
  let shade := if shade < 0 then 0 else shade
  if shade ≥ size then size - 1 else shade

/-- Lines 100-103: the character `cfg_.shading[shade]`. -/
def shade_char (cfg : Config F) (luminance : F) : Except Fault Char :=
  index cfg.shading (shade_index luminance (cfg.shading.length : Int))

/-- Lines 74-94: the locals of one pass of the inner loop body, from the values hoisted out
of the loops.  A zero divisor in `ooz` is recorded as the fault `divByZero`: the field has
no value for `1.0 / 0.0`, which the program computes as an infinity. -/
def project (sin cos : F → F) (cfg : Config F)
    (sin_a cos_a sin_b cos_b theta_sin theta_cos circle_x circle_y phi : F) :
    Except Fault (Sample F) :=
  let phi_sin := sin phi
  let phi_cos := cos phi
  let x := circle_x * phi_cos
  let y := circle_x * phi_sin
  let z := circle_y
  let x1 := x
  let y1 := y * cos_a - z * sin_a
  let z1 := y * sin_a + z * cos_a
  let x2 := x1 * cos_b - y1 * sin_b
  let y2 := x1 * sin_b + y1 * cos_b
  let z2 := z1
  if z2 + cfg.k2 = 0 then .error .divByZero
  else
    let ooz := 1 / (z2 + cfg.k2)
    let xp := trunc ((cfg.width : F) / 2 + cfg.k1 * ooz * x2)
    let yp := trunc ((cfg.height : F) / 2 - (cfg.k1 * (1 / 2)) * ooz * y2)
    let luminance := phi_cos * theta_cos * sin_b - cos_a * theta_cos * phi_sin -
      sin_a * theta_sin + cos_b * (cos_a * theta_sin - theta_cos * sin_a * phi_sin)
    .ok ⟨ooz, xp, yp, luminance⟩

/-- Lines 96-105: the guarded z-buffer update for one sample. -/
def plot (cfg : Config F) (s : Sample F) (st : Buffers F) : Except Fault (Buffers F) :=
  if s.luminance > 0 ∧ s.xp ≥ 0 ∧ s.xp < cfg.width ∧ s.yp ≥ 0 ∧ s.yp < cfg.height then
    let idx := s.xp + cfg.width * s.yp
    match index st.zbuffer idx with
    | .error e => .error e
    | .ok depth =>
      if s.ooz > depth then
        match store st.zbuffer idx s.ooz with
        | .error e => .error e
        | .ok zbuffer =>
          match shade_char cfg s.luminance with
          | .error e => .error e
          | .ok c =>
            match store st.buffer idx c with
            | .error e => .error e
            | .ok buffer => .ok ⟨buffer, zbuffer⟩
      else .ok st
  else .ok st

/-- The loop `for (double v = v0; v < two_pi; v += step) body`, with fuel.  The update is
the addition of the field: exact arithmetic. -/
def sweep {σ : Type} (step : F) (body : F → σ → Except Fault σ) :
    Nat → F → σ → Except Fault σ
  | 0, _, _ => .error .outOfFuel
  | fuel + 1, v, st =>
    if v < two_pi then
      match body v st with
      | .error e => .error e
      | .ok st1 => sweep step body fuel (v + step) st1
    else .ok st

/-- Lines 74-105: the body of the inner loop. -/
def phi_body (sin cos : F → F) (cfg : Config F)
    (sin_a cos_a sin_b cos_b theta_sin theta_cos circle_x circle_y : F)
    (phi : F) (st : Buffers F) : Except Fault (Buffers F) :=
  match project sin cos cfg sin_a cos_a sin_b cos_b theta_sin theta_cos circle_x circle_y phi with
  | .error e => .error e
  | .ok s => plot cfg s st

/-- Lines 68-106: the body of the outer loop. -/
def theta_body (sin cos : F → F) (cfg : Config F) (sin_a cos_a sin_b cos_b : F) (fuel : Nat)
    (theta : F) (st : Buffers F) : Except Fault (Buffers F) :=
  let theta_sin := sin theta
  let theta_cos := cos theta
  let circle_x := cfg.r2 + cfg.r1 * theta_cos
  let circle_y := cfg.r1 * theta_sin
  sweep cfg.phi_step
    (phi_body sin cos cfg sin_a cos_a sin_b cos_b theta_sin theta_cos circle_x circle_y)
    fuel 0 st

/-- Lines 59-107 of `render_frame`: allocation of the two vectors and the sampling loops. -/
def rasterize (sin cos : F → F) (r : Renderer F) (fuel : Nat) : Except Fault (Buffers F) :=
  let cfg := r.cfg_
  if !fits_int (cfg.width * cfg.height) then .error .intOverflow
  else if cfg.width * cfg.height < 0 then .error .badAlloc
  else
    let size := (cfg.width * cfg.height).toNat
    let buffer := List.replicate size ' '
    let zbuffer := List.replicate size (0 : F)
    let sin_a := sin r.a_
    let cos_a := cos r.a_
    let sin_b := sin r.b_
    let cos_b := cos r.b_
    sweep cfg.theta_step (theta_body sin cos cfg sin_a cos_a sin_b cos_b fuel) fuel 0
      ⟨buffer, zbuffer⟩

/-- The method `Renderer::render_frame` (lines 57-116). -/
def render_frame (sin cos : F → F) (r : Renderer F) (fuel : Nat) : Except Fault (List Char) :=
  match rasterize sin cos r fuel with
  | .error e => .error e
  | .ok st => serialize r.cfg_ st.buffer

/-- The loop `for (double v = v0; v < two_pi; v += step) body` of lines 67 and 73 with the
addition of `v += step` as the parameter `add`, with fuel.  The loop `sweep` is this loop
with the addition of the field. -/
def sweep_with {σ : Type} (add : F → F → F) (step : F) (body : F → σ → Except Fault σ) :
    Nat → F → σ → Except Fault σ
  | 0, _, _ => .error .outOfFuel
  | fuel + 1, v, st =>
    if v < two_pi then
      match body v st with
      | .error e => .error e
      | .ok st1 => sweep_with add step body fuel (add v step) st1
    else .ok st

/-- Lines 68-106: the body of the outer loop, the addition of `phi += cfg_.phi_step` being
`add`. -/
def theta_body_with (add : F → F → F) (sin cos : F → F) (cfg : Config F)
    (sin_a cos_a sin_b cos_b : F) (fuel : Nat) (theta : F) (st : Buffers F) :
    Except Fault (Buffers F) :=
  let theta_sin := sin theta
  let theta_cos := cos theta
  let circle_x := cfg.r2 + cfg.r1 * theta_cos
  let circle_y := cfg.r1 * theta_sin
  sweep_with add cfg.phi_step
    (phi_body sin cos cfg sin_a cos_a sin_b cos_b theta_sin theta_cos circle_x circle_y)
    fuel 0 st

/-- Lines 59-107 of `render_frame`, the addition of the two loop updates being `add`. -/
def rasterize_with (add : F → F → F) (sin cos : F → F) (r : Renderer F) (fuel : Nat) :
    Except Fault (Buffers F) :=
  let cfg := r.cfg_
  if !fits_int (cfg.width * cfg.height) then .error .intOverflow
  else if cfg.width * cfg.height < 0 then .error .badAlloc
  else
    let size := (cfg.width * cfg.height).toNat
    let buffer := List.replicate size ' '
    let zbuffer := List.replicate size (0 : F)
    let sin_a := sin r.a_
    let cos_a := cos r.a_
    let sin_b := sin r.b_
    let cos_b := cos r.b_
    sweep_with add cfg.theta_step
      (theta_body_with add sin cos cfg sin_a cos_a sin_b cos_b fuel) fuel 0 ⟨buffer, zbuffer⟩

/-- The method `Renderer::render_frame` (lines 57-116), the addition of the two loop updates
being `add`. -/
def render_frame_with (add : F → F → F) (sin cos : F → F) (r : Renderer F) (fuel : Nat) :
    Except Fault (List Char) :=
  match rasterize_with add sin cos r fuel with
  | .error e => .error e
  | .ok st => serialize r.cfg_ st.buffer

/-- The method `Renderer::step_angles` (lines 118-121). -/
def step_angles (r : Renderer F) : Renderer F :=
  { r with a_ := r.a_ + r.cfg_.a_step, b_ := r.b_ + r.cfg_.b_step }

end Core

/-! ## The drivers: `benchmark` and `parse_args` -/

section Drivers

variable {F : Type} [LinearOrderedField F] [FloorRing F]

/-- A call of the `const` method `render_frame` as a state transformer: the text, and the
renderer after the call, which a `const` method leaves as it was. -/
def render_frame_call (sin cos : F → F) (r : Renderer F) (fuel : Nat) :
    Except Fault (List Char × Renderer F) :=
  match render_frame sin cos r fuel with
  | .error e => .error e
  | .ok out => .ok (out, r)

/-- Lines 40-43 of `benchmark`: the loop `for (int i = 0; i < cfg_.frames; ++i)` with the
body `render_frame(); step_angles();`, as a counted loop over the `n` remaining passes.
Returns the counter `i` and the renderer after the loop. -/
def benchmark_loop (sin cos : F → F) (fuel : Nat) :
    Nat → Int → Renderer F → Except Fault (Int × Renderer F)
  | 0, i, r => .ok (i, r)
  | n + 1, i, r =>
    match render_frame sin cos r fuel with
    | .error e => .error e
    | .ok _ => benchmark_loop sin cos fuel n (i + 1) (step_angles r)

/-- The frames loop of `Renderer::benchmark` (lines 40-43), from `i = 0`. -/
def benchmark_frames (sin cos : F → F) (r : Renderer F) (fuel : Nat) :
    Except Fault (Int × Renderer F) :=
  benchmark_loop sin cos fuel r.cfg_.frames.toNat 0 r

/-- The loop of `parse_args` (lines 130-152) over the arguments that remain.  `atoi` and
`atof` are the C library functions.  A flag that takes a value consumes the next argument
when there is one (`i + 1 < argc`) and does nothing when it is the last. -/
def parse_loop (atoi : String → Int) (atof : String → F) : Config F → List String → Config F
  | cfg, [] => cfg
  | cfg, [arg] => if arg = "--benchmark" then { cfg with benchmark := true } else cfg
  | cfg, arg :: v :: rest =>
    if arg = "--benchmark" then parse_loop atoi atof { cfg with benchmark := true } (v :: rest)
    else if arg = "--width" then parse_loop atoi atof { cfg with width := atoi v } rest
    else if arg = "--height" then parse_loop atoi atof { cfg with height := atoi v } rest
    else if arg = "--r1" then parse_loop atoi atof { cfg with r1 := atof v } rest
    else if arg = "--r2" then parse_loop atoi atof { cfg with r2 := atof v } rest
    else if arg = "--k1" then parse_loop atoi atof { cfg with k1 := atof v } rest
    else if arg = "--k2" then parse_loop atoi atof { cfg with k2 := atof v } rest
    else if arg = "--a-step" then parse_loop atoi atof { cfg with a_step := atof v } rest
    else if arg = "--b-step" then parse_loop atoi atof { cfg with b_step := atof v } rest
    else if arg = "--theta-step" then
      parse_loop atoi atof { cfg with theta_step := atof v } rest
    else if arg = "--phi-step" then parse_loop atoi atof { cfg with phi_step := atof v } rest
    else if arg = "--frames" then parse_loop atoi atof { cfg with frames := atoi v } rest
    else if arg = "--shading" then parse_loop atoi atof { cfg with shading := v.toList } rest
    else parse_loop atoi atof cfg (v :: rest)

/-- The function `parse_args` (lines 128-154) on `argv`, whose first entry is the program
name: the loop starts at `i = 1` from the default `Config`. -/
def parse_args (atoi : String → Int) (atof : String → F) (argv : List String) : Config F :=
  parse_loop atoi atof default_config (argv.drop 1)

/-- The numbers that `benchmark` prints (lines 50-53). -/
structure Report (F : Type) where
  frames : Int
  total : F
  avg_ms : F
  fps : F

/-- Lines 46-53 of `benchmark`: from the measured `total.count()`, the values passed to the
output stream: `cfg_.frames`, the total, `avg * 1000.0` and `fps`.  The formatting to 4 and
2 decimals is not modelled. -/
def benchmark_report (cfg : Config F) (total : F) : Report F :=
  let avg := total / (cfg.frames : F)
  let fps := (cfg.frames : F) / total
  ⟨cfg.frames, total, avg * 1000, fps⟩

end Drivers

/-! ## Definitions used to state the claims -/

section Trace

variable {F : Type} [LinearOrderedField F] [FloorRing F]

/-- The guard of line 96: positive luminance and screen coordinates inside the grid. -/
def visible (cfg : Config F) (s : Sample F) : Prop :=
  s.luminance > 0 ∧ s.xp ≥ 0 ∧ s.xp < cfg.width ∧ s.yp ≥ 0 ∧ s.yp < cfg.height

instance (cfg : Config F) (s : Sample F) : Decidable (visible cfg s) := by
  unfold visible; infer_instance

/-- The position `idx = xp + width * yp` of line 97, as a list position. -/
def cell (cfg : Config F) (s : Sample F) : Nat := (s.xp + cfg.width * s.yp).toNat

/-- The two vectors as allocated on lines 59-60. -/
def blank (n : Nat) : Buffers F := ⟨List.replicate n ' ', List.replicate n 0⟩

/-- Plotting a list of samples in order. -/
def plot_all (cfg : Config F) : List (Sample F) → Buffers F → Except Fault (Buffers F)
  | [], st => .ok st
  | s :: rest, st =>
    match plot cfg s st with
    | .error e => .error e
    | .ok st1 => plot_all cfg rest st1

/-- The samples of `l` that pass the guard of line 96 and fall on list position `c`. -/
def hits (cfg : Config F) (c : Nat) (l : List (Sample F)) : List (Sample F) :=
  l.filter (fun s => decide (visible cfg s ∧ cell cfg s = c))

/-- The samples of `hits` that lie in front of the empty depth `0.0`. -/
def front_hits (cfg : Config F) (c : Nat) (l : List (Sample F)) : List (Sample F) :=
  (hits cfg c l).filter (fun s => decide (0 < s.ooz))

/-- In `l`, the sample `m` has the largest `ooz` and is the first to have it. -/
def first_max (l : List (Sample F)) (m : Sample F) : Prop :=
  ∃ pre post, l = pre ++ m :: post ∧ (∀ s ∈ pre, s.ooz < m.ooz) ∧ (∀ s ∈ post, s.ooz ≤ m.ooz)

/-- The state of list position `c` after the samples `l`: untouched when no sample of
`front_hits` fell on it, and otherwise holding the first nearest of them. -/
def cell_state (cfg : Config F) (l : List (Sample F)) (st : Buffers F) (c : Nat) : Prop :=
  (front_hits cfg c l = [] ∧ st.buffer[c]? = some ' ' ∧ st.zbuffer[c]? = some 0) ∨
  (∃ m ch, first_max (front_hits cfg c l) m ∧ shade_char cfg m.luminance = .ok ch ∧
    st.buffer[c]? = some ch ∧ st.zbuffer[c]? = some m.ooz)

/-- The sample of the loop bodies at the angles `(theta, phi)`: `project` at the values that
lines 62-71 hoist out of the loops. -/
def sample_at (sin cos : F → F) (r : Renderer F) (theta phi : F) : Except Fault (Sample F) :=
  project sin cos r.cfg_ (sin r.a_) (cos r.a_) (sin r.b_) (cos r.b_) (sin theta) (cos theta)
    (r.cfg_.r2 + r.cfg_.r1 * cos theta) (r.cfg_.r1 * sin theta) phi

/-- The inner loop body with the plotting step replaced by recording the sample. -/
def record_body (sin cos : F → F) (r : Renderer F) (theta phi : F) (acc : List (Sample F)) :
    Except Fault (List (Sample F)) :=
  match sample_at sin cos r theta phi with
  | .error e => .error e
  | .ok s => .ok (acc ++ [s])

/-- The samples of one frame in iteration order: the loop nest of `render_frame` with the
plotting step replaced by recording the sample. -/
def visited (sin cos : F → F) (r : Renderer F) (fuel : Nat) : Except Fault (List (Sample F)) :=
  sweep r.cfg_.theta_step
    (fun theta acc => sweep r.cfg_.phi_step (record_body sin cos r theta) fuel 0 acc) fuel 0 []

/-- The divisor `z2 + cfg_.k2` of line 89 at the angles `(theta, phi)`. -/
def divisor (sin cos : F → F) (r : Renderer F) (theta phi : F) : F :=
  (r.cfg_.r2 + r.cfg_.r1 * cos theta) * sin phi * sin r.a_ +
    r.cfg_.r1 * sin theta * cos r.a_ + r.cfg_.k2

/-- The conditions under which `render_frame` is shown to return: the allocation sizes fit
an `int`, both steps are positive, the palette is not empty, and at no sample
`(k * theta_step, j * phi_step)` of the loops is the divisor `z2 + k2` zero. -/
def regular (sin cos : F → F) (r : Renderer F) : Prop :=
  r.cfg_.width * r.cfg_.height + r.cfg_.height ≤ INT_MAX ∧
  0 < r.cfg_.theta_step ∧ 0 < r.cfg_.phi_step ∧ r.cfg_.shading ≠ [] ∧
  ∀ k j : Nat, (k : F) * r.cfg_.theta_step < two_pi → (j : F) * r.cfg_.phi_step < two_pi →
    divisor sin cos r (k * r.cfg_.theta_step) (j * r.cfg_.phi_step) ≠ 0

/-- A text block of exactly `h` lines, each of exactly `w` characters other than the line
feed, followed by one line feed. -/
def is_grid (w h : Nat) (out : List Char) : Prop :=
  ∃ rows : List (List Char), rows.length = h ∧
    (∀ row ∈ rows, row.length = w ∧ '\n' ∉ row) ∧ out = lines_text rows

/-- The twelve flags that take a value. -/
def value_flags : List String :=
  ["--width", "--height", "--r1", "--r2", "--k1", "--k2", "--a-step", "--b-step",
    "--theta-step", "--phi-step", "--frames", "--shading"]

/-- The thirteen recognised flags. -/
def recognised_flags : List String := "--benchmark" :: value_flags

/-- Whether the token that follows the tokens `pre` is read in flag position, that is, is
not consumed as the value of a flag of `pre`. -/
def flag_position : List String → Bool
  | [] => true
  | [arg] => !decide (arg ∈ value_flags)
  | arg :: v :: rest =>
    if arg ∈ value_flags then flag_position rest else flag_position (v :: rest)

/-- The assignment made by the value flag `arg` with the argument `v` (lines 140-151). -/
def set_value (atoi : String → Int) (atof : String → F) (cfg : Config F) (arg v : String) :
    Config F :=
  if arg = "--width" then { cfg with width := atoi v }
  else if arg = "--height" then { cfg with height := atoi v }
  else if arg = "--r1" then { cfg with r1 := atof v }
  else if arg = "--r2" then { cfg with r2 := atof v }
  else if arg = "--k1" then { cfg with k1 := atof v }
  else if arg = "--k2" then { cfg with k2 := atof v }
  else if arg = "--a-step" then { cfg with a_step := atof v }
  else if arg = "--b-step" then { cfg with b_step := atof v }
  else if arg = "--theta-step" then { cfg with theta_step := atof v }
  else if arg = "--phi-step" then { cfg with phi_step := atof v }
  else if arg = "--frames" then { cfg with frames := atoi v }
  else if arg = "--shading" then { cfg with shading := v.toList }
  else cfg

/-- The default configuration with another grid size. -/
def sized_config (w h : Int) : Config F :=
  { (default_config : Config F) with width := w, height := h }

/-- The default configuration with the camera at distance `k2`. -/
def camera_config (k2 : F) : Config F :=
  { (default_config : Config F) with k2 := k2 }

/-- A configuration whose loops visit a single sample, with the camera at distance `k2`. -/
def single_config (k2 : F) : Config F :=
  { (default_config : Config F) with k2 := k2, theta_step := 7, phi_step := 7 }

/-- A configuration whose loops visit a single sample, with the palette `shading`. -/
def palette_config (shading : List Char) : Config F :=
  { (default_config : Config F) with theta_step := 7, phi_step := 7, shading := shading }

/-- Lines 70-71 and 77-79: the point `(x, y, z)` of the torus at the angles `(theta, phi)`. -/
def surface_point (sin cos : F → F) (cfg : Config F) (theta phi : F) : F × F × F :=
  ((cfg.r2 + cfg.r1 * cos theta) * cos phi, (cfg.r2 + cfg.r1 * cos theta) * sin phi,
    cfg.r1 * sin theta)

/-- Lines 81-87: the point `(x2, y2, z2)` after the rotations by `a_` and by `b_`. -/
def rotated_point (sin cos : F → F) (r : Renderer F) (theta phi : F) : F × F × F :=
  let x := (surface_point sin cos r.cfg_ theta phi).1
  let y := (surface_point sin cos r.cfg_ theta phi).2.1
  let z := (surface_point sin cos r.cfg_ theta phi).2.2
  let y1 := y * cos r.a_ - z * sin r.a_
  let z1 := y * sin r.a_ + z * cos r.a_
  (x * cos r.b_ - y1 * sin r.b_, x * sin r.b_ + y1 * cos r.b_, z1)

/-- Line 90: the operand `width / 2.0 + k1 * ooz * x2` of the conversion that gives `xp`. -/
def screen_x (sin cos : F → F) (r : Renderer F) (theta phi : F) : F :=
  (r.cfg_.width : F) / 2 +
    r.cfg_.k1 * (1 / ((rotated_point sin cos r theta phi).2.2 + r.cfg_.k2)) *
      (rotated_point sin cos r theta phi).1

/-- Line 91: the operand `height / 2.0 - (k1 * 0.5) * ooz * y2` of the conversion that gives
`yp`. -/
def screen_y (sin cos : F → F) (r : Renderer F) (theta phi : F) : F :=
  (r.cfg_.height : F) / 2 -
    (r.cfg_.k1 * (1 / 2)) * (1 / ((rotated_point sin cos r theta phi).2.2 + r.cfg_.k2)) *
      (rotated_point sin cos r theta phi).2.1

/-- Lines 93-94: the luminance at the angles `(theta, phi)` and the phase `(a, b)`. -/
def luminance_at (sin cos : F → F) (a b theta phi : F) : F :=
  cos phi * cos theta * sin b - cos a * cos theta * sin phi - sin a * sin theta +
    cos b * (cos a * sin theta - cos theta * sin a * sin phi)

/-- A loop body run at the values of a list in order, stopping at the first fault. -/
def run_list {σ : Type} (body : F → σ → Except Fault σ) : List F → σ → Except Fault σ
  | [], st => .ok st
  | v :: vs, st =>
    match body v st with
    | .error e => .error e
    | .ok st1 => run_list body vs st1

/-- The inner loop body with everything but the loop variables removed: it records the angle
pair. -/
def angle_body (theta phi : F) (acc : List (F × F)) : Except Fault (List (F × F)) :=
  .ok (acc ++ [(theta, phi)])

/-- The angle pairs of one frame in iteration order: the loop nest of lines 67 and 73 with the
body replaced by recording `(theta, phi)`. -/
def visited_angles (cfg : Config F) (fuel : Nat) : Except Fault (List (F × F)) :=
  sweep cfg.theta_step (fun theta acc => sweep cfg.phi_step (angle_body theta) fuel 0 acc)
    fuel 0 []

/-- The number `ceil (two_pi / step)` of passes of a loop of line 67 or 73. -/
def step_count (step : F) : Nat := ⌈(two_pi : F) / step⌉₊

/-- The grid of angle pairs `(k * theta_step, j * phi_step)`, `k` outer and `j` inner. -/
def angle_grid (cfg : Config F) : List (F × F) :=
  (List.range (step_count cfg.theta_step)).flatMap (fun k : Nat =>
    (List.range (step_count cfg.phi_step)).map (fun j : Nat =>
      ((k : F) * cfg.theta_step, (j : F) * cfg.phi_step)))

/-- The eleven flags whose value is converted by `atoi` or `atof`. -/
def numeric_flags : List String :=
  ["--width", "--height", "--r1", "--r2", "--k1", "--k2", "--a-step", "--b-step",
    "--theta-step", "--phi-step", "--frames"]

/-- The three flags whose value is converted by `atoi` (`next_int`, lines 135-137). -/
def int_flags : List String := ["--width", "--height", "--frames"]

/-- The white space that `atoi` and `atof` skip: space, `\t`, `\n`, `\v`, `\f`, `\r`. -/
def is_space (c : Char) : Bool :=
  c == ' ' || c == '\t' || c == '\n' || c == '\r' || c.toNat == 11 || c.toNat == 12

/-- One optional sign dropped. -/
def skip_sign : List Char → List Char
  | [] => []
  | c :: cs => if c = '+' ∨ c = '-' then cs else c :: cs

/-- Whether a string has, after optional white space and an optional sign, a decimal digit:
the strings on which `atoi` converts something. -/
def starts_integer (s : String) : Bool :=
  match skip_sign (s.toList.dropWhile is_space) with
  | [] => false
  | c :: _ => c.isDigit

/-- Whether the list starts with the lower-case word `w`, in either case. -/
def starts_word (w cs : List Char) : Bool := (cs.take w.length).map Char.toLower == w

/-- Whether a string has, after optional white space and an optional sign, the start of
something `atof` converts: a digit, a point followed by a digit, or one of the words `inf`
and `nan` in either case. -/
def starts_float (s : String) : Bool :=
  match skip_sign (s.toList.dropWhile is_space) with
  | [] => false
  | c :: cs =>
    c.isDigit || (c == '.' && (match cs with | [] => false | d :: _ => d.isDigit)) ||
      starts_word ['i', 'n', 'f'] (c :: cs) || starts_word ['n', 'a', 'n'] (c :: cs)

/-- The argument `v` of the numeric flag `flag` has no leading numeric part. -/
def malformed (flag v : String) : Prop :=
  if flag ∈ int_flags then starts_integer v = false else starts_float v = false

/-- The field that the numeric flag `flag` sets, as a number. -/
def numeric_field (cfg : Config F) (flag : String) : F :=
  if flag = "--width" then (cfg.width : F)
  else if flag = "--height" then (cfg.height : F)
  else if flag = "--r1" then cfg.r1
  else if flag = "--r2" then cfg.r2
  else if flag = "--k1" then cfg.k1
  else if flag = "--k2" then cfg.k2
  else if flag = "--a-step" then cfg.a_step
  else if flag = "--b-step" then cfg.b_step
  else if flag = "--theta-step" then cfg.theta_step
  else if flag = "--phi-step" then cfg.phi_step
  else if flag = "--frames" then (cfg.frames : F)
  else 0

/-- The two configurations agree on the field that the value flag `flag` sets. -/
def same_field (flag : String) (c1 c2 : Config F) : Prop :=
  (flag = "--width" → c1.width = c2.width) ∧ (flag = "--height" → c1.height = c2.height) ∧
  (flag = "--r1" → c1.r1 = c2.r1) ∧ (flag = "--r2" → c1.r2 = c2.r2) ∧
  (flag = "--k1" → c1.k1 = c2.k1) ∧ (flag = "--k2" → c1.k2 = c2.k2) ∧
  (flag = "--a-step" → c1.a_step = c2.a_step) ∧ (flag = "--b-step" → c1.b_step = c2.b_step) ∧
  (flag = "--theta-step" → c1.theta_step = c2.theta_step) ∧
  (flag = "--phi-step" → c1.phi_step = c2.phi_step) ∧
  (flag = "--frames" → c1.frames = c2.frames) ∧ (flag = "--shading" → c1.shading = c2.shading)

/-- The value flags that a token list holds in flag position with an argument after them. -/
def valued_flags : List String → List String
  | [] => []
  | [_] => []
  | arg :: v :: rest =>
    if arg ∈ value_flags then arg :: valued_flags rest else valued_flags (v :: rest)

/-- The value and the number of the leading decimal digits of a list, and what follows. -/
def scan_digits : Nat → Nat → List Char → Nat × Nat × List Char
  | acc, k, [] => (acc, k, [])
  | acc, k, c :: cs =>
    if c.isDigit then scan_digits (acc * 10 + (c.toNat - 48)) (k + 1) cs else (acc, k, c :: cs)

/-- A function with the behaviour of the C library function `atoi` on values in the range of
`int`: white space, an optional sign and decimal digits; `0` when there is no digit. -/
def atoi_of (s : String) : Int :=
  match s.toList.dropWhile is_space with
  | [] => 0
  | c :: cs =>
    if c = '-' then -((scan_digits 0 0 cs).1 : Int)
    else if c = '+' then ((scan_digits 0 0 cs).1 : Int)
    else ((scan_digits 0 0 (c :: cs)).1 : Int)

/-- The value of decimal digits with an optional point among them. -/
def unsigned_decimal (cs : List Char) : F :=
  match (scan_digits 0 0 cs).2.2 with
  | [] => ((scan_digits 0 0 cs).1 : F)
  | c :: fs =>
    if c = '.' then
      ((scan_digits 0 0 cs).1 : F) + ((scan_digits 0 0 fs).1 : F) / 10 ^ (scan_digits 0 0 fs).2.1
    else ((scan_digits 0 0 cs).1 : F)

/-- A function with the behaviour of the C library function `atof` on plain decimal inputs:
white space, an optional sign, digits with an optional point; `0` when there is no digit.
Exponents, hexadecimal inputs, `inf` and `nan` are left out. -/
def atof_of (s : String) : F :=
  match s.toList.dropWhile is_space with
  | [] => 0
  | c :: cs =>
    if c = '-' then -(unsigned_decimal cs : F)
    else if c = '+' then unsigned_decimal cs
    else unsigned_decimal (c :: cs)

/-- The integer nearest to `q`, a tie going to the even one. -/
def round_even (q : F) : Int :=
  if q - ⌊q⌋ < 1 / 2 then ⌊q⌋
  else if 1 / 2 < q - ⌊q⌋ then ⌊q⌋ + 1
  else if ⌊q⌋ % 2 = 0 then ⌊q⌋ else ⌊q⌋ + 1

/-- The `double` nearest to `x`, a tie going to the even significand: 53 significant bits at
the exponent of `x`.  Overflow and subnormal numbers are left out. -/
def round_double (x : F) : F :=
  if 0 < x then
    (round_even (x / 2 ^ (Int.log 2 x - 52)) : F) * 2 ^ (Int.log 2 x - 52)
  else if x < 0 then
    -((round_even (-x / 2 ^ (Int.log 2 (-x) - 52)) : F) * 2 ^ (Int.log 2 (-x) - 52))
  else 0

/-- The addition of two `double`s: the exact sum, rounded to the nearest `double`. -/
def double_add (a b : F) : F := round_double (a + b)

/-- The default configuration with `theta_step = 2^-52`, a `double`. -/
def stall_config : Config F :=
  { (default_config : Config F) with theta_step := 1 / 2 ^ 52 }

end Trace

/-! ## The text block -/

section TextLemmas
variable {F : Type}

theorem index_ok_iff {α : Type} (v : List α) (i : Int) (x : α) :
    index v i = .ok x ↔ 0 ≤ i ∧ v[i.toNat]? = some x := by
  unfold index
  split
  · constructor
    · intro h; cases h
    · rintro ⟨h0, -⟩; omega
  · rename_i hi
    cases hv : v[i.toNat]? with
    | none => simp
    | some y =>
      simp only [Except.ok.injEq, Option.some.injEq]
      constructor
      · intro h; exact ⟨by omega, h⟩
      · intro h; exact h.2

theorem index_natCast_of_lt {α : Type} (v : List α) (n : Nat) (h : n < v.length) :
    index v (n : Int) = .ok (v.get ⟨n, h⟩) := by
  rw [index_ok_iff]
  refine ⟨by omega, ?_⟩
  simp [List.getElem?_eq_getElem h]

theorem emit_row_eq (cfg : Config F) (buffer : List Char) (w y : Nat) (hw : cfg.width = w) :
    ∀ (n x : Nat) (out : List Char), x + n + y * w ≤ buffer.length →
      emit_row cfg buffer (y : Int) n (x : Int) out =
        .ok (out ++ (List.range n).map (fun k => buffer.getD (x + k + y * w) ' ')) := by
  intro n
  induction n with
  | zero => intro x out _; simp [emit_row]
  | succ n ih =>
    intro x out hlen
    rw [emit_row]
    have hidx : ((x : Int) + (y : Int) * cfg.width) = ((x + y * w : Nat) : Int) := by
      rw [hw]; push_cast; ring
    have hlt : x + y * w < buffer.length := by omega
    rw [hidx, index_natCast_of_lt buffer _ hlt]
    simp only
    have h2 := ih (x + 1) (out ++ [buffer.get ⟨x + y * w, hlt⟩]) (by omega)
    have h3 : ((x : Int) + 1) = ((x + 1 : Nat) : Int) := by push_cast; ring
    rw [h3, h2, List.range_succ_eq_map, List.map_cons, List.map_map]
    simp only [List.append_assoc, List.singleton_append, List.getD_eq_getElem?_getD, Nat.add_zero,
      List.getElem?_eq_getElem hlt, Option.getD_some, List.get_eq_getElem]
    congr 3
    apply List.map_congr_left
    intro k _
    simp only [Function.comp, Nat.succ_eq_add_one]
    congr 2
    omega

theorem emit_rows_eq (cfg : Config F) (buffer : List Char) (w : Nat) (hw : cfg.width = w) :
    ∀ (n y : Nat) (out : List Char), (y + n) * w ≤ buffer.length →
      emit_rows cfg buffer n (y : Int) out =
        .ok (out ++ (((List.range n).map (fun j =>
          (List.range w).map (fun x => buffer.getD (x + (y + j) * w) ' '))).map
            (fun row => row ++ ['\n'])).flatten) := by
  intro n
  induction n with
  | zero => intro y out _; simp [emit_rows]
  | succ n ih =>
    intro y out hlen
    rw [emit_rows]
    have hwn : cfg.width.toNat = w := by rw [hw]; simp
    have h0 : (0 : Int) = ((0 : Nat) : Int) := rfl
    have hle : 0 + w + y * w ≤ buffer.length := by
      have : (y + (n + 1)) * w = y * w + n * w + w := by ring
      omega
    rw [hwn, h0, emit_row_eq cfg buffer w y hw w 0 out hle]
    simp only
    have h3 : ((y : Int) + 1) = ((y + 1 : Nat) : Int) := by push_cast; ring
    have hle2 : (y + 1 + n) * w ≤ buffer.length := by
      have : y + 1 + n = y + (n + 1) := by omega
      rw [this]; exact hlen
    rw [h3, ih (y + 1) _ hle2, List.range_succ_eq_map]
    simp only [List.map_cons, List.map_map, List.flatten_cons, List.append_assoc, Nat.add_zero,
      Nat.zero_add]
    congr 5
    apply List.map_congr_left
    intro j _
    simp only [Function.comp, Nat.succ_eq_add_one]
    have : y + 1 + j = y + (j + 1) := by omega
    rw [this]

theorem serialize_eq (cfg : Config F) (buffer : List Char) (w h : Nat)
    (hw : cfg.width = w) (hh : cfg.height = h) (hfit : ((w * h + h : Nat) : Int) ≤ INT_MAX)
    (hlen : buffer.length = w * h) :
    serialize cfg buffer = .ok (frame_text w h buffer) := by
  unfold serialize
  have hfits : fits_int (cfg.width * cfg.height + cfg.height) = true := by
    rw [hw, hh]
    simp only [fits_int, Bool.and_eq_true, decide_eq_true_eq, INT_MIN]
    constructor
    · have : (0 : Int) ≤ (w : Int) * h + h := by positivity
      omega
    · exact_mod_cast hfit
  have hnn : ¬ (cfg.width * cfg.height + cfg.height < 0) := by
    rw [hw, hh]
    have : (0 : Int) ≤ (w : Int) * h + h := by positivity
    omega
  have hhn : cfg.height.toNat = h := by rw [hh]; simp
  have h0 : (0 : Int) = ((0 : Nat) : Int) := rfl
  rw [hfits]
  simp only [Bool.not_true, Bool.false_eq_true, if_false, hnn, hhn]
  rw [h0, emit_rows_eq cfg buffer w hw h 0 [] (by rw [hlen]; simp [Nat.mul_comm])]
  simp [frame_text, frame_rows, lines_text]

theorem lines_text_cons (row : List Char) (rows : List (List Char)) :
    lines_text (row :: rows) = (row ++ ['\n']) ++ lines_text rows := by
  simp [lines_text]

theorem lines_text_length (w : Nat) : ∀ (rows : List (List Char)),
    (∀ row ∈ rows, row.length = w) → (lines_text rows).length = rows.length * (w + 1) := by
  intro rows
  induction rows with
  | nil => intro _; simp [lines_text]
  | cons row rows ih =>
    intro h
    rw [lines_text_cons, List.length_append, ih (fun r hr => h r (List.mem_cons_of_mem _ hr))]
    have := h row (List.mem_cons_self _ _)
    simp only [List.length_append, List.length_cons, List.length_nil, this]
    ring

theorem lines_text_getElem (w : Nat) : ∀ (rows : List (List Char)),
    (∀ row ∈ rows, row.length = w) → ∀ (y x : Nat), y < rows.length → x ≤ w →
      (lines_text rows)[y * (w + 1) + x]? = ((rows.getD y []) ++ ['\n'])[x]? := by
  intro rows
  induction rows with
  | nil => intro _ y x hy; simp at hy
  | cons row rows ih =>
    intro h y x hy hx
    have hrow := h row (List.mem_cons_self _ _)
    rw [lines_text_cons]
    cases y with
    | zero =>
      simp only [Nat.zero_mul, Nat.zero_add, List.getD_cons_zero]
      rw [List.getElem?_append_left]
      simp [hrow]; omega
    | succ y =>
      have hlen : (row ++ ['\n']).length = w + 1 := by simp [hrow]
      have hge : (row ++ ['\n']).length ≤ (y + 1) * (w + 1) + x := by
        rw [hlen]; nlinarith
      rw [List.getElem?_append_right hge, hlen]
      have : (y + 1) * (w + 1) + x - (w + 1) = y * (w + 1) + x := by
        have : (y + 1) * (w + 1) = y * (w + 1) + (w + 1) := by ring
        omega
      rw [this, ih (fun r hr => h r (List.mem_cons_of_mem _ hr)) y x (by simpa using hy) hx]
      simp

theorem frame_rows_length (w h : Nat) (buffer : List Char) :
    (frame_rows w h buffer).length = h := by
  simp [frame_rows]

theorem frame_rows_row_length (w h : Nat) (buffer : List Char) :
    ∀ row ∈ frame_rows w h buffer, row.length = w := by
  intro row hrow
  simp only [frame_rows, List.mem_map, List.mem_range] at hrow
  obtain ⟨y, _, rfl⟩ := hrow
  simp

theorem frame_text_length (w h : Nat) (buffer : List Char) :
    (frame_text w h buffer).length = h * (w + 1) := by
  have := lines_text_length w (frame_rows w h buffer) (frame_rows_row_length w h buffer)
  rw [frame_rows_length] at this
  exact this

theorem frame_text_cell (w h : Nat) (buffer : List Char) (x y : Nat) (hx : x < w) (hy : y < h) :
    (frame_text w h buffer)[y * (w + 1) + x]? = some (buffer.getD (x + y * w) ' ') := by
  have := lines_text_getElem w (frame_rows w h buffer) (frame_rows_row_length w h buffer) y x
    (by rw [frame_rows_length]; exact hy) (le_of_lt hx)
  rw [show frame_text w h buffer = lines_text (frame_rows w h buffer) from rfl, this]
  simp only [frame_rows, List.getD_eq_getElem?_getD, List.getElem?_map, List.getElem?_range hy,
    Option.map_some', Option.getD_some]
  rw [List.getElem?_append_left (by simpa using hx)]
  simp [List.getElem?_range hx]

theorem frame_text_newline (w h : Nat) (buffer : List Char) (y : Nat) (hy : y < h) :
    (frame_text w h buffer)[y * (w + 1) + w]? = some '\n' := by
  have := lines_text_getElem w (frame_rows w h buffer) (frame_rows_row_length w h buffer) y w
    (by rw [frame_rows_length]; exact hy) (le_refl _)
  rw [show frame_text w h buffer = lines_text (frame_rows w h buffer) from rfl, this]
  simp only [frame_rows, List.getD_eq_getElem?_getD, List.getElem?_map, List.getElem?_range hy,
    Option.map_some', Option.getD_some]
  rw [List.getElem?_append_right (by simp)]
  simp

end TextLemmas

/-! ## The plotting step and the loops -/

section CoreLemmas

set_option linter.unusedSectionVars false

variable {F : Type} [LinearOrderedField F] [FloorRing F]

/-! ### One plotting step -/

theorem store_eq_of_lt {α : Type} (v : List α) (n : Nat) (x : α) (h : n < v.length) (i : Int)
    (hi : i = n) : store v i x = .ok (v.set n x) := by
  subst hi
  simp [store, h]

theorem index_eq_of_getElem? {α : Type} (v : List α) (n : Nat) (x : α) (h : v[n]? = some x)
    (i : Int) (hi : i = n) : index v i = .ok x := by
  subst hi
  rw [index_ok_iff]
  exact ⟨by omega, by simpa using h⟩

theorem visible_cell_lt (cfg : Config F) (s : Sample F) (hv : visible cfg s) :
    ((cell cfg s : Nat) : Int) = s.xp + cfg.width * s.yp ∧
      cell cfg s < (cfg.width * cfg.height).toNat := by
  obtain ⟨_, hx0, hx1, hy0, hy1⟩ := hv
  have h1 : 0 ≤ cfg.width * s.yp := mul_nonneg (by omega) hy0
  have h2 : cfg.width * (s.yp + 1) ≤ cfg.width * cfg.height :=
    mul_le_mul_of_nonneg_left (by omega) (by omega)
  have h3 : cfg.width * (s.yp + 1) = cfg.width * s.yp + cfg.width := by ring
  unfold cell
  constructor
  · omega
  · omega

theorem plot_skip (cfg : Config F) (s : Sample F) (st : Buffers F) (hv : ¬ visible cfg s) :
    plot cfg s st = .ok st := by
  unfold visible at hv
  unfold plot
  rw [if_neg hv]

theorem plot_keep (cfg : Config F) (s : Sample F) (st : Buffers F) (hv : visible cfg s)
    (depth : F) (hd : st.zbuffer[cell cfg s]? = some depth) (hle : s.ooz ≤ depth) :
    plot cfg s st = .ok st := by
  have hi := (visible_cell_lt cfg s hv).1.symm
  unfold visible at hv
  unfold plot
  rw [if_pos hv]
  simp only
  rw [index_eq_of_getElem? st.zbuffer (cell cfg s) depth hd _ hi]
  simp only
  rw [if_neg (not_lt.mpr hle)]

theorem plot_draw (cfg : Config F) (s : Sample F) (st : Buffers F) (hv : visible cfg s)
    (depth : F) (hd : st.zbuffer[cell cfg s]? = some depth) (hlt : depth < s.ooz)
    (hb : cell cfg s < st.buffer.length) (c : Char) (hc : shade_char cfg s.luminance = .ok c) :
    plot cfg s st =
      .ok ⟨st.buffer.set (cell cfg s) c, st.zbuffer.set (cell cfg s) s.ooz⟩ := by
  have hi := (visible_cell_lt cfg s hv).1.symm
  unfold visible at hv
  unfold plot
  rw [if_pos hv]
  simp only
  rw [index_eq_of_getElem? st.zbuffer (cell cfg s) depth hd _ hi]
  simp only
  rw [if_pos hlt]
  have hz : cell cfg s < st.zbuffer.length := by
    rw [List.getElem?_eq_some] at hd
    exact hd.1
  rw [store_eq_of_lt st.zbuffer (cell cfg s) s.ooz hz _ hi]
  simp only
  rw [hc]
  simp only
  rw [store_eq_of_lt st.buffer (cell cfg s) c hb _ hi]

theorem plot_draw_error (cfg : Config F) (s : Sample F) (st : Buffers F) (hv : visible cfg s)
    (depth : F) (hd : st.zbuffer[cell cfg s]? = some depth) (hlt : depth < s.ooz)
    (e : Fault) (hc : shade_char cfg s.luminance = .error e) :
    plot cfg s st = .error e := by
  have hi := (visible_cell_lt cfg s hv).1.symm
  unfold visible at hv
  unfold plot
  rw [if_pos hv]
  simp only
  rw [index_eq_of_getElem? st.zbuffer (cell cfg s) depth hd _ hi]
  simp only
  rw [if_pos hlt]
  have hz : cell cfg s < st.zbuffer.length := by
    rw [List.getElem?_eq_some] at hd
    exact hd.1
  rw [store_eq_of_lt st.zbuffer (cell cfg s) s.ooz hz _ hi]
  simp only
  rw [hc]

theorem plot_all_append (cfg : Config F) : ∀ (l1 l2 : List (Sample F)) (st : Buffers F),
    plot_all cfg (l1 ++ l2) st =
      match plot_all cfg l1 st with
      | .error e => .error e
      | .ok st1 => plot_all cfg l2 st1 := by
  intro l1
  induction l1 with
  | nil => intro l2 st; simp [plot_all]
  | cons s l1 ih =>
    intro l2 st
    simp only [List.cons_append, plot_all]
    cases h : plot cfg s st with
    | error e => simp
    | ok st1 => exact ih l2 st1

theorem plot_all_snoc (cfg : Config F) (l : List (Sample F)) (s : Sample F) (st st1 : Buffers F)
    (h : plot_all cfg l st = .ok st1) : plot_all cfg (l ++ [s]) st = plot cfg s st1 := by
  rw [plot_all_append, h]
  simp only [plot_all]
  cases plot cfg s st1 <;> rfl

/-! ### The z-buffer invariant -/

theorem front_hits_snoc (cfg : Config F) (c : Nat) (l : List (Sample F)) (s : Sample F) :
    front_hits cfg c (l ++ [s]) =
      if visible cfg s ∧ cell cfg s = c ∧ 0 < s.ooz then front_hits cfg c l ++ [s]
      else front_hits cfg c l := by
  unfold front_hits hits
  rw [List.filter_append, List.filter_append]
  by_cases h1 : visible cfg s ∧ cell cfg s = c
  · by_cases h2 : 0 < s.ooz
    · have : visible cfg s ∧ cell cfg s = c ∧ 0 < s.ooz := ⟨h1.1, h1.2, h2⟩
      simp [List.filter_cons, h1, h2, this]
    · have : ¬ (visible cfg s ∧ cell cfg s = c ∧ 0 < s.ooz) := fun h => h2 h.2.2
      simp [List.filter_cons, h1, h2, this]
  · have : ¬ (visible cfg s ∧ cell cfg s = c ∧ 0 < s.ooz) := fun h => h1 ⟨h.1, h.2.1⟩
    simp [List.filter_cons, h1, this]

theorem front_hits_pos (cfg : Config F) (c : Nat) (l : List (Sample F)) (s : Sample F)
    (h : s ∈ front_hits cfg c l) : 0 < s.ooz ∧ visible cfg s ∧ cell cfg s = c ∧ s ∈ l := by
  unfold front_hits hits at h
  simp only [List.mem_filter, decide_eq_true_eq] at h
  exact ⟨h.2, h.1.2.1, h.1.2.2, h.1.1⟩

theorem first_max_mem (l : List (Sample F)) (m : Sample F) (h : first_max l m) : m ∈ l := by
  obtain ⟨pre, post, rfl, -, -⟩ := h
  simp

theorem first_max_singleton (s : Sample F) : first_max [s] s :=
  ⟨[], [], rfl, by simp, by simp⟩

theorem first_max_snoc_le (l : List (Sample F)) (m s : Sample F) (h : first_max l m)
    (hle : s.ooz ≤ m.ooz) : first_max (l ++ [s]) m := by
  obtain ⟨pre, post, rfl, h1, h2⟩ := h
  refine ⟨pre, post ++ [s], by simp, h1, ?_⟩
  intro t ht
  rcases List.mem_append.mp ht with ht | ht
  · exact h2 t ht
  · rw [List.mem_singleton.mp ht]; exact hle

theorem first_max_snoc_gt (l : List (Sample F)) (m s : Sample F) (h : first_max l m)
    (hgt : m.ooz < s.ooz) : first_max (l ++ [s]) s := by
  obtain ⟨pre, post, rfl, h1, h2⟩ := h
  refine ⟨pre ++ m :: post, [], by simp, ?_, by simp⟩
  intro t ht
  rcases List.mem_append.mp ht with ht | ht
  · exact lt_trans (h1 t ht) hgt
  · rcases List.mem_cons.mp ht with ht | ht
    · rw [ht]; exact hgt
    · exact lt_of_le_of_lt (h2 t ht) hgt

theorem first_max_unique (l : List (Sample F)) (m1 m2 : Sample F) (h1 : first_max l m1)
    (h2 : first_max l m2) : m1.ooz = m2.ooz := by
  have hm1 := first_max_mem l m1 h1
  have hm2 := first_max_mem l m2 h2
  obtain ⟨pre1, post1, e1, a1, b1⟩ := h1
  obtain ⟨pre2, post2, e2, a2, b2⟩ := h2
  have le12 : m1.ooz ≤ m2.ooz := by
    rw [e2] at hm1
    rcases List.mem_append.mp hm1 with h | h
    · exact le_of_lt (a2 _ h)
    · rcases List.mem_cons.mp h with h | h
      · rw [h]
      · exact b2 _ h
  have le21 : m2.ooz ≤ m1.ooz := by
    rw [e1] at hm2
    rcases List.mem_append.mp hm2 with h | h
    · exact le_of_lt (a1 _ h)
    · rcases List.mem_cons.mp h with h | h
      · rw [h]
      · exact b1 _ h
  exact le_antisymm le12 le21

/-- One plotting step keeps the lengths and the state of every position, provided it
succeeds. -/
theorem plot_cell_state (cfg : Config F) (n : Nat) (hn : n = (cfg.width * cfg.height).toNat)
    (l : List (Sample F)) (s : Sample F) (st st1 : Buffers F)
    (hb : st.buffer.length = n) (hz : st.zbuffer.length = n)
    (hinv : ∀ c < n, cell_state cfg l st c) (h : plot cfg s st = .ok st1) :
    st1.buffer.length = n ∧ st1.zbuffer.length = n ∧
      ∀ c < n, cell_state cfg (l ++ [s]) st1 c := by
  by_cases hv : visible cfg s
  · have hcn : cell cfg s < n := by rw [hn]; exact (visible_cell_lt cfg s hv).2
    obtain ⟨depth, hd⟩ : ∃ d, st.zbuffer[cell cfg s]? = some d := by
      rw [← hz] at hcn
      exact ⟨_, List.getElem?_eq_getElem hcn⟩
    by_cases hlt : depth < s.ooz
    · -- the sample is drawn
      cases hc : shade_char cfg s.luminance with
      | error e =>
        rw [plot_draw_error cfg s st hv depth hd hlt e hc] at h
        cases h
      | ok ch =>
        rw [plot_draw cfg s st hv depth hd hlt (by rw [hb]; exact hcn) ch hc] at h
        cases h
        refine ⟨by simp [hb], by simp [hz], ?_⟩
        intro c hcl
        rw [cell_state, front_hits_snoc]
        by_cases hcc : cell cfg s = c
        · subst hcc
          have hpos : 0 < s.ooz := by
            rcases hinv _ hcn with ⟨_, _, h0⟩ | ⟨m, _, hm, _, _, hmz⟩
            · rw [hd] at h0; cases h0; exact hlt
            · rw [hd] at hmz; cases hmz
              exact lt_trans (front_hits_pos cfg _ l m (first_max_mem _ _ hm)).1 hlt
          rw [if_pos ⟨hv, rfl, hpos⟩]
          right
          refine ⟨s, ch, ?_, hc, ?_, ?_⟩
          · rcases hinv _ hcn with ⟨he, _, _⟩ | ⟨m, _, hm, _, _, hmz⟩
            · rw [he]; exact first_max_singleton s
            · rw [hd] at hmz; cases hmz
              exact first_max_snoc_gt _ m s hm hlt
          · simp only
            rw [List.getElem?_set_self (by rw [hb]; exact hcn)]
          · simp only
            rw [List.getElem?_set_self (by rw [hz]; exact hcn)]
        · rw [if_neg (fun hh => hcc hh.2.1)]
          simp only [List.getElem?_set_ne hcc]
          exact hinv c hcl
    · -- the sample is behind what is there
      have hle : s.ooz ≤ depth := not_lt.mp hlt
      rw [plot_keep cfg s st hv depth hd hle] at h
      cases h
      refine ⟨hb, hz, ?_⟩
      intro c hcl
      rw [cell_state, front_hits_snoc]
      by_cases hcc : cell cfg s = c
      · subst hcc
        rcases hinv _ hcn with ⟨he, hbc, h0⟩ | ⟨m, ch, hm, hch, hbc, hmz⟩
        · have hnp : ¬ 0 < s.ooz := by
            rw [hd] at h0; cases h0; exact not_lt.mpr hle
          rw [if_neg (fun hh => hnp hh.2.2)]
          exact Or.inl ⟨he, hbc, h0⟩
        · rw [hd] at hmz; cases hmz
          right
          refine ⟨m, ch, ?_, hch, hbc, hd⟩
          split
          · exact first_max_snoc_le _ m s hm hle
          · exact hm
      · rw [if_neg (fun hh => hcc hh.2.1)]
        exact hinv c hcl
  · rw [plot_skip cfg s st hv] at h
    cases h
    refine ⟨hb, hz, ?_⟩
    intro c hcl
    rw [cell_state, front_hits_snoc, if_neg (fun hh => hv hh.1)]
    exact hinv c hcl

/-- The z-buffer invariant: after plotting `l` on blank buffers, every position holds the
first nearest sample of `front_hits`, or is untouched when there is none. -/
theorem plot_all_cell_state (cfg : Config F) (n : Nat)
    (hn : n = (cfg.width * cfg.height).toNat) (l : List (Sample F)) :
    ∀ st, plot_all cfg l (blank n) = .ok st →
      st.buffer.length = n ∧ st.zbuffer.length = n ∧ ∀ c < n, cell_state cfg l st c := by
  induction l using List.reverseRecOn with
  | nil =>
    intro st h
    simp only [plot_all, Except.ok.injEq] at h
    subst h
    refine ⟨by simp [blank], by simp [blank], ?_⟩
    intro c hc
    left
    simp [front_hits, hits, blank, hc]
  | append_singleton l s ih =>
    intro st1 h
    cases hl : plot_all cfg l (blank n) with
    | error e =>
      rw [plot_all_append, hl] at h
      cases h
    | ok st =>
      rw [plot_all_snoc cfg l s _ st hl] at h
      obtain ⟨hb, hz, hinv⟩ := ih st hl
      exact plot_cell_state cfg n hn l s st st1 hb hz hinv h

/-! ### The angle loops -/

theorem sweep_zero {σ : Type} (step : F) (body : F → σ → Except Fault σ) (v : F) (st : σ) :
    sweep step body 0 v st = .error .outOfFuel := rfl

theorem sweep_succ {σ : Type} (step : F) (body : F → σ → Except Fault σ) (fuel : Nat) (v : F)
    (st : σ) :
    sweep step body (fuel + 1) v st =
      if v < two_pi then
        match body v st with
        | .error e => .error e
        | .ok st1 => sweep step body fuel (v + step) st1
      else .ok st := rfl

/-- Two loops whose bodies keep a relation between their states keep it. -/
theorem sweep_sim {σ τ : Type} (R : σ → τ → Prop) (step : F)
    (b1 : F → σ → Except Fault σ) (b2 : F → τ → Except Fault τ)
    (hstep : ∀ v s t s1, R s t → b1 v s = .ok s1 → ∃ t1, b2 v t = .ok t1 ∧ R s1 t1) :
    ∀ (fuel : Nat) (v : F) (s : σ) (t : τ) (s1 : σ), R s t →
      sweep step b1 fuel v s = .ok s1 → ∃ t1, sweep step b2 fuel v t = .ok t1 ∧ R s1 t1 := by
  intro fuel
  induction fuel with
  | zero => intro v s t s1 _ h; rw [sweep_zero] at h; cases h
  | succ fuel ih =>
    intro v s t s1 hR h
    rw [sweep_succ] at h
    rw [sweep_succ]
    by_cases hv : v < two_pi
    · rw [if_pos hv] at h
      rw [if_pos hv]
      cases hb : b1 v s with
      | error e => rw [hb] at h; cases h
      | ok s2 =>
        rw [hb] at h
        obtain ⟨t2, ht2, hR2⟩ := hstep v s t s2 hR hb
        rw [ht2]
        exact ih (v + step) s2 t2 s1 hR2 h
    · rw [if_neg hv] at h
      rw [if_neg hv]
      cases h
      exact ⟨t, rfl, hR⟩

/-- A loop that succeeds relates its first and last states by any preorder its body
respects. -/
theorem sweep_rel {σ : Type} (Q : σ → σ → Prop) (hrefl : ∀ s, Q s s)
    (htrans : ∀ s1 s2 s3, Q s1 s2 → Q s2 s3 → Q s1 s3) (step : F)
    (body : F → σ → Except Fault σ) (hbody : ∀ v s s1, body v s = .ok s1 → Q s s1) :
    ∀ (fuel : Nat) (v : F) (s s1 : σ), sweep step body fuel v s = .ok s1 → Q s s1 := by
  intro fuel
  induction fuel with
  | zero => intro v s s1 h; rw [sweep_zero] at h; cases h
  | succ fuel ih =>
    intro v s s1 h
    rw [sweep_succ] at h
    by_cases hv : v < two_pi
    · rw [if_pos hv] at h
      cases hb : body v s with
      | error e => rw [hb] at h; cases h
      | ok s2 =>
        rw [hb] at h
        exact htrans _ _ _ (hbody v s s2 hb) (ih _ _ _ h)
    · rw [if_neg hv] at h
      cases h
      exact hrefl s

/-- A loop that succeeds has run its body at every `v + k * step` below `two_pi`. -/
theorem sweep_visits {σ : Type} (Q : σ → σ → Prop) (hrefl : ∀ s, Q s s)
    (htrans : ∀ s1 s2 s3, Q s1 s2 → Q s2 s3 → Q s1 s3) (step : F) (hstep : 0 ≤ step)
    (body : F → σ → Except Fault σ) (hbody : ∀ v s s1, body v s = .ok s1 → Q s s1) :
    ∀ (k fuel : Nat) (v : F) (s s1 : σ), sweep step body fuel v s = .ok s1 →
      v + k * step < two_pi →
      ∃ t t1, Q s t ∧ body (v + k * step) t = .ok t1 ∧ Q t1 s1 := by
  intro k
  induction k with
  | zero =>
    intro fuel v s s1 h hk
    simp only [Nat.cast_zero, zero_mul, add_zero] at hk ⊢
    cases fuel with
    | zero => rw [sweep_zero] at h; cases h
    | succ fuel =>
      rw [sweep_succ, if_pos hk] at h
      cases hb : body v s with
      | error e => rw [hb] at h; cases h
      | ok s2 =>
        rw [hb] at h
        exact ⟨s, s2, hrefl s, hb, sweep_rel Q hrefl htrans step body hbody _ _ _ _ h⟩
  | succ k ih =>
    intro fuel v s s1 h hk
    have hk1 : v + step + k * step < two_pi := by
      have : v + step + k * step = v + ((k + 1 : Nat) : F) * step := by push_cast; ring
      rw [this]; exact hk
    have hv : v < two_pi := by
      have : 0 ≤ ((k + 1 : Nat) : F) * step := mul_nonneg (Nat.cast_nonneg _) hstep
      linarith
    cases fuel with
    | zero => rw [sweep_zero] at h; cases h
    | succ fuel =>
      rw [sweep_succ, if_pos hv] at h
      cases hb : body v s with
      | error e => rw [hb] at h; cases h
      | ok s2 =>
        rw [hb] at h
        obtain ⟨t, t1, h1, h2, h3⟩ := ih fuel (v + step) s2 s1 h hk1
        have e : v + step + k * step = v + ((k + 1 : Nat) : F) * step := by push_cast; ring
        rw [e] at h2
        exact ⟨t, t1, htrans _ _ _ (hbody v s s2 hb) h1, h2, h3⟩

/-- More fuel and a body that extends the first give the same result. -/
theorem sweep_mono {σ : Type} (step : F) (b1 b2 : F → σ → Except Fault σ)
    (hb : ∀ v s s1, b1 v s = .ok s1 → b2 v s = .ok s1) :
    ∀ (fuel1 fuel2 : Nat) (v : F) (s s1 : σ), fuel1 ≤ fuel2 →
      sweep step b1 fuel1 v s = .ok s1 → sweep step b2 fuel2 v s = .ok s1 := by
  intro fuel1
  induction fuel1 with
  | zero => intro fuel2 v s s1 _ h; rw [sweep_zero] at h; cases h
  | succ fuel1 ih =>
    intro fuel2 v s s1 hle h
    obtain ⟨fuel3, rfl⟩ : ∃ f, fuel2 = f + 1 := ⟨fuel2 - 1, by omega⟩
    rw [sweep_succ] at h
    rw [sweep_succ]
    by_cases hv : v < two_pi
    · rw [if_pos hv] at h
      rw [if_pos hv]
      cases hb1 : b1 v s with
      | error e => rw [hb1] at h; cases h
      | ok s2 =>
        rw [hb1] at h
        rw [hb v s s2 hb1]
        exact ih fuel3 (v + step) s2 s1 (by omega) h
    · rw [if_neg hv] at h
      rw [if_neg hv]
      exact h

/-- A loop with a positive step and a body that succeeds on an invariant returns, given
fuel beyond the number of steps that reach `two_pi`. -/
theorem sweep_total {σ : Type} (P : σ → Prop) (step : F)
    (body : F → σ → Except Fault σ) :
    ∀ (n : Nat) (v : F) (s : σ), two_pi ≤ v + n * step → P s →
      (∀ (k : Nat) (t : σ), v + k * step < two_pi → P t →
        ∃ t1, body (v + k * step) t = .ok t1 ∧ P t1) →
      ∀ fuel, n < fuel → ∃ s1, sweep step body fuel v s = .ok s1 ∧ P s1 := by
  intro n
  induction n with
  | zero =>
    intro v s hn hP _ fuel hf
    simp only [Nat.cast_zero, zero_mul, add_zero] at hn
    obtain ⟨f, rfl⟩ : ∃ f, fuel = f + 1 := ⟨fuel - 1, by omega⟩
    rw [sweep_succ, if_neg (not_lt.mpr hn)]
    exact ⟨s, rfl, hP⟩
  | succ n ih =>
    intro v s hn hP hbody fuel hf
    obtain ⟨f, rfl⟩ : ∃ f, fuel = f + 1 := ⟨fuel - 1, by omega⟩
    rw [sweep_succ]
    by_cases hv : v < two_pi
    · rw [if_pos hv]
      obtain ⟨t1, hb, hP1⟩ := hbody 0 s (by simpa using hv) hP
      simp only [Nat.cast_zero, zero_mul, add_zero] at hb
      rw [hb]
      have hn1 : two_pi ≤ v + step + n * step := by
        have : v + step + n * step = v + ((n + 1 : Nat) : F) * step := by push_cast; ring
        rw [this]; exact hn
      refine ih (v + step) t1 hn1 hP1 ?_ f (by omega)
      intro k t hk hPt
      have e : v + step + k * step = v + ((k + 1 : Nat) : F) * step := by push_cast; ring
      rw [e] at hk ⊢
      exact hbody (k + 1) t hk hPt
    · rw [if_neg hv]
      exact ⟨s, rfl, hP⟩

/-- With a positive step some number of steps reaches `two_pi`. -/
theorem exists_steps (step : F) (hstep : 0 < step) : ∃ n : Nat, (two_pi : F) ≤ 0 + n * step := by
  obtain ⟨n, hn⟩ := exists_nat_ge ((two_pi : F) / step)
  refine ⟨n, ?_⟩
  rw [zero_add]
  exact (div_le_iff₀ hstep).mp hn

/-! ### Shading -/

theorem shade_index_eq_clamp (luminance : F) (size : Int) (hsize : 1 ≤ size) :
    shade_index luminance size = max 0 (min (trunc (luminance * 8)) (size - 1)) := by
  unfold shade_index
  simp only
  split_ifs with h1 h2 h3 <;> omega

theorem shade_index_range (luminance : F) (size : Int) (hsize : 1 ≤ size) :
    0 ≤ shade_index luminance size ∧ shade_index luminance size ≤ size - 1 := by
  rw [shade_index_eq_clamp luminance size hsize]
  omega

theorem shade_index_mono (l1 l2 : F) (size : Int) (hsize : 1 ≤ size)
    (h : trunc (l1 * 8) ≤ trunc (l2 * 8)) : shade_index l1 size ≤ shade_index l2 size := by
  rw [shade_index_eq_clamp l1 size hsize, shade_index_eq_clamp l2 size hsize]
  omega

theorem shade_char_of_nonempty (cfg : Config F) (luminance : F) (hne : cfg.shading ≠ []) :
    ∃ c, shade_char cfg luminance = .ok c ∧ c ∈ cfg.shading ∧
      cfg.shading[(shade_index luminance (cfg.shading.length : Int)).toNat]? = some c := by
  have hlen : 1 ≤ (cfg.shading.length : Int) := by
    have := List.length_pos.mpr hne
    omega
  obtain ⟨h0, h1⟩ := shade_index_range luminance _ hlen
  have hlt : (shade_index luminance (cfg.shading.length : Int)).toNat < cfg.shading.length := by
    omega
  refine ⟨cfg.shading.get ⟨_, hlt⟩, ?_, List.get_mem _ _ _, ?_⟩
  · unfold shade_char
    rw [index_ok_iff]
    exact ⟨h0, by simp [List.getElem?_eq_getElem hlt]⟩
  · simp [List.getElem?_eq_getElem hlt]

theorem shade_char_mem (cfg : Config F) (luminance : F) (c : Char)
    (h : shade_char cfg luminance = .ok c) : c ∈ cfg.shading := by
  unfold shade_char at h
  rw [index_ok_iff] at h
  exact List.getElem?_mem h.2

/-- The plotting step succeeds on buffers of the right size when the palette is not empty,
and keeps the sizes. -/
theorem plot_total (cfg : Config F) (n : Nat) (hn : n = (cfg.width * cfg.height).toNat)
    (hne : cfg.shading ≠ []) (s : Sample F) (st : Buffers F)
    (hb : st.buffer.length = n) (hz : st.zbuffer.length = n) :
    ∃ st1, plot cfg s st = .ok st1 ∧ st1.buffer.length = n ∧ st1.zbuffer.length = n := by
  by_cases hv : visible cfg s
  · have hcn : cell cfg s < n := by rw [hn]; exact (visible_cell_lt cfg s hv).2
    obtain ⟨depth, hd⟩ : ∃ d, st.zbuffer[cell cfg s]? = some d := by
      rw [← hz] at hcn
      exact ⟨_, List.getElem?_eq_getElem hcn⟩
    by_cases hlt : depth < s.ooz
    · obtain ⟨c, hc, -, -⟩ := shade_char_of_nonempty cfg s.luminance hne
      rw [plot_draw cfg s st hv depth hd hlt (by rw [hb]; exact hcn) c hc]
      exact ⟨_, rfl, by simp [hb], by simp [hz]⟩
    · rw [plot_keep cfg s st hv depth hd (not_lt.mp hlt)]
      exact ⟨st, rfl, hb, hz⟩
  · rw [plot_skip cfg s st hv]
    exact ⟨st, rfl, hb, hz⟩

/-! ### The frame -/

theorem phi_body_eq (sin cos : F → F) (r : Renderer F) (theta phi : F) (st : Buffers F) :
    phi_body sin cos r.cfg_ (sin r.a_) (cos r.a_) (sin r.b_) (cos r.b_) (sin theta) (cos theta)
        (r.cfg_.r2 + r.cfg_.r1 * cos theta) (r.cfg_.r1 * sin theta) phi st =
      match sample_at sin cos r theta phi with
      | .error e => .error e
      | .ok s => plot r.cfg_ s st := rfl

theorem theta_body_eq (sin cos : F → F) (r : Renderer F) (fuel : Nat) (theta : F)
    (st : Buffers F) :
    theta_body sin cos r.cfg_ (sin r.a_) (cos r.a_) (sin r.b_) (cos r.b_) fuel theta st =
      sweep r.cfg_.phi_step (fun phi st1 =>
        match sample_at sin cos r theta phi with
        | .error e => .error e
        | .ok s => plot r.cfg_ s st1) fuel 0 st := rfl

/-- The sampling loops of `render_frame`, on the buffers of lines 59-60. -/
theorem rasterize_eq (sin cos : F → F) (r : Renderer F) (fuel : Nat)
    (hfit : 0 ≤ r.cfg_.width * r.cfg_.height ∧ r.cfg_.width * r.cfg_.height ≤ INT_MAX) :
    rasterize sin cos r fuel =
      sweep r.cfg_.theta_step (fun theta st =>
        sweep r.cfg_.phi_step (fun phi st1 =>
          match sample_at sin cos r theta phi with
          | .error e => .error e
          | .ok s => plot r.cfg_ s st1) fuel 0 st) fuel 0
        (blank (r.cfg_.width * r.cfg_.height).toNat) := by
  unfold rasterize
  have h1 : fits_int (r.cfg_.width * r.cfg_.height) = true := by
    simp only [fits_int, Bool.and_eq_true, decide_eq_true_eq, INT_MIN]
    exact ⟨by omega, hfit.2⟩
  have h2 : ¬ (r.cfg_.width * r.cfg_.height < 0) := by omega
  simp only [h1, Bool.not_true, Bool.false_eq_true, if_false, h2]
  rfl

theorem rasterize_ok_fits (sin cos : F → F) (r : Renderer F) (fuel : Nat) (st : Buffers F)
    (h : rasterize sin cos r fuel = .ok st) :
    0 ≤ r.cfg_.width * r.cfg_.height ∧ r.cfg_.width * r.cfg_.height ≤ INT_MAX := by
  unfold rasterize at h
  simp only at h
  split at h
  · cases h
  · rename_i h1
    split at h
    · cases h
    · rename_i h2
      have h3 : fits_int (r.cfg_.width * r.cfg_.height) = true := by simpa using h1
      simp only [fits_int, Bool.and_eq_true, decide_eq_true_eq] at h3
      exact ⟨by omega, h3.2⟩

/-- The frame buffers are the result of plotting the visited samples in order. -/
theorem rasterize_trace (sin cos : F → F) (r : Renderer F) (fuel : Nat) (st : Buffers F)
    (h : rasterize sin cos r fuel = .ok st) :
    ∃ l, visited sin cos r fuel = .ok l ∧
      plot_all r.cfg_ l (blank (r.cfg_.width * r.cfg_.height).toNat) = .ok st := by
  have hfit := rasterize_ok_fits sin cos r fuel st h
  rw [rasterize_eq sin cos r fuel hfit] at h
  unfold visited
  refine sweep_sim
    (fun (s : Buffers F) (t : List (Sample F)) =>
      plot_all r.cfg_ t (blank (r.cfg_.width * r.cfg_.height).toNat) = .ok s)
    _ _ _ ?_ fuel 0 _ [] st rfl h
  intro theta s t s1 hR hb
  refine sweep_sim
    (fun (s : Buffers F) (t : List (Sample F)) =>
      plot_all r.cfg_ t (blank (r.cfg_.width * r.cfg_.height).toNat) = .ok s)
    _ _ _ ?_ fuel 0 s t s1 hR hb
  intro phi s2 t2 s3 hR2 hb2
  simp only at hb2
  unfold record_body
  cases hs : sample_at sin cos r theta phi with
  | error e => rw [hs] at hb2; cases hb2
  | ok smp =>
    rw [hs] at hb2
    simp only at hb2 ⊢
    refine ⟨_, rfl, ?_⟩
    rw [plot_all_snoc r.cfg_ t2 smp _ s2 hR2]
    exact hb2

/-- More fuel does not change a frame that was produced. -/
theorem rasterize_mono (sin cos : F → F) (r : Renderer F) (fuel1 fuel2 : Nat) (st : Buffers F)
    (hle : fuel1 ≤ fuel2) (h : rasterize sin cos r fuel1 = .ok st) :
    rasterize sin cos r fuel2 = .ok st := by
  have hfit := rasterize_ok_fits sin cos r fuel1 st h
  rw [rasterize_eq sin cos r fuel1 hfit] at h
  rw [rasterize_eq sin cos r fuel2 hfit]
  refine sweep_mono _ _ _ ?_ fuel1 fuel2 0 _ st hle h
  intro theta s s1 hb
  exact sweep_mono _ _ _ (fun _ _ _ hh => hh) fuel1 fuel2 0 s s1 hle hb

theorem sample_at_of_divisor_ne (sin cos : F → F) (r : Renderer F) (theta phi : F)
    (h : divisor sin cos r theta phi ≠ 0) : ∃ s, sample_at sin cos r theta phi = .ok s := by
  unfold divisor at h
  unfold sample_at project
  simp only
  rw [if_neg h]
  exact ⟨_, rfl⟩

theorem sample_at_of_divisor_eq (sin cos : F → F) (r : Renderer F) (theta phi : F)
    (h : divisor sin cos r theta phi = 0) :
    sample_at sin cos r theta phi = .error .divByZero := by
  unfold divisor at h
  unfold sample_at project
  simp only
  rw [if_pos h]

theorem serialize_inv {G : Type} (cfg : Config G) (buffer out : List Char) (w h : Nat)
    (hw : cfg.width = w) (hh : cfg.height = h) (hlen : buffer.length = w * h)
    (hs : serialize cfg buffer = .ok out) :
    out = frame_text w h buffer ∧ ((w * h + h : Nat) : Int) ≤ INT_MAX := by
  by_cases hfit : ((w * h + h : Nat) : Int) ≤ INT_MAX
  · rw [serialize_eq cfg buffer w h hw hh hfit hlen] at hs
    cases hs
    exact ⟨rfl, hfit⟩
  · exfalso
    unfold serialize at hs
    have hfits : fits_int (cfg.width * cfg.height + cfg.height) = false := by
      rw [hw, hh]
      simp only [fits_int, Bool.and_eq_false_imp, decide_eq_true_eq, decide_eq_false_iff_not]
      intro _
      push_cast at hfit
      exact hfit
    rw [hfits] at hs
    simp at hs

/-- What a returned frame is: the text block of the buffer left by plotting the visited
samples, in order, on blank buffers. -/
theorem render_frame_inv (sin cos : F → F) (r : Renderer F) (fuel : Nat) (out : List Char)
    (w h : Nat) (hw : r.cfg_.width = w) (hh : r.cfg_.height = h)
    (hres : render_frame sin cos r fuel = .ok out) :
    ∃ st l, rasterize sin cos r fuel = .ok st ∧ visited sin cos r fuel = .ok l ∧
      plot_all r.cfg_ l (blank (w * h)) = .ok st ∧
      st.buffer.length = w * h ∧ st.zbuffer.length = w * h ∧
      (∀ c < w * h, cell_state r.cfg_ l st c) ∧
      out = frame_text w h st.buffer ∧ ((w * h + h : Nat) : Int) ≤ INT_MAX := by
  unfold render_frame at hres
  cases hr : rasterize sin cos r fuel with
  | error e => rw [hr] at hres; cases hres
  | ok st =>
    rw [hr] at hres
    simp only at hres
    obtain ⟨l, hl, hp⟩ := rasterize_trace sin cos r fuel st hr
    have hn : (r.cfg_.width * r.cfg_.height).toNat = w * h := by
      rw [hw, hh, ← Nat.cast_mul]
      exact Int.toNat_natCast _
    rw [hn] at hp
    obtain ⟨hb, hz, hinv⟩ := plot_all_cell_state r.cfg_ (w * h) hn.symm l st hp
    obtain ⟨ho, hfit⟩ := serialize_inv r.cfg_ st.buffer out w h hw hh hb hres
    exact ⟨st, l, rfl, hl, hp, hb, hz, hinv, ho, hfit⟩

/-- The frame does not depend on the fuel, once there is enough of it. -/
theorem render_frame_mono (sin cos : F → F) (r : Renderer F) (fuel1 fuel2 : Nat)
    (out : List Char) (hle : fuel1 ≤ fuel2) (h : render_frame sin cos r fuel1 = .ok out) :
    render_frame sin cos r fuel2 = .ok out := by
  unfold render_frame at h ⊢
  cases hr : rasterize sin cos r fuel1 with
  | error e => rw [hr] at h; cases h
  | ok st =>
    rw [hr] at h
    rw [rasterize_mono sin cos r fuel1 fuel2 st hle hr]
    exact h

/-- Sufficient fuel exists: with positive steps, dimensions that fit, a palette that is not
empty and no zero divisor at any sample, the sampling loops return. -/
theorem rasterize_total (sin cos : F → F) (r : Renderer F)
    (hfit : 0 ≤ r.cfg_.width * r.cfg_.height ∧ r.cfg_.width * r.cfg_.height ≤ INT_MAX)
    (hts : 0 < r.cfg_.theta_step) (hps : 0 < r.cfg_.phi_step) (hne : r.cfg_.shading ≠ [])
    (hdiv : ∀ k j : Nat, (k : F) * r.cfg_.theta_step < two_pi →
      (j : F) * r.cfg_.phi_step < two_pi →
      divisor sin cos r (k * r.cfg_.theta_step) (j * r.cfg_.phi_step) ≠ 0) :
    ∃ n : Nat, ∀ fuel, n < fuel → ∃ st, rasterize sin cos r fuel = .ok st ∧
      st.buffer.length = (r.cfg_.width * r.cfg_.height).toNat := by
  obtain ⟨n1, hn1⟩ := exists_steps r.cfg_.theta_step hts
  obtain ⟨n2, hn2⟩ := exists_steps r.cfg_.phi_step hps
  refine ⟨max n1 n2, ?_⟩
  intro fuel hfuel
  rw [rasterize_eq sin cos r fuel hfit]
  have key := sweep_total
    (fun (st : Buffers F) => st.buffer.length = (r.cfg_.width * r.cfg_.height).toNat ∧
      st.zbuffer.length = (r.cfg_.width * r.cfg_.height).toNat)
    r.cfg_.theta_step
    (fun theta st =>
        sweep r.cfg_.phi_step (fun phi st1 =>
          match sample_at sin cos r theta phi with
          | .error e => .error e
          | .ok s => plot r.cfg_ s st1) fuel 0 st)
    n1 0 (blank (r.cfg_.width * r.cfg_.height).toNat) hn1 (by simp [blank]) ?_ fuel
    (lt_of_le_of_lt (le_max_left _ _) hfuel)
  · obtain ⟨st, h1, h2, _⟩ := key
    exact ⟨st, h1, h2⟩
  · intro k t hk hP
    rw [zero_add] at hk ⊢
    refine sweep_total _ r.cfg_.phi_step _ n2 0 t hn2 hP ?_ fuel
      (lt_of_le_of_lt (le_max_right _ _) hfuel)
    intro j t2 hj hP2
    rw [zero_add] at hj ⊢
    obtain ⟨s, hs⟩ := sample_at_of_divisor_ne sin cos r _ _ (hdiv k j hk hj)
    simp only [hs]
    obtain ⟨st1, h1, h2, h3⟩ := plot_total r.cfg_ _ rfl hne s t2 hP2.1 hP2.2
    exact ⟨st1, h1, h2, h3⟩

/-- Sufficient fuel exists for the whole of `render_frame`. -/
theorem render_frame_total (sin cos : F → F) (r : Renderer F) (w h : Nat)
    (hw : r.cfg_.width = w) (hh : r.cfg_.height = h)
    (hfit : ((w * h + h : Nat) : Int) ≤ INT_MAX)
    (hts : 0 < r.cfg_.theta_step) (hps : 0 < r.cfg_.phi_step) (hne : r.cfg_.shading ≠ [])
    (hdiv : ∀ k j : Nat, (k : F) * r.cfg_.theta_step < two_pi →
      (j : F) * r.cfg_.phi_step < two_pi →
      divisor sin cos r (k * r.cfg_.theta_step) (j * r.cfg_.phi_step) ≠ 0) :
    ∃ n : Nat, ∀ fuel, n < fuel → ∃ out, render_frame sin cos r fuel = .ok out := by
  have hn : (r.cfg_.width * r.cfg_.height).toNat = w * h := by
    rw [hw, hh, ← Nat.cast_mul]
    exact Int.toNat_natCast _
  have hfit2 : 0 ≤ r.cfg_.width * r.cfg_.height ∧ r.cfg_.width * r.cfg_.height ≤ INT_MAX := by
    rw [hw, hh]
    push_cast at hfit
    constructor
    · positivity
    · have : (0 : Int) ≤ h := by positivity
      omega
  obtain ⟨n, hn1⟩ := rasterize_total sin cos r hfit2 hts hps hne hdiv
  refine ⟨n, ?_⟩
  intro fuel hfuel
  obtain ⟨st, hst, hlen⟩ := hn1 fuel hfuel
  unfold render_frame
  rw [hst]
  simp only
  rw [hn] at hlen
  rw [serialize_eq r.cfg_ st.buffer w h hw hh hfit hlen]
  exact ⟨_, rfl⟩

theorem is_grid_cell (w h : Nat) (out : List Char) (hg : is_grid w h out) (x y : Nat)
    (hx : x < w) (hy : y < h) : out[y * (w + 1) + x]? ≠ some '\n' := by
  obtain ⟨rows, hlen, hrows, rfl⟩ := hg
  rw [lines_text_getElem w rows (fun row hr => (hrows row hr).1) y x (by omega) (le_of_lt hx)]
  have hy2 : y < rows.length := by omega
  have hrow : rows.getD y [] = rows.get ⟨y, hy2⟩ := by
    simp [List.getElem?_eq_getElem hy2]
  have hmem : rows.get ⟨y, hy2⟩ ∈ rows := List.get_mem _ _ _
  obtain ⟨hl, hnl⟩ := hrows _ hmem
  rw [hrow, List.getElem?_append_left (by omega)]
  intro hc
  exact hnl (List.getElem?_mem hc)

/-- Every character of the buffer is a blank or a palette character. -/
theorem cell_state_char (cfg : Config F) (l : List (Sample F)) (st : Buffers F) (c : Nat)
    (h : cell_state cfg l st c) :
    ∃ ch, st.buffer[c]? = some ch ∧ (ch = ' ' ∨ ch ∈ cfg.shading) := by
  rcases h with ⟨_, hb, _⟩ | ⟨m, ch, _, hch, hb, _⟩
  · exact ⟨' ', hb, Or.inl rfl⟩
  · exact ⟨ch, hb, Or.inr (shade_char_mem cfg _ ch hch)⟩

theorem cell_index_lt (w h x y : Nat) (hx : x < w) (hy : y < h) : x + y * w < w * h := by
  have h1 : (y + 1) * w ≤ h * w := Nat.mul_le_mul_right w hy
  have h2 : (y + 1) * w = y * w + w := by ring
  have h3 : h * w = w * h := Nat.mul_comm h w
  omega

/-- The cell of a returned frame at column `x` of row `y` is the buffer entry
`x + y * width`. -/
theorem render_frame_cell (sin cos : F → F) (r : Renderer F) (fuel : Nat) (out : List Char)
    (w h : Nat) (hw : r.cfg_.width = w) (hh : r.cfg_.height = h)
    (hres : render_frame sin cos r fuel = .ok out) :
    ∃ st l, rasterize sin cos r fuel = .ok st ∧ visited sin cos r fuel = .ok l ∧
      (∀ c < w * h, cell_state r.cfg_ l st c) ∧
      ∀ x y, x < w → y < h → out[y * (w + 1) + x]? = st.buffer[x + y * w]? := by
  obtain ⟨st, l, h1, h2, _, hb, _, hinv, ho, _⟩ :=
    render_frame_inv sin cos r fuel out w h hw hh hres
  refine ⟨st, l, h1, h2, hinv, ?_⟩
  intro x y hx hy
  have hlt : x + y * w < st.buffer.length := by rw [hb]; exact cell_index_lt w h x y hx hy
  rw [ho, frame_text_cell w h st.buffer x y hx hy]
  simp [List.getElem?_eq_getElem hlt]

theorem frame_rows_mem (w h : Nat) (buffer : List Char) (row : List Char)
    (hrow : row ∈ frame_rows w h buffer) (ch : Char) (hch : ch ∈ row) :
    ∃ x y, x < w ∧ y < h ∧ ch = buffer.getD (x + y * w) ' ' := by
  simp only [frame_rows, List.mem_map, List.mem_range] at hrow
  obtain ⟨y, hy, rfl⟩ := hrow
  simp only [List.mem_map, List.mem_range] at hch
  obtain ⟨x, hx, rfl⟩ := hch
  exact ⟨x, y, hx, hy, rfl⟩

theorem int_dims (wi hi : Int) (hw : 0 < wi) (hh : 0 < hi) :
    wi = (wi.toNat : Int) ∧ hi = (hi.toNat : Int) ∧ 0 < wi.toNat ∧ 0 < hi.toNat := by
  omega

/-! ### Frames of a single sample, and the default torus -/

theorem sweep_once {σ : Type} (step : F) (body : F → σ → Except Fault σ) (fuel : Nat) (v : F)
    (st : σ) (hv : v < two_pi) (hstep : two_pi ≤ v + step) :
    sweep step body (fuel + 2) v st = body v st := by
  rw [sweep_succ, if_pos hv]
  cases body v st with
  | error e => rfl
  | ok s1 => simp only; rw [sweep_succ, if_neg (not_lt.mpr hstep)]

theorem two_pi_pos : (0 : F) < two_pi := by
  unfold two_pi; positivity

theorem two_pi_lt_seven : (two_pi : F) < 7 := by
  unfold two_pi
  rw [div_lt_iff₀ (by positivity)]
  norm_num

theorem trunc_intCast (n : Int) : trunc (n : F) = n := by
  unfold trunc
  split <;> simp

/-- With both steps at least `two_pi` the loops visit the single sample at `(0, 0)`. -/
theorem rasterize_single (sin cos : F → F) (r : Renderer F) (fuel : Nat)
    (hfit : 0 ≤ r.cfg_.width * r.cfg_.height ∧ r.cfg_.width * r.cfg_.height ≤ INT_MAX)
    (hts : two_pi ≤ r.cfg_.theta_step) (hps : two_pi ≤ r.cfg_.phi_step) :
    rasterize sin cos r (fuel + 2) =
      match sample_at sin cos r 0 0 with
      | .error e => .error e
      | .ok s => plot r.cfg_ s (blank (r.cfg_.width * r.cfg_.height).toNat) := by
  rw [rasterize_eq sin cos r (fuel + 2) hfit,
    sweep_once _ _ fuel 0 _ two_pi_pos (by rw [zero_add]; exact hts),
    sweep_once _ _ fuel 0 _ two_pi_pos (by rw [zero_add]; exact hps)]

theorem visited_single (sin cos : F → F) (r : Renderer F) (fuel : Nat)
    (hts : two_pi ≤ r.cfg_.theta_step) (hps : two_pi ≤ r.cfg_.phi_step) :
    visited sin cos r (fuel + 2) = record_body sin cos r 0 0 [] := by
  unfold visited
  rw [sweep_once _ _ fuel 0 _ two_pi_pos (by rw [zero_add]; exact hts),
    sweep_once _ _ fuel 0 _ two_pi_pos (by rw [zero_add]; exact hps)]

theorem blank_getElem? (n c : Nat) (hc : c < n) :
    (blank n : Buffers F).zbuffer[c]? = some 0 ∧ (blank n : Buffers F).buffer[c]? = some ' ' := by
  simp [blank, hc]

/-- The frame of a single sample that is drawn. -/
theorem render_frame_single_drawn (sin cos : F → F) (r : Renderer F) (fuel : Nat) (w h : Nat)
    (hw : r.cfg_.width = w) (hh : r.cfg_.height = h)
    (hfit : ((w * h + h : Nat) : Int) ≤ INT_MAX)
    (hts : two_pi ≤ r.cfg_.theta_step) (hps : two_pi ≤ r.cfg_.phi_step)
    (s : Sample F) (hs : sample_at sin cos r 0 0 = .ok s) (hv : visible r.cfg_ s)
    (hpos : 0 < s.ooz) (ch : Char) (hch : shade_char r.cfg_ s.luminance = .ok ch) :
    render_frame sin cos r (fuel + 2) =
      .ok (frame_text w h ((List.replicate (w * h) ' ').set (cell r.cfg_ s) ch)) := by
  have hn : (r.cfg_.width * r.cfg_.height).toNat = w * h := by
    rw [hw, hh, ← Nat.cast_mul]
    exact Int.toNat_natCast _
  have hfit2 : 0 ≤ r.cfg_.width * r.cfg_.height ∧ r.cfg_.width * r.cfg_.height ≤ INT_MAX := by
    rw [hw, hh]
    push_cast at hfit
    constructor
    · positivity
    · have : (0 : Int) ≤ h := by positivity
      omega
  have hc : cell r.cfg_ s < w * h := by rw [← hn]; exact (visible_cell_lt r.cfg_ s hv).2
  unfold render_frame
  rw [rasterize_single sin cos r fuel hfit2 hts hps, hs]
  simp only
  rw [hn, plot_draw r.cfg_ s (blank (w * h)) hv 0 (blank_getElem? _ _ hc).1 hpos
    (by simp [blank, hc]) ch hch]
  simp only
  rw [serialize_eq r.cfg_ _ w h hw hh hfit (by simp [blank])]
  rfl

/-- The frame of a single sample that is not drawn. -/
theorem render_frame_single_blank (sin cos : F → F) (r : Renderer F) (fuel : Nat) (w h : Nat)
    (hw : r.cfg_.width = w) (hh : r.cfg_.height = h)
    (hfit : ((w * h + h : Nat) : Int) ≤ INT_MAX)
    (hts : two_pi ≤ r.cfg_.theta_step) (hps : two_pi ≤ r.cfg_.phi_step)
    (s : Sample F) (hs : sample_at sin cos r 0 0 = .ok s)
    (hno : ¬ visible r.cfg_ s ∨ s.ooz ≤ 0) :
    render_frame sin cos r (fuel + 2) = .ok (frame_text w h (List.replicate (w * h) ' ')) := by
  have hn : (r.cfg_.width * r.cfg_.height).toNat = w * h := by
    rw [hw, hh, ← Nat.cast_mul]
    exact Int.toNat_natCast _
  have hfit2 : 0 ≤ r.cfg_.width * r.cfg_.height ∧ r.cfg_.width * r.cfg_.height ≤ INT_MAX := by
    rw [hw, hh]
    push_cast at hfit
    constructor
    · positivity
    · have : (0 : Int) ≤ h := by positivity
      omega
  have hplot : plot r.cfg_ s (blank (w * h)) = .ok (blank (w * h)) := by
    by_cases hv : visible r.cfg_ s
    · have hc : cell r.cfg_ s < w * h := by rw [← hn]; exact (visible_cell_lt r.cfg_ s hv).2
      rcases hno with h1 | h1
      · exact absurd hv h1
      · exact plot_keep r.cfg_ s _ hv 0 (blank_getElem? _ _ hc).1 h1
    · exact plot_skip r.cfg_ s _ hv
  unfold render_frame
  rw [rasterize_single sin cos r fuel hfit2 hts hps, hs]
  simp only
  rw [hn, hplot]
  simp only
  rw [serialize_eq r.cfg_ _ w h hw hh hfit (by simp [blank])]
  rfl

theorem palette_sample (shading : List Char) : sample_at Real.sin Real.cos
    ⟨(palette_config shading : Config ℝ), 0, Real.pi / 2⟩ 0 0 = .ok ⟨1 / 5, 40, 2, 1⟩ := by
  simp only [sample_at, project, palette_config, default_config, Real.sin_zero, Real.cos_zero,
    Real.sin_pi_div_two, Real.cos_pi_div_two]
  norm_num
  constructor
  · have : ((40 : ℝ)) = ((40 : Int) : ℝ) := by norm_num
    rw [this, trunc_intCast]
  · have : ((2 : ℝ)) = ((2 : Int) : ℝ) := by norm_num
    rw [this, trunc_intCast]

theorem regular_returns (sin cos : F → F) (r : Renderer F)
    (hw : 0 < r.cfg_.width) (hh : 0 < r.cfg_.height) (hreg : regular sin cos r) :
    ∃ n : Nat, ∀ fuel, n < fuel → ∃ out, render_frame sin cos r fuel = .ok out := by
  obtain ⟨hwn, hhn, _, _⟩ := int_dims _ _ hw hh
  obtain ⟨hfit, hts, hps, hne, hdiv⟩ := hreg
  exact render_frame_total sin cos r _ _ hwn hhn
    (by push_cast; rw [← hwn, ← hhn]; exact hfit) hts hps hne hdiv

theorem sized_divisor (w h : Int) (theta phi : ℝ) :
    divisor Real.sin Real.cos ⟨(sized_config w h : Config ℝ), 0, 0⟩ theta phi =
      Real.sin theta + 5 := by
  simp [divisor, sized_config, default_config]

theorem sized_regular (w h : Int) (hfit : w * h + h ≤ INT_MAX) :
    regular Real.sin Real.cos ⟨(sized_config w h : Config ℝ), 0, 0⟩ := by
  refine ⟨hfit, by norm_num [sized_config, default_config],
    by norm_num [sized_config, default_config], by simp [sized_config, default_config], ?_⟩
  intro k j _ _
  rw [sized_divisor]
  have := Real.neg_one_le_sin ((k : ℝ) * (sized_config w h : Config ℝ).theta_step)
  intro h0
  linarith

theorem behind_sample : sample_at Real.sin Real.cos
    ⟨(single_config (-5) : Config ℝ), 0, Real.pi / 2⟩ 0 0 = .ok ⟨-(1 / 5), 40, 20, 1⟩ := by
  simp only [sample_at, project, single_config, default_config, Real.sin_zero, Real.cos_zero,
    Real.sin_pi_div_two, Real.cos_pi_div_two]
  norm_num
  constructor
  · have : ((40 : ℝ)) = ((40 : Int) : ℝ) := by norm_num
    rw [this, trunc_intCast]
  · have : ((20 : ℝ)) = ((20 : Int) : ℝ) := by norm_num
    rw [this, trunc_intCast]

/-! ### The drivers -/

theorem render_frame_fuel (sin cos : F → F) (r : Renderer F) (fuel1 fuel2 : Nat)
    (out1 out2 : List Char) (h1 : render_frame sin cos r fuel1 = .ok out1)
    (h2 : render_frame sin cos r fuel2 = .ok out2) : out1 = out2 := by
  have e1 := render_frame_mono sin cos r fuel1 (max fuel1 fuel2) out1 (le_max_left _ _) h1
  have e2 := render_frame_mono sin cos r fuel2 (max fuel1 fuel2) out2 (le_max_right _ _) h2
  rw [e1] at e2
  cases e2
  rfl

theorem render_frame_call_inv (sin cos : F → F) (r r1 : Renderer F) (fuel : Nat)
    (out : List Char) (h : render_frame_call sin cos r fuel = .ok (out, r1)) :
    render_frame sin cos r fuel = .ok out ∧ r1 = r := by
  unfold render_frame_call at h
  cases hr : render_frame sin cos r fuel with
  | error e => rw [hr] at h; cases h
  | ok o =>
    rw [hr] at h
    cases h
    exact ⟨rfl, rfl⟩

theorem step_angles_spec (r : Renderer F) :
    (step_angles r).a_ = r.a_ + r.cfg_.a_step ∧ (step_angles r).b_ = r.b_ + r.cfg_.b_step ∧
      (step_angles r).cfg_ = r.cfg_ := ⟨rfl, rfl, rfl⟩

theorem benchmark_loop_phase (sin cos : F → F) (fuel : Nat) :
    ∀ (n : Nat) (i : Int) (r : Renderer F) (j : Int) (after : Renderer F),
      benchmark_loop sin cos fuel n i r = .ok (j, after) →
      j = i + n ∧ after.a_ = r.a_ + n * r.cfg_.a_step ∧
        after.b_ = r.b_ + n * r.cfg_.b_step ∧ after.cfg_ = r.cfg_ := by
  intro n
  induction n with
  | zero =>
    intro i r j after h
    simp only [benchmark_loop, Except.ok.injEq, Prod.mk.injEq] at h
    obtain ⟨rfl, rfl⟩ := h
    simp
  | succ n ih =>
    intro i r j after h
    rw [benchmark_loop] at h
    cases hr : render_frame sin cos r fuel with
    | error e => rw [hr] at h; cases h
    | ok out =>
      rw [hr] at h
      obtain ⟨h1, h2, h3, h4⟩ := ih (i + 1) (step_angles r) j after h
      obtain ⟨s1, s2, s3⟩ := step_angles_spec r
      refine ⟨by rw [h1]; push_cast; ring, ?_, ?_, by rw [h4, s3]⟩
      · rw [h2, s1, s3]; push_cast; ring
      · rw [h3, s2, s3]; push_cast; ring

theorem benchmark_loop_total (sin cos : F → F) (cfg : Config F) :
    ∀ (n : Nat) (i : Int) (a b : F),
      (∀ k : Nat, k < n → ∃ m : Nat, ∀ fuel, m < fuel → ∃ out,
        render_frame sin cos ⟨cfg, a + k * cfg.a_step, b + k * cfg.b_step⟩ fuel = .ok out) →
      ∃ m : Nat, ∀ fuel, m < fuel → ∃ res,
        benchmark_loop sin cos fuel n i ⟨cfg, a, b⟩ = .ok res := by
  intro n
  induction n with
  | zero => intro i a b _; exact ⟨0, fun fuel _ => ⟨_, rfl⟩⟩
  | succ n ih =>
    intro i a b h
    obtain ⟨m0, hm0⟩ := h 0 (Nat.succ_pos n)
    simp only [Nat.cast_zero, zero_mul, add_zero] at hm0
    obtain ⟨m1, hm1⟩ := ih (i + 1) (a + cfg.a_step) (b + cfg.b_step) (by
      intro k hk
      obtain ⟨m, hm⟩ := h (k + 1) (by omega)
      refine ⟨m, ?_⟩
      have ea : a + cfg.a_step + k * cfg.a_step = a + ((k + 1 : Nat) : F) * cfg.a_step := by
        push_cast; ring
      have eb : b + cfg.b_step + k * cfg.b_step = b + ((k + 1 : Nat) : F) * cfg.b_step := by
        push_cast; ring
      rw [ea, eb]
      exact hm)
    refine ⟨max m0 m1, fun fuel hf => ?_⟩
    obtain ⟨out, hout⟩ := hm0 fuel (lt_of_le_of_lt (le_max_left _ _) hf)
    obtain ⟨res, hres⟩ := hm1 fuel (lt_of_le_of_lt (le_max_right _ _) hf)
    rw [benchmark_loop, hout]
    exact ⟨res, hres⟩

theorem abs_mul_le_one (x y : ℝ) (hx : |x| ≤ 1) (hy : |y| ≤ 1) : |x * y| ≤ 1 := by
  rw [abs_mul]
  calc |x| * |y| ≤ 1 * 1 := mul_le_mul hx hy (abs_nonneg _) (by norm_num)
    _ = 1 := by norm_num

theorem sized_divisor_pos (w h : Int) (a b theta phi : ℝ) :
    0 < divisor Real.sin Real.cos ⟨(sized_config w h : Config ℝ), a, b⟩ theta phi := by
  have h1 := abs_le.mp (abs_mul_le_one _ _ (Real.abs_sin_le_one phi) (Real.abs_sin_le_one a))
  have h2 := abs_le.mp (abs_mul_le_one _ _ (Real.abs_sin_le_one theta) (Real.abs_cos_le_one a))
  have h3 := Real.neg_one_le_cos theta
  have h4 := Real.cos_le_one theta
  have e : divisor Real.sin Real.cos ⟨(sized_config w h : Config ℝ), a, b⟩ theta phi =
      (2 + Real.cos theta) * (Real.sin phi * Real.sin a) + Real.sin theta * Real.cos a + 5 := by
    simp only [divisor, sized_config, default_config]
    ring
  rw [e]
  nlinarith [h1.1, h1.2, h2.1, h2.2]

theorem sized_regular_phase (w h : Int) (hfit : w * h + h ≤ INT_MAX) (a b : ℝ) :
    regular Real.sin Real.cos ⟨(sized_config w h : Config ℝ), a, b⟩ := by
  refine ⟨hfit, by norm_num [sized_config, default_config],
    by norm_num [sized_config, default_config], by simp [sized_config, default_config], ?_⟩
  intro k j _ _
  exact ne_of_gt (sized_divisor_pos w h a b _ _)

/-! ### Argument parsing -/

theorem parse_loop_benchmark (atoi : String → Int) (atof : String → F) (cfg : Config F)
    (rest : List String) :
    parse_loop atoi atof cfg ("--benchmark" :: rest) =
      parse_loop atoi atof { cfg with benchmark := true } rest := by
  cases rest with
  | nil => simp [parse_loop]
  | cons v rest => simp [parse_loop]

theorem parse_loop_unrecognised (atoi : String → Int) (atof : String → F) (cfg : Config F)
    (arg : String) (harg : arg ∉ recognised_flags) (rest : List String) :
    parse_loop atoi atof cfg (arg :: rest) = parse_loop atoi atof cfg rest := by
  simp only [recognised_flags, value_flags, List.mem_cons, List.mem_singleton, not_or,
    List.not_mem_nil, not_false_eq_true, and_true] at harg
  obtain ⟨h0, h1, h2, h3, h4, h5, h6, h7, h8, h9, h10, h11, h12⟩ := harg
  cases rest with
  | nil => simp [parse_loop, h0]
  | cons v rest => simp [parse_loop, h0, h1, h2, h3, h4, h5, h6, h7, h8, h9, h10, h11, h12]

theorem parse_loop_value_last (atoi : String → Int) (atof : String → F) (cfg : Config F)
    (arg : String) (harg : arg ∈ value_flags) : parse_loop atoi atof cfg [arg] = cfg := by
  have hne : arg ≠ "--benchmark" := by
    intro h
    subst h
    simp [value_flags] at harg
  simp [parse_loop, hne]

theorem parse_loop_value (atoi : String → Int) (atof : String → F) (cfg : Config F)
    (arg : String) (harg : arg ∈ value_flags) (v : String) (rest : List String) :
    parse_loop atoi atof cfg (arg :: v :: rest) =
      parse_loop atoi atof (set_value atoi atof cfg arg v) rest := by
  simp only [value_flags, List.mem_cons, List.mem_singleton, List.not_mem_nil, or_false] at harg
  rcases harg with h | h | h | h | h | h | h | h | h | h | h | h <;> subst h <;>
    simp [parse_loop, set_value]

theorem flag_position_cons (arg : String) (harg : arg ∉ value_flags) (pre : List String) :
    flag_position (arg :: pre) = flag_position pre := by
  cases pre with
  | nil => simp [flag_position, harg]
  | cons v rest => simp [flag_position, harg]

theorem flag_position_value (arg : String) (harg : arg ∈ value_flags) (v : String)
    (pre : List String) : flag_position (arg :: v :: pre) = flag_position pre := by
  simp [flag_position, harg]

theorem benchmark_not_value : "--benchmark" ∉ value_flags := by
  simp [value_flags]

/-- Parsing a list whose end is in flag position, then more: the first part is parsed on
its own. -/
theorem parse_loop_append (atoi : String → Int) (atof : String → F) :
    ∀ (n : Nat) (pre : List String), pre.length ≤ n → flag_position pre = true →
      ∀ cfg : Config F, ∃ cfg1 : Config F, ∀ rest,
        parse_loop atoi atof cfg (pre ++ rest) = parse_loop atoi atof cfg1 rest := by
  intro n
  induction n with
  | zero =>
    intro pre hlen _ cfg
    have : pre = [] := List.length_eq_zero.mp (by omega)
    subst this
    exact ⟨cfg, fun rest => rfl⟩
  | succ n ih =>
    intro pre hlen hpos cfg
    cases pre with
    | nil => exact ⟨cfg, fun rest => rfl⟩
    | cons arg pre1 =>
      by_cases hval : arg ∈ value_flags
      · cases pre1 with
        | nil => simp [flag_position, hval] at hpos
        | cons v pre2 =>
          rw [flag_position_value arg hval] at hpos
          obtain ⟨cfg2, h2⟩ := ih pre2 (by simp at hlen; omega) hpos
            (set_value atoi atof cfg arg v)
          exact ⟨cfg2, fun rest => by
            rw [List.cons_append, List.cons_append, parse_loop_value atoi atof cfg arg hval, h2]⟩
      · rw [flag_position_cons arg hval] at hpos
        by_cases hb : arg = "--benchmark"
        · subst hb
          obtain ⟨cfg2, h2⟩ := ih pre1 (by simp at hlen; omega) hpos { cfg with benchmark := true }
          exact ⟨cfg2, fun rest => by rw [List.cons_append, parse_loop_benchmark, h2]⟩
        · have hun : arg ∉ recognised_flags := by
            simp only [recognised_flags, List.mem_cons, not_or]
            exact ⟨hb, hval⟩
          obtain ⟨cfg2, h2⟩ := ih pre1 (by simp at hlen; omega) hpos cfg
          exact ⟨cfg2, fun rest => by
            rw [List.cons_append, parse_loop_unrecognised atoi atof cfg arg hun, h2]⟩

theorem parse_loop_all_unrecognised (atoi : String → Int) (atof : String → F) (cfg : Config F) :
    ∀ args : List String,
      (∀ pre tok post, args = pre ++ tok :: post → flag_position pre = true →
        tok ∉ recognised_flags) →
      parse_loop atoi atof cfg args = cfg := by
  intro args
  induction args with
  | nil => intro _; rfl
  | cons tok post ih =>
    intro h
    have htok : tok ∉ recognised_flags := h [] tok post rfl rfl
    have hval : tok ∉ value_flags := fun hv => htok (List.mem_cons_of_mem _ hv)
    rw [parse_loop_unrecognised atoi atof cfg tok htok]
    apply ih
    intro pre t p hp hpos
    apply h (tok :: pre) t p (by rw [hp]; rfl)
    rw [flag_position_cons tok hval]
    exact hpos

/-! ### Truncation, and the samples that are visited -/

theorem trunc_nonneg_of (x : F) (h : -1 < x) : 0 ≤ trunc x := by
  unfold trunc
  split
  · rename_i h0; exact Int.floor_nonneg.mpr h0
  · have : (-1 : Int) < ⌈x⌉ := Int.lt_ceil.mpr (by push_cast; exact h)
    omega

theorem trunc_lt_of (x : F) (n : Int) (hn : 0 < n) (h : x < n) : trunc x < n := by
  unfold trunc
  split
  · exact Int.floor_lt.mpr h
  · rename_i h0
    have : ⌈x⌉ ≤ 0 := Int.ceil_le.mpr (by push_cast; exact le_of_lt (not_le.mp h0))
    omega

theorem record_body_inv (sin cos : F → F) (r : Renderer F) (theta phi : F)
    (acc acc1 : List (Sample F)) (h : record_body sin cos r theta phi acc = .ok acc1) :
    ∃ s, sample_at sin cos r theta phi = .ok s ∧ acc1 = acc ++ [s] := by
  unfold record_body at h
  cases hs : sample_at sin cos r theta phi with
  | error e => rw [hs] at h; cases h
  | ok s =>
    rw [hs] at h
    cases h
    exact ⟨s, rfl, rfl⟩

/-- Every sample `(k * theta_step, j * phi_step)` below `two_pi` is among the visited. -/
theorem visited_mem (sin cos : F → F) (r : Renderer F) (fuel : Nat) (l : List (Sample F))
    (h : visited sin cos r fuel = .ok l)
    (hts : 0 ≤ r.cfg_.theta_step) (hps : 0 ≤ r.cfg_.phi_step) (k j : Nat)
    (hk : (k : F) * r.cfg_.theta_step < two_pi) (hj : (j : F) * r.cfg_.phi_step < two_pi) :
    ∃ s, sample_at sin cos r (k * r.cfg_.theta_step) (j * r.cfg_.phi_step) = .ok s ∧ s ∈ l := by
  unfold visited at h
  have hinner : ∀ theta (v : F) (acc acc1 : List (Sample F)),
      record_body sin cos r theta v acc = .ok acc1 → ∀ s ∈ acc, s ∈ acc1 := by
    intro theta v acc acc1 hb s hs
    obtain ⟨t, _, rfl⟩ := record_body_inv sin cos r theta v acc acc1 hb
    exact List.mem_append_left _ hs
  have houter : ∀ (v : F) (acc acc1 : List (Sample F)),
      sweep r.cfg_.phi_step (record_body sin cos r v) fuel 0 acc = .ok acc1 →
      ∀ s ∈ acc, s ∈ acc1 := by
    intro v acc acc1 hb
    exact sweep_rel (fun a b => ∀ s ∈ a, s ∈ b) (fun _ _ hs => hs)
      (fun _ _ _ h1 h2 s hs => h2 s (h1 s hs)) _ _ (hinner v) fuel 0 acc acc1 hb
  obtain ⟨t, t1, _, hb, hq⟩ := sweep_visits (fun a b => ∀ s ∈ a, s ∈ b) (fun _ _ hs => hs)
    (fun _ _ _ h1 h2 s hs => h2 s (h1 s hs)) r.cfg_.theta_step hts _ houter k fuel 0 [] l h
    (by rw [zero_add]; exact hk)
  rw [zero_add] at hb
  obtain ⟨u, u1, _, hb2, hq2⟩ := sweep_visits (fun a b => ∀ s ∈ a, s ∈ b) (fun _ _ hs => hs)
    (fun _ _ _ h1 h2 s hs => h2 s (h1 s hs)) r.cfg_.phi_step hps _
    (hinner (k * r.cfg_.theta_step)) j fuel 0 t t1 hb (by rw [zero_add]; exact hj)
  rw [zero_add] at hb2
  obtain ⟨s, hs, rfl⟩ := record_body_inv sin cos r _ _ u u1 hb2
  exact ⟨s, hs, hq s (hq2 s (List.mem_append_right _ (List.mem_singleton_self s)))⟩

/-- A sample that is visited, passes the guard of line 96 and has positive `ooz` leaves a
palette character in its cell. -/
theorem cell_state_of_front_hit (cfg : Config F) (l : List (Sample F)) (st : Buffers F)
    (s : Sample F) (hs : s ∈ l) (hv : visible cfg s) (hpos : 0 < s.ooz)
    (hst : cell_state cfg l st (cell cfg s)) :
    ∃ ch, st.buffer[cell cfg s]? = some ch ∧ ch ∈ cfg.shading := by
  have hmem : s ∈ front_hits cfg (cell cfg s) l := by
    unfold front_hits hits
    rw [List.mem_filter, List.mem_filter]
    exact ⟨⟨hs, decide_eq_true ⟨hv, rfl⟩⟩, decide_eq_true hpos⟩
  rcases hst with ⟨he, _, _⟩ | ⟨m, ch, _, hch, hb, _⟩
  · rw [he] at hmem; cases hmem
  · exact ⟨ch, hb, shade_char_mem cfg _ ch hch⟩

/-- The sample of the default torus at the phase `(0, 0)`. -/
theorem sized_sample (w h : Int) (theta phi : ℝ) :
    sample_at Real.sin Real.cos ⟨(sized_config w h : Config ℝ), 0, 0⟩ theta phi =
      .ok ⟨1 / (Real.sin theta + 5),
        trunc ((w : ℝ) / 2 + 30 * (1 / (Real.sin theta + 5)) *
          ((2 + Real.cos theta) * Real.cos phi)),
        trunc ((h : ℝ) / 2 - 15 * (1 / (Real.sin theta + 5)) *
          ((2 + Real.cos theta) * Real.sin phi)),
        Real.sin theta - Real.cos theta * Real.sin phi⟩ := by
  have hden : Real.sin theta + 5 ≠ 0 := by
    have := Real.neg_one_le_sin theta
    intro h0; linarith
  unfold sample_at project
  simp only [sized_config, default_config, Real.sin_zero, Real.cos_zero, mul_zero, mul_one,
    sub_zero, add_zero, zero_mul, one_mul, zero_add]
  rw [if_neg hden]
  congr 2
  · norm_num
  · ring

/-- Sine and cosine at `theta = 45 * 0.07 = 3.15`, just past `π`. -/
theorem sin_cos_bounds_315 :
    -(1 / 100) < Real.sin (63 / 20) ∧ Real.sin (63 / 20) < 0 ∧
      -1 ≤ Real.cos (63 / 20) ∧ Real.cos (63 / 20) ≤ -(9999 / 10000) := by
  have hpi1 : (3.14 : ℝ) < Real.pi := Real.pi_gt_d2
  have hpi2 : Real.pi < (3.15 : ℝ) := Real.pi_lt_d2
  have hd0 : 0 < 63 / 20 - Real.pi := by norm_num at hpi2 ⊢; linarith
  have hd1 : 63 / 20 - Real.pi < 1 / 100 := by norm_num at hpi1 ⊢; linarith
  have e : (63 / 20 : ℝ) = (63 / 20 - Real.pi) + Real.pi := by ring
  have hs : Real.sin (63 / 20) = -Real.sin (63 / 20 - Real.pi) := by
    conv_lhs => rw [e]
    exact Real.sin_add_pi _
  have hc : Real.cos (63 / 20) = -Real.cos (63 / 20 - Real.pi) := by
    conv_lhs => rw [e]
    exact Real.cos_add_pi _
  have h1 : Real.sin (63 / 20 - Real.pi) < 63 / 20 - Real.pi := Real.sin_lt hd0
  have h2 : 0 < Real.sin (63 / 20 - Real.pi) :=
    Real.sin_pos_of_pos_of_lt_pi hd0 (by linarith [Real.pi_gt_three])
  have h3 : 1 - (63 / 20 - Real.pi) ^ 2 / 2 ≤ Real.cos (63 / 20 - Real.pi) :=
    Real.one_sub_sq_div_two_le_cos
  have h4 : Real.cos (63 / 20 - Real.pi) ≤ 1 := Real.cos_le_one _
  have h5 : (63 / 20 - Real.pi) ^ 2 ≤ (1 / 100) ^ 2 :=
    pow_le_pow_left₀ (le_of_lt hd0) (le_of_lt hd1) 2
  rw [hs, hc]
  refine ⟨by linarith, by linarith, by linarith, ?_⟩
  norm_num at h5
  linarith

/-- In the default torus on a 10 by 5 grid at the phase `(0, 0)`, the sample at
`theta = 45 * 0.07`, `phi = 50 * 0.02` passes the guard of line 96 with positive `ooz`. -/
theorem default_sample_hit :
    ∃ s, sample_at Real.sin Real.cos ⟨(sized_config 10 5 : Config ℝ), 0, 0⟩ (63 / 20) 1 = .ok s ∧
      visible (sized_config 10 5 : Config ℝ) s ∧ 0 < s.ooz := by
  obtain ⟨hS1, hS2, hC1, hC2⟩ := sin_cos_bounds_315
  have hs1 : (3 / 4 : ℝ) < Real.sin 1 := by
    have := Real.sin_gt_sub_cube (x := 1) (by norm_num) (le_refl _)
    norm_num at this
    linarith
  have hs2 : Real.sin 1 ≤ 1 := Real.sin_le_one 1
  have hc1 : 0 < Real.cos 1 := Real.cos_one_pos
  have hc2 : Real.cos 1 ≤ 2 / 3 := Real.cos_one_le
  refine ⟨_, sized_sample 10 5 (63 / 20) 1, ?_, ?_⟩
  · generalize Real.sin (63 / 20) = S at hS1 hS2
    generalize Real.cos (63 / 20) = C at hC1 hC2
    generalize Real.sin 1 = s1 at hs1 hs2
    generalize Real.cos 1 = c1 at hc1 hc2
    have hd : 0 < S + 5 := by linarith
    have hx : 0 < (2 + C) * c1 := mul_pos (by linarith) hc1
    have hy : 0 < (2 + C) * s1 := mul_pos (by linarith) (by linarith)
    have hxu : (2 + C) * c1 ≤ (10001 / 10000) * (2 / 3) :=
      mul_le_mul (by linarith) hc2 (le_of_lt hc1) (by norm_num)
    have hyu : (2 + C) * s1 ≤ (10001 / 10000) * 1 :=
      mul_le_mul (by linarith) hs2 (by linarith) (by norm_num)
    have ex : 30 * (1 / (S + 5)) * ((2 + C) * c1) = 30 * ((2 + C) * c1) / (S + 5) := by
      field_simp
    have ey : 15 * (1 / (S + 5)) * ((2 + C) * s1) = 15 * ((2 + C) * s1) / (S + 5) := by
      field_simp
    have hfx0 : 0 < 30 * ((2 + C) * c1) / (S + 5) := div_pos (by linarith) hd
    have hfx1 : 30 * ((2 + C) * c1) / (S + 5) < 5 := by
      rw [div_lt_iff₀ hd]; linarith
    have hfy0 : 0 < 15 * ((2 + C) * s1) / (S + 5) := div_pos (by linarith) hd
    have hfy1 : 15 * ((2 + C) * s1) / (S + 5) < 7 / 2 := by
      rw [div_lt_iff₀ hd]; linarith
    refine ⟨?_, ?_, ?_, ?_, ?_⟩
    · show 0 < S - C * s1
      nlinarith
    · apply trunc_nonneg_of
      rw [ex]; push_cast; linarith
    · apply trunc_lt_of _ _ (by simp [sized_config])
      rw [ex]
      simp only [sized_config]
      push_cast; linarith
    · apply trunc_nonneg_of
      rw [ey]; push_cast; linarith
    · apply trunc_lt_of _ _ (by simp [sized_config])
      rw [ey]
      simp only [sized_config]
      push_cast; linarith
  · show 0 < 1 / (Real.sin (63 / 20) + 5)
    exact one_div_pos.mpr (by linarith)


/-- On a grid of 65536 by 65536 cells `width * height` overflows the `int`. -/
theorem overflow_fault (a b : ℝ) (fuel : Nat) :
    render_frame Real.sin Real.cos ⟨(sized_config 65536 65536 : Config ℝ), a, b⟩ fuel =
      .error .intOverflow := by
  unfold render_frame rasterize
  simp [sized_config, fits_int, INT_MAX, INT_MIN]

/-! ## Further lemmas -/

theorem cell_offset_inj (w x y x1 y1 : Nat) (hx : x < w) (hx1 : x1 < w)
    (h : x + y * w = x1 + y1 * w) : x = x1 ∧ y = y1 := by
  have h1 : (x + y * w) % w = x := by
    rw [Nat.add_mul_mod_self_right]; exact Nat.mod_eq_of_lt hx
  have h2 : (x1 + y1 * w) % w = x1 := by
    rw [Nat.add_mul_mod_self_right]; exact Nat.mod_eq_of_lt hx1
  have hxx : x = x1 := by rw [← h1, ← h2, h]
  subst hxx
  have hw : 0 < w := by omega
  have : y * w = y1 * w := by omega
  exact ⟨rfl, Nat.eq_of_mul_eq_mul_right hw this⟩

/-- Writing `ch` into the buffer entry of the cell at column `x` of row `y` changes the text
block at offset `y * (w + 1) + x`, and nowhere else. -/
theorem frame_text_set (w h : Nat) (buffer : List Char) (x y : Nat) (hx : x < w) (hy : y < h)
    (hlen : buffer.length = w * h) (ch : Char) :
    frame_text w h (buffer.set (x + y * w) ch) =
      (frame_text w h buffer).set (y * (w + 1) + x) ch := by
  apply List.ext_getElem?
  intro n
  by_cases hn : n < h * (w + 1)
  · have hdm := Nat.div_add_mod n (w + 1)
    have hmod : n % (w + 1) < w + 1 := Nat.mod_lt _ (by omega)
    have hdiv : n / (w + 1) < h := by
      rw [Nat.div_lt_iff_lt_mul (by omega)]; exact hn
    have hn2 : n = (n / (w + 1)) * (w + 1) + n % (w + 1) := by
      rw [Nat.mul_comm]; exact hdm.symm
    generalize n / (w + 1) = y1 at hdiv hn2
    generalize n % (w + 1) = x1 at hmod hn2
    subst hn2
    have hidx : x + y * w < buffer.length := by rw [hlen]; exact cell_index_lt w h x y hx hy
    by_cases hx1 : x1 = w
    · subst hx1
      have hne : y * (x1 + 1) + x ≠ y1 * (x1 + 1) + x1 := by
        intro he
        have h1 : (y * (x1 + 1) + x) % (x1 + 1) = x := by
          rw [Nat.add_comm, Nat.add_mul_mod_self_right]; exact Nat.mod_eq_of_lt (by omega)
        have h2 : (y1 * (x1 + 1) + x1) % (x1 + 1) = x1 := by
          rw [Nat.add_comm, Nat.add_mul_mod_self_right]; exact Nat.mod_eq_of_lt (by omega)
        rw [he, h2] at h1
        omega
      rw [List.getElem?_set_ne hne, frame_text_newline _ _ _ _ hdiv,
        frame_text_newline _ _ _ _ hdiv]
    · have hx1w : x1 < w := by omega
      rw [frame_text_cell _ _ _ _ _ hx1w hdiv]
      by_cases hsame : x1 = x ∧ y1 = y
      · obtain ⟨rfl, rfl⟩ := hsame
        rw [List.getElem?_set_self (by rw [frame_text_length]; exact hn)]
        simp [List.getElem?_set_self hidx]
      · have hne : y * (w + 1) + x ≠ y1 * (w + 1) + x1 := by
          intro he
          have := cell_offset_inj (w + 1) x y x1 y1 (by omega) (by omega) (by omega)
          exact hsame ⟨this.1.symm, this.2.symm⟩
        have hne2 : x + y * w ≠ x1 + y1 * w := by
          intro he
          have := cell_offset_inj w x y x1 y1 hx hx1w he
          exact hsame ⟨this.1.symm, this.2.symm⟩
        rw [List.getElem?_set_ne hne, frame_text_cell _ _ _ _ _ hx1w hdiv]
        simp [List.getElem?_set_ne hne2]
  · have h1 : (frame_text w h (buffer.set (x + y * w) ch)).length ≤ n := by
      rw [frame_text_length]; omega
    have h2 : ((frame_text w h buffer).set (y * (w + 1) + x) ch).length ≤ n := by
      rw [List.length_set, frame_text_length]; omega
    rw [List.getElem?_eq_none h1, List.getElem?_eq_none h2]

theorem plot_other_cells (cfg : Config F) (s : Sample F) (st st1 : Buffers F)
    (h : plot cfg s st = .ok st1) (c : Nat) (hc : c ≠ cell cfg s) :
    st1.buffer[c]? = st.buffer[c]? ∧ st1.zbuffer[c]? = st.zbuffer[c]? := by
  by_cases hv : visible cfg s
  · have hi := (visible_cell_lt cfg s hv).1.symm
    unfold visible at hv
    unfold plot at h
    rw [if_pos hv] at h
    simp only at h
    cases h1 : index st.zbuffer (s.xp + cfg.width * s.yp) with
    | error e => rw [h1] at h; cases h
    | ok depth =>
      rw [h1] at h
      simp only at h
      split at h
      · cases h2 : store st.zbuffer (s.xp + cfg.width * s.yp) s.ooz with
        | error e => rw [h2] at h; cases h
        | ok zb =>
          rw [h2] at h
          simp only at h
          cases h3 : shade_char cfg s.luminance with
          | error e => rw [h3] at h; cases h
          | ok ch =>
            rw [h3] at h
            simp only at h
            cases h4 : store st.buffer (s.xp + cfg.width * s.yp) ch with
            | error e => rw [h4] at h; cases h
            | ok b =>
              rw [h4] at h
              cases h
              have e2 : zb = st.zbuffer.set (cell cfg s) s.ooz := by
                unfold store at h2
                split at h2
                · cases h2
                · split at h2
                  · cases h2; rfl
                  · cases h2
              have e4 : b = st.buffer.set (cell cfg s) ch := by
                unfold store at h4
                split at h4
                · cases h4
                · split at h4
                  · cases h4; rfl
                  · cases h4
              subst e2 e4
              exact ⟨List.getElem?_set_ne (Ne.symm hc), List.getElem?_set_ne (Ne.symm hc)⟩
      · cases h
        exact ⟨rfl, rfl⟩
  · rw [plot_skip cfg s st hv] at h
    cases h
    exact ⟨rfl, rfl⟩

theorem divisor_eq (sin cos : F → F) (r : Renderer F) (theta phi : F) :
    divisor sin cos r theta phi = (rotated_point sin cos r theta phi).2.2 + r.cfg_.k2 := rfl

/-- The sample in terms of the rotated point, the screen coordinates and the luminance. -/
theorem sample_at_inv (sin cos : F → F) (r : Renderer F) (theta phi : F) (s : Sample F)
    (hs : sample_at sin cos r theta phi = .ok s) :
    (rotated_point sin cos r theta phi).2.2 + r.cfg_.k2 ≠ 0 ∧
      s.ooz = 1 / ((rotated_point sin cos r theta phi).2.2 + r.cfg_.k2) ∧
      s.xp = trunc (screen_x sin cos r theta phi) ∧
      s.yp = trunc (screen_y sin cos r theta phi) ∧
      s.luminance = luminance_at sin cos r.a_ r.b_ theta phi := by
  unfold sample_at project at hs
  simp only at hs
  split at hs
  · cases hs
  · rename_i hne
    cases hs
    exact ⟨hne, rfl, rfl, rfl, rfl⟩

theorem trunc_nonneg_iff (x : F) : 0 ≤ trunc x ↔ -1 < x := by
  constructor
  · intro h
    unfold trunc at h
    split at h
    · rename_i h0; linarith
    · have : (-1 : Int) < ⌈x⌉ := by omega
      have := Int.lt_ceil.mp this
      push_cast at this
      exact this
  · exact trunc_nonneg_of x

theorem trunc_lt_iff (x : F) (n : Int) (hn : 0 < n) : trunc x < n ↔ x < n := by
  constructor
  · intro h
    unfold trunc at h
    split at h
    · exact Int.floor_lt.mp h
    · rename_i h0
      have h1 : x < 0 := not_le.mp h0
      have h2 : (0 : F) < (n : F) := by exact_mod_cast hn
      linarith
  · exact trunc_lt_of x n hn

theorem trunc_eq_zero (x : F) (h0 : -1 < x) (h1 : x < 1) : trunc x = 0 := by
  have a := trunc_nonneg_of x h0
  have b := trunc_lt_of x 1 (by norm_num) (by push_cast; exact h1)
  omega

theorem rotated_norm (r : Renderer ℝ) (theta phi : ℝ) :
    (rotated_point Real.sin Real.cos r theta phi).1 ^ 2 +
      (rotated_point Real.sin Real.cos r theta phi).2.1 ^ 2 +
      (rotated_point Real.sin Real.cos r theta phi).2.2 ^ 2 =
    (surface_point Real.sin Real.cos r.cfg_ theta phi).1 ^ 2 +
      (surface_point Real.sin Real.cos r.cfg_ theta phi).2.1 ^ 2 +
      (surface_point Real.sin Real.cos r.cfg_ theta phi).2.2 ^ 2 := by
  have ha := Real.sin_sq_add_cos_sq r.a_
  have hb := Real.sin_sq_add_cos_sq r.b_
  simp only [rotated_point]
  generalize (surface_point Real.sin Real.cos r.cfg_ theta phi).1 = x
  generalize (surface_point Real.sin Real.cos r.cfg_ theta phi).2.1 = y
  generalize (surface_point Real.sin Real.cos r.cfg_ theta phi).2.2 = z
  linear_combination (y ^ 2 + z ^ 2) * ha +
    (x ^ 2 + (y * Real.cos r.a_ - z * Real.sin r.a_) ^ 2) * hb

theorem surface_norm (cfg : Config ℝ) (hr1 : 0 ≤ cfg.r1) (hr2 : 0 ≤ cfg.r2) (theta phi : ℝ) :
    (surface_point Real.sin Real.cos cfg theta phi).1 ^ 2 +
      (surface_point Real.sin Real.cos cfg theta phi).2.1 ^ 2 +
      (surface_point Real.sin Real.cos cfg theta phi).2.2 ^ 2 ≤ (cfg.r1 + cfg.r2) ^ 2 := by
  have ht := Real.sin_sq_add_cos_sq theta
  have hp := Real.sin_sq_add_cos_sq phi
  have hc := Real.cos_le_one theta
  have e : (surface_point Real.sin Real.cos cfg theta phi).1 ^ 2 +
      (surface_point Real.sin Real.cos cfg theta phi).2.1 ^ 2 +
      (surface_point Real.sin Real.cos cfg theta phi).2.2 ^ 2 =
      cfg.r2 ^ 2 + 2 * (cfg.r1 * cfg.r2) * Real.cos theta + cfg.r1 ^ 2 := by
    simp only [surface_point]
    linear_combination (cfg.r2 + cfg.r1 * Real.cos theta) ^ 2 * hp + cfg.r1 ^ 2 * ht
  rw [e]
  have h12 : 0 ≤ cfg.r1 * cfg.r2 := mul_nonneg hr1 hr2
  nlinarith [mul_le_mul_of_nonneg_left hc h12]

theorem rotated_depth_abs (r : Renderer ℝ) (hr1 : 0 ≤ r.cfg_.r1) (hr2 : 0 ≤ r.cfg_.r2)
    (theta phi : ℝ) :
    |(rotated_point Real.sin Real.cos r theta phi).2.2| ≤ r.cfg_.r1 + r.cfg_.r2 := by
  have h1 := rotated_norm r theta phi
  have h2 := surface_norm r.cfg_ hr1 hr2 theta phi
  apply abs_le_of_sq_le_sq _ (add_nonneg hr1 hr2)
  nlinarith [sq_nonneg (rotated_point Real.sin Real.cos r theta phi).1,
    sq_nonneg (rotated_point Real.sin Real.cos r theta phi).2.1]

theorem luminance_sq_le (a b theta phi : ℝ) :
    luminance_at Real.sin Real.cos a b theta phi ^ 2 ≤ 2 := by
  have ha := Real.sin_sq_add_cos_sq a
  have hb := Real.sin_sq_add_cos_sq b
  have ht := Real.sin_sq_add_cos_sq theta
  have hp := Real.sin_sq_add_cos_sq phi
  have key : 2 - luminance_at Real.sin Real.cos a b theta phi ^ 2 =
      ((Real.cos phi * Real.cos theta * Real.sin b +
          (Real.cos a * Real.sin theta - Real.sin a * Real.cos theta * Real.sin phi) * Real.cos b) +
        (Real.sin a * Real.sin theta + Real.cos a * Real.cos theta * Real.sin phi)) ^ 2 +
      2 * (Real.cos phi * Real.cos theta * Real.cos b -
          (Real.cos a * Real.sin theta - Real.sin a * Real.cos theta * Real.sin phi) * Real.sin b)
        ^ 2 := by
    unfold luminance_at
    linear_combination
      (-2) * ((Real.cos phi * Real.cos theta) ^ 2 +
        (Real.cos a * Real.sin theta - Real.sin a * Real.cos theta * Real.sin phi) ^ 2) * hb -
      2 * (Real.sin theta ^ 2 + Real.cos theta ^ 2 * Real.sin phi ^ 2) * ha - 2 * ht -
      2 * Real.cos theta ^ 2 * hp
  nlinarith [sq_nonneg ((Real.cos phi * Real.cos theta * Real.sin b +
          (Real.cos a * Real.sin theta - Real.sin a * Real.cos theta * Real.sin phi) * Real.cos b) +
        (Real.sin a * Real.sin theta + Real.cos a * Real.cos theta * Real.sin phi)),
    sq_nonneg (Real.cos phi * Real.cos theta * Real.cos b -
          (Real.cos a * Real.sin theta - Real.sin a * Real.cos theta * Real.sin phi) * Real.sin b)]

theorem luminance_le_sqrt_two (a b theta phi : ℝ) :
    luminance_at Real.sin Real.cos a b theta phi ≤ Real.sqrt 2 :=
  le_trans (le_abs_self _) (Real.abs_le_sqrt (luminance_sq_le a b theta phi))

theorem sqrt_two_lt : Real.sqrt 2 < 3 / 2 := by
  rw [Real.sqrt_lt' (by norm_num)]
  norm_num

theorem shade_index_unclamped (luminance : ℝ) (size : Int) (h0 : 0 ≤ trunc (luminance * 8))
    (h1 : trunc (luminance * 8) < size) : shade_index luminance size = trunc (luminance * 8) := by
  unfold shade_index
  simp only
  rw [if_neg (not_lt.mpr h0), if_neg (not_le.mpr h1)]

theorem front_hits_eq_nil_iff (cfg : Config F) (c : Nat) (l : List (Sample F)) :
    front_hits cfg c l = [] ↔ ∀ s ∈ l, visible cfg s → cell cfg s = c → s.ooz ≤ 0 := by
  constructor
  · intro h s hs hv hc
    by_contra hpos
    have hmem : s ∈ front_hits cfg c l := by
      unfold front_hits hits
      rw [List.mem_filter, List.mem_filter]
      exact ⟨⟨hs, decide_eq_true ⟨hv, hc⟩⟩, decide_eq_true (not_le.mp hpos)⟩
    rw [h] at hmem
    cases hmem
  · intro h
    rw [List.eq_nil_iff_forall_not_mem]
    intro s hs
    obtain ⟨hpos, hv, hc, hl⟩ := front_hits_pos cfg c l s hs
    exact absurd (h s hl hv hc) (not_le.mpr hpos)

theorem cell_state_zero_iff (cfg : Config F) (l : List (Sample F)) (st : Buffers F) (c : Nat)
    (h : cell_state cfg l st c) :
    (st.zbuffer[c]? = some 0 ↔ front_hits cfg c l = []) ∧
      (st.zbuffer[c]? = some 0 → st.buffer[c]? = some ' ') := by
  rcases h with ⟨he, hb, hz⟩ | ⟨m, ch, hm, _, _, hz⟩
  · exact ⟨⟨fun _ => he, fun _ => hz⟩, fun _ => hb⟩
  · have hpos := (front_hits_pos cfg c l m (first_max_mem _ m hm)).1
    have hne : st.zbuffer[c]? ≠ some 0 := by
      rw [hz]
      intro h0
      rw [Option.some.injEq] at h0
      exact absurd h0 (ne_of_gt hpos)
    constructor
    · constructor
      · intro h0; exact absurd h0 hne
      · intro he
        have := first_max_mem _ m hm
        rw [he] at this
        cases this
    · intro h0; exact absurd h0 hne

theorem far_sample : sample_at Real.sin Real.cos
    ⟨(single_config (-10) : Config ℝ), 0, Real.pi / 2⟩ 0 0 = .ok ⟨-(1 / 10), 40, 15, 1⟩ := by
  simp only [sample_at, project, single_config, default_config, Real.sin_zero, Real.cos_zero,
    Real.sin_pi_div_two, Real.cos_pi_div_two]
  norm_num
  constructor
  · have : ((40 : ℝ)) = ((40 : Int) : ℝ) := by norm_num
    rw [this, trunc_intCast]
  · unfold trunc
    rw [if_pos (by norm_num)]
    rw [Int.floor_eq_iff]
    norm_num

theorem sweep_eq_run_list {σ : Type} (step : F) (body : F → σ → Except Fault σ) :
    ∀ (n : Nat) (v : F) (st : σ) (fuel : Nat), n < fuel → two_pi ≤ v + n * step →
      (∀ k : Nat, k < n → v + k * step < two_pi) →
      sweep step body fuel v st =
        run_list body ((List.range n).map (fun k : Nat => v + k * step)) st := by
  intro n
  induction n with
  | zero =>
    intro v st fuel hf hn _
    simp only [Nat.cast_zero, zero_mul, add_zero] at hn
    obtain ⟨f, rfl⟩ : ∃ f, fuel = f + 1 := ⟨fuel - 1, by omega⟩
    rw [sweep_succ, if_neg (not_lt.mpr hn)]
    rfl
  | succ n ih =>
    intro v st fuel hf hn hlt
    obtain ⟨f, rfl⟩ : ∃ f, fuel = f + 1 := ⟨fuel - 1, by omega⟩
    have h0 : v < two_pi := by simpa using hlt 0 (Nat.succ_pos n)
    rw [sweep_succ, if_pos h0, List.range_succ_eq_map, List.map_cons, List.map_map]
    simp only [Nat.cast_zero, zero_mul, add_zero, run_list]
    cases body v st with
    | error e => rfl
    | ok st1 =>
      simp only
      rw [ih (v + step) st1 f (by omega) (by push_cast at hn; linarith)
        (fun k hk => by have := hlt (k + 1) (by omega); push_cast at this; linarith)]
      congr 1
      apply List.map_congr_left
      intro k _
      simp only [Function.comp, Nat.succ_eq_add_one]
      push_cast
      ring

theorem step_count_spec (step : F) (hstep : 0 < step) :
    (two_pi : F) ≤ 0 + (step_count step : Nat) * step ∧
      ∀ k : Nat, k < step_count step → (0 : F) + k * step < two_pi := by
  constructor
  · rw [zero_add]
    exact (div_le_iff₀ hstep).mp (Nat.le_ceil _)
  · intro k hk
    rw [zero_add]
    exact (lt_div_iff₀ hstep).mp (Nat.lt_ceil.mp hk)

theorem sweep_from_zero {σ : Type} (step : F) (hstep : 0 < step)
    (body : F → σ → Except Fault σ) (st : σ) (fuel : Nat) (hf : step_count step < fuel) :
    sweep step body fuel 0 st =
      run_list body ((List.range (step_count step)).map (fun k : Nat => (k : F) * step)) st := by
  obtain ⟨h1, h2⟩ := step_count_spec step hstep
  rw [sweep_eq_run_list step body (step_count step) 0 st fuel hf h1 h2]
  congr 1
  apply List.map_congr_left
  intro k _
  rw [zero_add]

theorem run_list_angle (theta : F) (vs : List F) :
    ∀ acc, run_list (angle_body theta) vs acc = .ok (acc ++ vs.map (fun phi => (theta, phi))) := by
  induction vs with
  | nil => intro acc; simp [run_list]
  | cons v vs ih =>
    intro acc
    simp only [run_list, angle_body]
    rw [ih]
    simp

theorem run_list_append {α : Type} (g : F → List α) (vs : List F) :
    ∀ acc, run_list (fun v (acc : List α) => .ok (acc ++ g v)) vs acc =
      .ok (acc ++ vs.flatMap g) := by
  induction vs with
  | nil => intro acc; simp [run_list]
  | cons v vs ih =>
    intro acc
    simp only [run_list]
    rw [ih]
    simp

theorem visited_angles_eq (cfg : Config F) (hts : 0 < cfg.theta_step) (hps : 0 < cfg.phi_step)
    (fuel : Nat) (hf : max (step_count cfg.theta_step) (step_count cfg.phi_step) < fuel) :
    visited_angles cfg fuel = .ok (angle_grid cfg) := by
  have h1 : step_count cfg.theta_step < fuel := lt_of_le_of_lt (le_max_left _ _) hf
  have h2 : step_count cfg.phi_step < fuel := lt_of_le_of_lt (le_max_right _ _) hf
  unfold visited_angles
  have hin : (fun theta (acc : List (F × F)) =>
      sweep cfg.phi_step (angle_body theta) fuel 0 acc) =
      (fun theta (acc : List (F × F)) => .ok (acc ++
        ((List.range (step_count cfg.phi_step)).map (fun j : Nat => (j : F) * cfg.phi_step)).map
          (fun phi => (theta, phi)))) := by
    funext theta acc
    rw [sweep_from_zero cfg.phi_step hps _ acc fuel h2, run_list_angle]
  rw [hin, sweep_from_zero cfg.theta_step hts _ [] fuel h1, run_list_append]
  simp only [List.nil_append, angle_grid, List.flatMap_map, List.map_map]
  rfl

theorem angle_grid_mem (cfg : Config F) (hts : 0 < cfg.theta_step) (hps : 0 < cfg.phi_step)
    (p : F × F) (hp : p ∈ angle_grid cfg) :
    ∃ k j : Nat, k < step_count cfg.theta_step ∧ j < step_count cfg.phi_step ∧
      p = ((k : F) * cfg.theta_step, (j : F) * cfg.phi_step) ∧
      0 ≤ p.1 ∧ p.1 < two_pi ∧ 0 ≤ p.2 ∧ p.2 < two_pi := by
  unfold angle_grid at hp
  rw [List.mem_flatMap] at hp
  obtain ⟨k, hk, hp⟩ := hp
  rw [List.mem_map] at hp
  obtain ⟨j, hj, rfl⟩ := hp
  rw [List.mem_range] at hk hj
  have h1 := (step_count_spec cfg.theta_step hts).2 k hk
  have h2 := (step_count_spec cfg.phi_step hps).2 j hj
  rw [zero_add] at h1 h2
  exact ⟨k, j, hk, hj, rfl, by positivity, h1, by positivity, h2⟩

theorem angle_grid_length (cfg : Config F) :
    (angle_grid cfg).length = step_count cfg.theta_step * step_count cfg.phi_step := by
  unfold angle_grid
  rw [List.length_flatMap]
  have : (List.length ∘ fun k : Nat =>
      (List.range (step_count cfg.phi_step)).map (fun j : Nat =>
        ((k : F) * cfg.theta_step, (j : F) * cfg.phi_step))) =
      fun _ => step_count cfg.phi_step := by
    funext k
    simp
  rw [this]
  simp

theorem visited_angles_mono (cfg : Config F) (fuel1 fuel2 : Nat) (hle : fuel1 ≤ fuel2)
    (l : List (F × F)) (h : visited_angles cfg fuel1 = .ok l) :
    visited_angles cfg fuel2 = .ok l := by
  unfold visited_angles at h ⊢
  exact sweep_mono cfg.theta_step _ _
    (fun theta acc acc1 hb =>
      sweep_mono cfg.phi_step _ _ (fun _ _ _ hb1 => hb1) fuel1 fuel2 0 acc acc1 hle hb)
    fuel1 fuel2 0 [] l hle h

theorem visited_grid (sin cos : F → F) (r : Renderer F) (hts : 0 < r.cfg_.theta_step)
    (hps : 0 < r.cfg_.phi_step) (fuel : Nat) (l : List (Sample F))
    (h : visited sin cos r fuel = .ok l) :
    List.Forall₂ (fun (p : F × F) s => sample_at sin cos r p.1 p.2 = .ok s)
      (angle_grid r.cfg_) l := by
  unfold visited at h
  have hsim : ∃ t, visited_angles r.cfg_ fuel = .ok t ∧
      List.Forall₂ (fun (p : F × F) s => sample_at sin cos r p.1 p.2 = .ok s) t l := by
    unfold visited_angles
    refine sweep_sim
      (fun (s : List (Sample F)) (t : List (F × F)) =>
        List.Forall₂ (fun (p : F × F) s => sample_at sin cos r p.1 p.2 = .ok s) t s)
      _ _ _ ?_ fuel 0 [] [] l List.Forall₂.nil h
    intro theta s t s1 hR hb
    refine sweep_sim
      (fun (s : List (Sample F)) (t : List (F × F)) =>
        List.Forall₂ (fun (p : F × F) s => sample_at sin cos r p.1 p.2 = .ok s) t s)
      _ _ _ ?_ fuel 0 s t s1 hR hb
    intro phi s2 t2 s3 hR2 hb2
    obtain ⟨smp, hsmp, rfl⟩ := record_body_inv sin cos r theta phi s2 s3 hb2
    refine ⟨t2 ++ [(theta, phi)], rfl, ?_⟩
    exact List.rel_append hR2 (List.Forall₂.cons hsmp List.Forall₂.nil)
  obtain ⟨t, ht, hR⟩ := hsim
  have hmono := visited_angles_mono r.cfg_ fuel
    (fuel + (max (step_count r.cfg_.theta_step) (step_count r.cfg_.phi_step) + 1))
    (by omega) t ht
  rw [visited_angles_eq r.cfg_ hts hps _ (by omega)] at hmono
  cases hmono
  exact hR

theorem visited_returns (sin cos : F → F) (r : Renderer F) (hts : 0 < r.cfg_.theta_step)
    (hps : 0 < r.cfg_.phi_step)
    (hdiv : ∀ k j : Nat, (k : F) * r.cfg_.theta_step < two_pi →
      (j : F) * r.cfg_.phi_step < two_pi →
      divisor sin cos r (k * r.cfg_.theta_step) (j * r.cfg_.phi_step) ≠ 0)
    (fuel : Nat) (hf : max (step_count r.cfg_.theta_step) (step_count r.cfg_.phi_step) < fuel) :
    ∃ l, visited sin cos r fuel = .ok l := by
  have h1 : step_count r.cfg_.theta_step < fuel := lt_of_le_of_lt (le_max_left _ _) hf
  have h2 : step_count r.cfg_.phi_step < fuel := lt_of_le_of_lt (le_max_right _ _) hf
  unfold visited
  obtain ⟨l, hl, _⟩ := sweep_total (fun _ : List (Sample F) => True) r.cfg_.theta_step
    (fun theta acc => sweep r.cfg_.phi_step (record_body sin cos r theta) fuel 0 acc)
    (step_count r.cfg_.theta_step) 0 [] (step_count_spec _ hts).1 trivial
    (fun k t hk _ => by
      rw [zero_add] at hk
      obtain ⟨t1, ht1, _⟩ := sweep_total (fun _ : List (Sample F) => True) r.cfg_.phi_step
        (record_body sin cos r (0 + k * r.cfg_.theta_step))
        (step_count r.cfg_.phi_step) 0 t (step_count_spec _ hps).1 trivial
        (fun j t2 hj _ => by
          rw [zero_add] at hj
          obtain ⟨s, hs⟩ := sample_at_of_divisor_ne sin cos r _ _ (hdiv k j hk hj)
          refine ⟨t2 ++ [s], ?_, trivial⟩
          unfold record_body
          rw [zero_add, zero_add, hs])
        fuel h2
      exact ⟨t1, ht1, trivial⟩)
    fuel h1
  exact ⟨l, hl⟩

theorem default_step_count :
    step_count (default_config : Config F).theta_step = 90 ∧
      step_count (default_config : Config F).phi_step = 315 := by
  constructor
  · unfold step_count two_pi default_config
    rw [Nat.ceil_eq_iff (by norm_num)]
    norm_num
  · unfold step_count two_pi default_config
    rw [Nat.ceil_eq_iff (by norm_num)]
    norm_num

theorem scan_digits_none (cs : List Char)
    (h : ∀ c r, cs = c :: r → c.isDigit = false) : scan_digits 0 0 cs = (0, 0, cs) := by
  cases cs with
  | nil => rfl
  | cons c r =>
    have := h c r rfl
    simp [scan_digits, this]

theorem atoi_of_malformed (s : String) (h : starts_integer s = false) : atoi_of s = 0 := by
  unfold starts_integer at h
  unfold atoi_of
  generalize s.toList.dropWhile is_space = cs at h ⊢
  cases cs with
  | nil => rfl
  | cons c r =>
    simp only [skip_sign] at h
    by_cases hm : c = '-'
    · have hs : c = '+' ∨ c = '-' := Or.inr hm
      rw [if_pos hs] at h
      have hr : ∀ d t, r = d :: t → d.isDigit = false := by
        intro d t e; subst e; simpa using h
      simp [hm, scan_digits_none r hr]
    · by_cases hp : c = '+'
      · have hs : c = '+' ∨ c = '-' := Or.inl hp
        rw [if_pos hs] at h
        have hr : ∀ d t, r = d :: t → d.isDigit = false := by
          intro d t e; subst e; simpa using h
        simp [hp, scan_digits_none r hr]
      · have hs : ¬ (c = '+' ∨ c = '-') := fun h => h.elim hp hm
        rw [if_neg hs] at h
        have hr : ∀ d t, c :: r = d :: t → d.isDigit = false := by
          intro d t e
          cases e
          simpa using h
        simp [hm, hp, scan_digits_none (c :: r) hr]

theorem unsigned_decimal_none (cs : List Char)
    (h : ∀ c r, cs = c :: r → c.isDigit = false ∧
      (c = '.' → ∀ d t, r = d :: t → d.isDigit = false)) :
    (unsigned_decimal cs : F) = 0 := by
  unfold unsigned_decimal
  rw [scan_digits_none cs (fun c r e => (h c r e).1)]
  cases cs with
  | nil => simp
  | cons c r =>
    simp only
    by_cases hc : c = '.'
    · rw [if_pos hc, scan_digits_none r ((h c r rfl).2 hc)]
      simp
    · rw [if_neg hc]
      simp

theorem starts_float_cons (c : Char) (r : List Char)
    (h : (c.isDigit || (c == '.' && (match r with | [] => false | d :: _ => d.isDigit)) ||
      starts_word ['i', 'n', 'f'] (c :: r) || starts_word ['n', 'a', 'n'] (c :: r)) = false) :
    ∀ c1 r1, c :: r = c1 :: r1 → c1.isDigit = false ∧
      (c1 = '.' → ∀ d t, r1 = d :: t → d.isDigit = false) := by
  intro c1 r1 e
  cases e
  simp only [Bool.or_eq_false_iff, Bool.and_eq_false_imp, beq_iff_eq] at h
  refine ⟨h.1.1.1, ?_⟩
  intro hc d t e
  subst e
  exact h.1.1.2 hc

theorem atof_of_malformed (s : String) (h : starts_float s = false) : (atof_of s : F) = 0 := by
  unfold starts_float at h
  unfold atof_of
  generalize s.toList.dropWhile is_space = cs at h ⊢
  cases cs with
  | nil => rfl
  | cons c r =>
    simp only [skip_sign] at h
    by_cases hm : c = '-'
    · have hs : c = '+' ∨ c = '-' := Or.inr hm
      rw [if_pos hs] at h
      simp only
      rw [if_pos hm]
      cases r with
      | nil => simp [unsigned_decimal, scan_digits]
      | cons d t =>
        simp only at h
        rw [unsigned_decimal_none (d :: t) (starts_float_cons d t h), neg_zero]
    · by_cases hp : c = '+'
      · have hs : c = '+' ∨ c = '-' := Or.inl hp
        rw [if_pos hs] at h
        simp only
        rw [if_neg hm, if_pos hp]
        cases r with
        | nil => simp [unsigned_decimal, scan_digits]
        | cons d t =>
          simp only at h
          rw [unsigned_decimal_none (d :: t) (starts_float_cons d t h)]
      · have hs : ¬ (c = '+' ∨ c = '-') := fun h => h.elim hp hm
        rw [if_neg hs] at h
        simp only at h ⊢
        rw [if_neg hm, if_neg hp, unsigned_decimal_none (c :: r) (starts_float_cons c r h)]

theorem same_field_refl (flag : String) (c : Config F) : same_field flag c c := by
  unfold same_field
  simp

theorem same_field_trans (flag : String) (c1 c2 c3 : Config F) (h1 : same_field flag c1 c2)
    (h2 : same_field flag c2 c3) : same_field flag c1 c3 := by
  unfold same_field at h1 h2 ⊢
  obtain ⟨a1, a2, a3, a4, a5, a6, a7, a8, a9, a10, a11, a12⟩ := h1
  obtain ⟨b1, b2, b3, b4, b5, b6, b7, b8, b9, b10, b11, b12⟩ := h2
  exact ⟨fun h => (a1 h).trans (b1 h), fun h => (a2 h).trans (b2 h),
    fun h => (a3 h).trans (b3 h), fun h => (a4 h).trans (b4 h), fun h => (a5 h).trans (b5 h),
    fun h => (a6 h).trans (b6 h), fun h => (a7 h).trans (b7 h), fun h => (a8 h).trans (b8 h),
    fun h => (a9 h).trans (b9 h), fun h => (a10 h).trans (b10 h),
    fun h => (a11 h).trans (b11 h), fun h => (a12 h).trans (b12 h)⟩

theorem same_field_benchmark (flag : String) (c : Config F) (b : Bool) :
    same_field flag { c with benchmark := b } c := by
  unfold same_field
  simp

theorem set_value_cases (atoi : String → Int) (atof : String → F) (cfg : Config F)
    (arg v : String) :
    (arg ∉ value_flags ∧ set_value atoi atof cfg arg v = cfg) ∨
    (arg = "--width" ∧ set_value atoi atof cfg arg v = { cfg with width := atoi v }) ∨
    (arg = "--height" ∧ set_value atoi atof cfg arg v = { cfg with height := atoi v }) ∨
    (arg = "--r1" ∧ set_value atoi atof cfg arg v = { cfg with r1 := atof v }) ∨
    (arg = "--r2" ∧ set_value atoi atof cfg arg v = { cfg with r2 := atof v }) ∨
    (arg = "--k1" ∧ set_value atoi atof cfg arg v = { cfg with k1 := atof v }) ∨
    (arg = "--k2" ∧ set_value atoi atof cfg arg v = { cfg with k2 := atof v }) ∨
    (arg = "--a-step" ∧ set_value atoi atof cfg arg v = { cfg with a_step := atof v }) ∨
    (arg = "--b-step" ∧ set_value atoi atof cfg arg v = { cfg with b_step := atof v }) ∨
    (arg = "--theta-step" ∧
      set_value atoi atof cfg arg v = { cfg with theta_step := atof v }) ∨
    (arg = "--phi-step" ∧ set_value atoi atof cfg arg v = { cfg with phi_step := atof v }) ∨
    (arg = "--frames" ∧ set_value atoi atof cfg arg v = { cfg with frames := atoi v }) ∨
    (arg = "--shading" ∧ set_value atoi atof cfg arg v = { cfg with shading := v.toList }) := by
  by_cases hval : arg ∈ value_flags
  · right
    simp only [value_flags, List.mem_cons, List.mem_singleton, List.not_mem_nil, or_false]
      at hval
    rcases hval with h | h | h | h | h | h | h | h | h | h | h | h <;> subst h <;>
      simp [set_value]
  · left
    refine ⟨hval, ?_⟩
    simp only [value_flags, List.mem_cons, List.mem_singleton, not_or, List.not_mem_nil,
      not_false_eq_true, and_true] at hval
    obtain ⟨h1, h2, h3, h4, h5, h6, h7, h8, h9, h10, h11, h12⟩ := hval
    simp [set_value, h1, h2, h3, h4, h5, h6, h7, h8, h9, h10, h11, h12]

theorem set_value_other (atoi : String → Int) (atof : String → F) (cfg : Config F)
    (flag arg v : String) (hne : flag ≠ arg) :
    same_field flag (set_value atoi atof cfg arg v) cfg := by
  rcases set_value_cases atoi atof cfg arg v with ⟨_, e⟩ | ⟨rfl, e⟩ | ⟨rfl, e⟩ | ⟨rfl, e⟩ |
    ⟨rfl, e⟩ | ⟨rfl, e⟩ | ⟨rfl, e⟩ | ⟨rfl, e⟩ | ⟨rfl, e⟩ | ⟨rfl, e⟩ | ⟨rfl, e⟩ | ⟨rfl, e⟩ |
    ⟨rfl, e⟩
  · rw [e]
    exact same_field_refl flag cfg
  all_goals
    rw [e]
    unfold same_field
    refine ⟨?_, ?_, ?_, ?_, ?_, ?_, ?_, ?_, ?_, ?_, ?_, ?_⟩ <;>
      first
      | (intro h; exact absurd h hne)
      | (intro _; rfl)

theorem set_value_same (atoi : String → Int) (atof : String → F) (c1 c2 : Config F)
    (flag v : String) :
    same_field flag (set_value atoi atof c1 flag v) (set_value atoi atof c2 flag v) := by
  unfold same_field
  refine ⟨?_, ?_, ?_, ?_, ?_, ?_, ?_, ?_, ?_, ?_, ?_, ?_⟩ <;>
  · intro h
    subst h
    simp [set_value]

theorem parse_loop_keeps (atoi : String → Int) (atof : String → F) (flag : String) :
    ∀ (n : Nat) (post : List String), post.length ≤ n → flag ∉ valued_flags post →
      ∀ cfg : Config F, same_field flag (parse_loop atoi atof cfg post) cfg := by
  intro n
  induction n with
  | zero =>
    intro post hlen _ cfg
    have : post = [] := List.length_eq_zero.mp (by omega)
    subst this
    exact same_field_refl flag cfg
  | succ n ih =>
    intro post hlen hno cfg
    cases post with
    | nil => exact same_field_refl flag cfg
    | cons arg rest =>
      by_cases hb : arg = "--benchmark"
      · subst hb
        rw [parse_loop_benchmark]
        have hno2 : flag ∉ valued_flags rest := by
          cases rest with
          | nil => simp [valued_flags]
          | cons v r => simpa [valued_flags, benchmark_not_value] using hno
        exact same_field_trans flag _ _ _
          (ih rest (by simp at hlen; omega) hno2 _) (same_field_benchmark flag cfg true)
      · by_cases hval : arg ∈ value_flags
        · cases rest with
          | nil =>
            rw [parse_loop_value_last atoi atof cfg arg hval]
            exact same_field_refl flag cfg
          | cons v r =>
            rw [parse_loop_value atoi atof cfg arg hval v r]
            simp only [valued_flags, if_pos hval, List.mem_cons, not_or] at hno
            exact same_field_trans flag _ _ _
              (ih r (by simp at hlen; omega) hno.2 _)
              (set_value_other atoi atof cfg flag arg v hno.1)
        · have hun : arg ∉ recognised_flags := by
            unfold recognised_flags
            rw [List.mem_cons, not_or]
            exact ⟨hb, hval⟩
          rw [parse_loop_unrecognised atoi atof cfg arg hun]
          have hno2 : flag ∉ valued_flags rest := by
            cases rest with
            | nil => simp [valued_flags]
            | cons v r => simpa [valued_flags, hval] using hno
          exact ih rest (by simp at hlen; omega) hno2 cfg

/-- The last occurrence with an argument of a value flag determines its field. -/
theorem parse_loop_last (atoi : String → Int) (atof : String → F) (cfg cfg0 : Config F)
    (pre : List String) (flag v : String) (post : List String)
    (hpos : flag_position pre = true) (hflag : flag ∈ value_flags)
    (hno : flag ∉ valued_flags post) :
    same_field flag (parse_loop atoi atof cfg (pre ++ flag :: v :: post))
      (set_value atoi atof cfg0 flag v) := by
  obtain ⟨cfg1, h1⟩ := parse_loop_append atoi atof pre.length pre (le_refl _) hpos cfg
  rw [h1, parse_loop_value atoi atof cfg1 flag hflag v post]
  exact same_field_trans flag _ _ _
    (parse_loop_keeps atoi atof flag post.length post (le_refl _) hno _)
    (set_value_same atoi atof cfg1 cfg0 flag v)

theorem numeric_field_of_same (flag : String) (hflag : flag ∈ numeric_flags) (c1 c2 : Config F)
    (h : same_field flag c1 c2) : numeric_field c1 flag = numeric_field c2 flag := by
  obtain ⟨a1, a2, a3, a4, a5, a6, a7, a8, a9, a10, a11, _⟩ := h
  simp only [numeric_flags, List.mem_cons, List.mem_singleton, List.not_mem_nil, or_false]
    at hflag
  rcases hflag with h | h | h | h | h | h | h | h | h | h | h <;> subst h
  · simp [numeric_field, a1 rfl]
  · simp [numeric_field, a2 rfl]
  · simp [numeric_field, a3 rfl]
  · simp [numeric_field, a4 rfl]
  · simp [numeric_field, a5 rfl]
  · simp [numeric_field, a6 rfl]
  · simp [numeric_field, a7 rfl]
  · simp [numeric_field, a8 rfl]
  · simp [numeric_field, a9 rfl]
  · simp [numeric_field, a10 rfl]
  · simp [numeric_field, a11 rfl]

theorem numeric_field_set_value (atoi : String → Int) (atof : String → F) (cfg : Config F)
    (flag v : String) (hflag : flag ∈ numeric_flags)
    (hint : flag ∈ int_flags → atoi v = 0) (hreal : flag ∉ int_flags → atof v = 0) :
    numeric_field (set_value atoi atof cfg flag v) flag = 0 := by
  simp only [numeric_flags, List.mem_cons, List.mem_singleton, List.not_mem_nil, or_false]
    at hflag
  rcases hflag with h | h | h | h | h | h | h | h | h | h | h <;> subst h
  · simp [numeric_field, set_value, hint (by simp [int_flags])]
  · simp [numeric_field, set_value, hint (by simp [int_flags])]
  · simp [numeric_field, set_value, hreal (by simp [int_flags])]
  · simp [numeric_field, set_value, hreal (by simp [int_flags])]
  · simp [numeric_field, set_value, hreal (by simp [int_flags])]
  · simp [numeric_field, set_value, hreal (by simp [int_flags])]
  · simp [numeric_field, set_value, hreal (by simp [int_flags])]
  · simp [numeric_field, set_value, hreal (by simp [int_flags])]
  · simp [numeric_field, set_value, hreal (by simp [int_flags])]
  · simp [numeric_field, set_value, hreal (by simp [int_flags])]
  · simp [numeric_field, set_value, hint (by simp [int_flags])]

theorem numeric_flags_value (flag : String) (h : flag ∈ numeric_flags) : flag ∈ value_flags := by
  simp only [numeric_flags, List.mem_cons, List.mem_singleton, List.not_mem_nil, or_false] at h
  rcases h with h | h | h | h | h | h | h | h | h | h | h <;> subst h <;> simp [value_flags]

theorem numeric_field_default (flag : String) (h : flag ∈ numeric_flags) :
    numeric_field (default_config : Config F) flag ≠ 0 := by
  simp only [numeric_flags, List.mem_cons, List.mem_singleton, List.not_mem_nil, or_false] at h
  rcases h with h | h | h | h | h | h | h | h | h | h | h <;> subst h <;>
    simp [numeric_field, default_config]

theorem set_value_keeps_benchmark (atoi : String → Int) (atof : String → F) (cfg : Config F)
    (arg v : String) : (set_value atoi atof cfg arg v).benchmark = cfg.benchmark := by
  rcases set_value_cases atoi atof cfg arg v with ⟨_, e⟩ | ⟨_, e⟩ | ⟨_, e⟩ | ⟨_, e⟩ |
    ⟨_, e⟩ | ⟨_, e⟩ | ⟨_, e⟩ | ⟨_, e⟩ | ⟨_, e⟩ | ⟨_, e⟩ | ⟨_, e⟩ | ⟨_, e⟩ | ⟨_, e⟩ <;>
    rw [e]

theorem parse_args_split (atoi : String → Int) (atof : String → F) (prog : String)
    (pre : List String) (hpos : flag_position pre = true) (rest : List String) :
    parse_args atoi atof (prog :: (pre ++ rest)) =
      parse_loop atoi atof (parse_args atoi atof (prog :: pre)) rest := by
  unfold parse_args
  simp only [List.drop_succ_cons, List.drop_zero]
  obtain ⟨cfg1, h1⟩ := parse_loop_append atoi atof pre.length pre (le_refl _) hpos
    (default_config : Config F)
  have h2 := h1 []
  rw [List.append_nil] at h2
  rw [h1, h2]
  rfl

theorem malformed_zero (atoi : String → Int) (atof : String → F)
    (hatoi : ∀ s, starts_integer s = false → atoi s = 0)
    (hatof : ∀ s, starts_float s = false → atof s = 0) (flag v : String)
    (hv : malformed flag v) :
    (flag ∈ int_flags → atoi v = 0) ∧ (flag ∉ int_flags → atof v = 0) := by
  unfold malformed at hv
  constructor
  · intro h
    rw [if_pos h] at hv
    exact hatoi v hv
  · intro h
    rw [if_neg h] at hv
    exact hatof v hv

/-- The default configuration at another grid size, at the phase `(0, π - π/3)`: the sample
of the angles `(0, 0)`. -/
theorem edge_sample (w h : Int) :
    sample_at Real.sin Real.cos ⟨(sized_config w h : Config ℝ), 0, Real.pi - Real.pi / 3⟩ 0 0 =
      .ok ⟨1 / 5, trunc ((w : ℝ) / 2 - 9),
        trunc ((h : ℝ) / 2 - 9 * Real.sin (Real.pi / 3)), Real.sin (Real.pi / 3)⟩ := by
  unfold sample_at project
  simp only [sized_config, default_config, Real.sin_zero, Real.cos_zero, Real.sin_pi_sub,
    Real.cos_pi_sub, Real.cos_pi_div_three]
  norm_num
  refine ⟨?_, ?_⟩ <;> (congr 1; try ring)

theorem edge_screen (w h : Int) :
    screen_x Real.sin Real.cos ⟨(sized_config w h : Config ℝ), 0, Real.pi - Real.pi / 3⟩ 0 0 =
        (w : ℝ) / 2 - 9 ∧
      screen_y Real.sin Real.cos ⟨(sized_config w h : Config ℝ), 0, Real.pi - Real.pi / 3⟩ 0 0 =
        (h : ℝ) / 2 - 9 * Real.sin (Real.pi / 3) := by
  unfold screen_x screen_y rotated_point surface_point
  simp only [sized_config, default_config, Real.sin_zero, Real.cos_zero, Real.sin_pi_sub,
    Real.cos_pi_sub, Real.cos_pi_div_three]
  norm_num
  refine ⟨?_, ?_⟩ <;> ring

theorem sin_pi_div_three_bounds :
    (7 : ℝ) / 9 < Real.sin (Real.pi / 3) ∧ Real.sin (Real.pi / 3) < 8 / 9 := by
  rw [Real.sin_pi_div_three]
  have h1 : (14 : ℝ) / 9 < Real.sqrt 3 := by
    rw [Real.lt_sqrt (by norm_num)]
    norm_num
  have h2 : Real.sqrt 3 < 16 / 9 := by
    rw [Real.sqrt_lt' (by norm_num)]
    norm_num
  constructor <;> linarith

theorem theta_body_grid (sin cos : F → F) (r : Renderer F) (hps : 0 < r.cfg_.phi_step)
    (fuel : Nat) (hf : step_count r.cfg_.phi_step < fuel) (theta : F) (st : Buffers F) :
    theta_body sin cos r.cfg_ (sin r.a_) (cos r.a_) (sin r.b_) (cos r.b_) fuel theta st =
      run_list
        (phi_body sin cos r.cfg_ (sin r.a_) (cos r.a_) (sin r.b_) (cos r.b_) (sin theta)
          (cos theta) (r.cfg_.r2 + r.cfg_.r1 * cos theta) (r.cfg_.r1 * sin theta))
        ((List.range (step_count r.cfg_.phi_step)).map
          (fun j : Nat => (j : F) * r.cfg_.phi_step)) st := by
  show sweep r.cfg_.phi_step
    (phi_body sin cos r.cfg_ (sin r.a_) (cos r.a_) (sin r.b_) (cos r.b_) (sin theta)
      (cos theta) (r.cfg_.r2 + r.cfg_.r1 * cos theta) (r.cfg_.r1 * sin theta)) fuel 0 st = _
  exact sweep_from_zero r.cfg_.phi_step hps _ st fuel hf

theorem rasterize_grid (sin cos : F → F) (r : Renderer F) (hts : 0 < r.cfg_.theta_step)
    (fuel : Nat) (hf : step_count r.cfg_.theta_step < fuel)
    (hfit : 0 ≤ r.cfg_.width * r.cfg_.height ∧ r.cfg_.width * r.cfg_.height ≤ INT_MAX) :
    rasterize sin cos r fuel =
      run_list (theta_body sin cos r.cfg_ (sin r.a_) (cos r.a_) (sin r.b_) (cos r.b_) fuel)
        ((List.range (step_count r.cfg_.theta_step)).map
          (fun k : Nat => (k : F) * r.cfg_.theta_step))
        (blank (r.cfg_.width * r.cfg_.height).toNat) := by
  rw [rasterize_eq sin cos r fuel hfit]
  show sweep r.cfg_.theta_step
    (theta_body sin cos r.cfg_ (sin r.a_) (cos r.a_) (sin r.b_) (cos r.b_) fuel) fuel 0
    (blank (r.cfg_.width * r.cfg_.height).toNat) = _
  exact sweep_from_zero r.cfg_.theta_step hts _ _ fuel hf

theorem rasterize_samples (sin cos : F → F) (r : Renderer F) (hts : 0 < r.cfg_.theta_step)
    (hps : 0 < r.cfg_.phi_step) (fuel : Nat) (st : Buffers F)
    (h : rasterize sin cos r fuel = .ok st) :
    ∃ l, visited sin cos r fuel = .ok l ∧
      List.Forall₂ (fun (p : F × F) s => sample_at sin cos r p.1 p.2 = .ok s)
        (angle_grid r.cfg_) l ∧
      l.length = step_count r.cfg_.theta_step * step_count r.cfg_.phi_step ∧
      plot_all r.cfg_ l (blank (r.cfg_.width * r.cfg_.height).toNat) = .ok st := by
  obtain ⟨l, hl, hp⟩ := rasterize_trace sin cos r fuel st h
  have hg := visited_grid sin cos r hts hps fuel l hl
  exact ⟨l, hl, hg, by rw [← hg.length_eq, angle_grid_length], hp⟩

theorem render_frame_at_count (sin cos : F → F) (r : Renderer F)
    (hw : 0 < r.cfg_.width) (hh : 0 < r.cfg_.height) (hreg : regular sin cos r) (fuel : Nat)
    (hf : max (step_count r.cfg_.theta_step) (step_count r.cfg_.phi_step) < fuel) :
    ∃ out, render_frame sin cos r fuel = .ok out := by
  have h1 : step_count r.cfg_.theta_step < fuel := lt_of_le_of_lt (le_max_left _ _) hf
  have h2 : step_count r.cfg_.phi_step < fuel := lt_of_le_of_lt (le_max_right _ _) hf
  obtain ⟨n, hn⟩ := regular_returns sin cos r hw hh hreg
  obtain ⟨out, hout⟩ := hn (fuel + n + 1) (by omega)
  refine ⟨out, ?_⟩
  unfold render_frame at hout ⊢
  cases hr : rasterize sin cos r (fuel + n + 1) with
  | error e => rw [hr] at hout; cases hout
  | ok st =>
    have hfit := rasterize_ok_fits sin cos r _ st hr
    have e1 := rasterize_grid sin cos r hreg.2.1 fuel h1 hfit
    have e2 := rasterize_grid sin cos r hreg.2.1 (fuel + n + 1) (by omega) hfit
    have e3 : theta_body sin cos r.cfg_ (sin r.a_) (cos r.a_) (sin r.b_) (cos r.b_) fuel =
        theta_body sin cos r.cfg_ (sin r.a_) (cos r.a_) (sin r.b_) (cos r.b_)
          (fuel + n + 1) := by
      funext theta st1
      rw [theta_body_grid sin cos r hreg.2.2.1 fuel h2,
        theta_body_grid sin cos r hreg.2.2.1 (fuel + n + 1) (by omega)]
    rw [e3, ← e2] at e1
    rw [e1]
    exact hout

theorem sweep_with_zero {σ : Type} (add : F → F → F) (step : F)
    (body : F → σ → Except Fault σ) (v : F) (st : σ) :
    sweep_with add step body 0 v st = .error .outOfFuel := rfl

theorem sweep_with_succ {σ : Type} (add : F → F → F) (step : F)
    (body : F → σ → Except Fault σ) (fuel : Nat) (v : F) (st : σ) :
    sweep_with add step body (fuel + 1) v st =
      if v < two_pi then
        match body v st with
        | .error e => .error e
        | .ok st1 => sweep_with add step body fuel (add v step) st1
      else .ok st := rfl

/-- With the addition of the field the parametric loop is `sweep`. -/
theorem sweep_with_exact {σ : Type} (step : F) (body : F → σ → Except Fault σ) :
    ∀ (fuel : Nat) (v : F) (st : σ),
      sweep_with (fun a b => a + b) step body fuel v st = sweep step body fuel v st := by
  intro fuel
  induction fuel with
  | zero => intro v st; rfl
  | succ fuel ih =>
    intro v st
    rw [sweep_with_succ, sweep_succ]
    by_cases hv : v < two_pi
    · rw [if_pos hv, if_pos hv]
      cases body v st with
      | error e => rfl
      | ok st1 => exact ih (v + step) st1
    · rw [if_neg hv, if_neg hv]

/-- The parametric loop returns once the loop variable has reached `two_pi`, when the body
returns at every value on the way. -/
theorem sweep_with_total {σ : Type} (P : σ → Prop) (add : F → F → F) (step : F)
    (body : F → σ → Except Fault σ) :
    ∀ (n : Nat) (v : F) (s : σ), two_pi ≤ (fun x => add x step)^[n] v → P s →
      (∀ (k : Nat) (t : σ), (fun x => add x step)^[k] v < two_pi → P t →
        ∃ t1, body ((fun x => add x step)^[k] v) t = .ok t1 ∧ P t1) →
      ∀ fuel, n < fuel → ∃ s1, sweep_with add step body fuel v s = .ok s1 ∧ P s1 := by
  intro n
  induction n with
  | zero =>
    intro v s hn hP _ fuel hf
    obtain ⟨f, rfl⟩ : ∃ f, fuel = f + 1 := ⟨fuel - 1, by omega⟩
    simp only [Function.iterate_zero, id_eq] at hn
    rw [sweep_with_succ, if_neg (not_lt.mpr hn)]
    exact ⟨s, rfl, hP⟩
  | succ n ih =>
    intro v s hn hP hbody fuel hf
    obtain ⟨f, rfl⟩ : ∃ f, fuel = f + 1 := ⟨fuel - 1, by omega⟩
    rw [sweep_with_succ]
    by_cases hv : v < two_pi
    · rw [if_pos hv]
      obtain ⟨t1, ht1, hP1⟩ := hbody 0 s hv hP
      simp only [Function.iterate_zero, id_eq] at ht1
      rw [ht1]
      simp only
      refine ih (add v step) t1 (by rw [Function.iterate_succ_apply] at hn; exact hn) hP1 ?_ f
        (by omega)
      intro k t hk hPt
      have := hbody (k + 1) t (by rw [Function.iterate_succ_apply]; exact hk) hPt
      rw [Function.iterate_succ_apply] at this
      exact this
    · rw [if_neg hv]
      exact ⟨s, rfl, hP⟩

/-- The parametric loop never returns when the loop variable stays below `two_pi`. -/
theorem sweep_with_stall {σ : Type} (Q : F → Prop) (add : F → F → F) (step : F)
    (hQ : ∀ v, Q v → v < two_pi ∧ Q (add v step)) (body : F → σ → Except Fault σ) :
    ∀ (fuel : Nat) (v : F) (st s1 : σ), Q v → sweep_with add step body fuel v st ≠ .ok s1 := by
  intro fuel
  induction fuel with
  | zero => intro v st s1 _ h; rw [sweep_with_zero] at h; cases h
  | succ fuel ih =>
    intro v st s1 hv h
    rw [sweep_with_succ, if_pos (hQ v hv).1] at h
    cases hb : body v st with
    | error e => rw [hb] at h; cases h
    | ok st1 =>
      rw [hb] at h
      exact ih (add v step) st1 s1 (hQ v hv).2 h

theorem rasterize_with_eq (add : F → F → F) (sin cos : F → F) (r : Renderer F) (fuel : Nat)
    (hfit : 0 ≤ r.cfg_.width * r.cfg_.height ∧ r.cfg_.width * r.cfg_.height ≤ INT_MAX) :
    rasterize_with add sin cos r fuel =
      sweep_with add r.cfg_.theta_step (fun theta st =>
        sweep_with add r.cfg_.phi_step (fun phi st1 =>
          match sample_at sin cos r theta phi with
          | .error e => .error e
          | .ok s => plot r.cfg_ s st1) fuel 0 st) fuel 0
        (blank (r.cfg_.width * r.cfg_.height).toNat) := by
  unfold rasterize_with
  have h1 : fits_int (r.cfg_.width * r.cfg_.height) = true := by
    simp only [fits_int, Bool.and_eq_true, decide_eq_true_eq, INT_MIN]
    exact ⟨by omega, hfit.2⟩
  have h2 : ¬ (r.cfg_.width * r.cfg_.height < 0) := by omega
  simp only [h1, Bool.not_true, Bool.false_eq_true, if_false, h2]
  rfl

theorem rasterize_with_ok_fits (add : F → F → F) (sin cos : F → F) (r : Renderer F)
    (fuel : Nat) (st : Buffers F) (h : rasterize_with add sin cos r fuel = .ok st) :
    0 ≤ r.cfg_.width * r.cfg_.height ∧ r.cfg_.width * r.cfg_.height ≤ INT_MAX := by
  unfold rasterize_with at h
  simp only at h
  split at h
  · cases h
  · rename_i h1
    split at h
    · cases h
    · rename_i h2
      have h3 : fits_int (r.cfg_.width * r.cfg_.height) = true := by simpa using h1
      simp only [fits_int, Bool.and_eq_true, decide_eq_true_eq] at h3
      exact ⟨by omega, h3.2⟩

theorem iterate_add_exact (step : F) (n : Nat) (v : F) :
    (fun x => x + step)^[n] v = v + n * step := by
  induction n generalizing v with
  | zero => simp
  | succ n ih =>
    rw [Function.iterate_succ_apply, ih]
    push_cast
    ring

theorem round_even_ge (q : F) : ⌊q⌋ ≤ round_even q := by
  unfold round_even
  split_ifs <;> omega

theorem round_even_le (q : F) : round_even q ≤ ⌊q⌋ + 1 := by
  unfold round_even
  split_ifs <;> omega

theorem round_even_of_lt (q : F) (h : q - ⌊q⌋ < 1 / 2) : round_even q = ⌊q⌋ := by
  unfold round_even
  rw [if_pos h]

theorem log_two_lt_iff (x : F) (hx : 0 < x) (z : Int) : x < (2 : F) ^ z ↔ Int.log 2 x < z := by
  have h := Int.lt_zpow_iff_log_lt (R := F) (b := 2) (by norm_num) (x := z) (r := x) hx
  simpa using h

theorem log_two_le_iff (x : F) (hx : 0 < x) (z : Int) : (2 : F) ^ z ≤ x ↔ z ≤ Int.log 2 x := by
  have h := Int.zpow_le_iff_le_log (R := F) (b := 2) (by norm_num) (x := z) (r := x) hx
  simpa using h

theorem round_double_le_four (x : F) (hx : 0 < x) (h : x ≤ 4 + 1 / 2 ^ 52) :
    0 ≤ round_double x ∧ round_double x ≤ 4 := by
  unfold round_double
  rw [if_pos hx]
  have hu : (0 : F) < 2 ^ (Int.log 2 x - 52) := zpow_pos (by norm_num) _
  have hq0 : 0 ≤ x / 2 ^ (Int.log 2 x - 52) := le_of_lt (div_pos hx hu)
  have hr0 : (0 : Int) ≤ round_even (x / 2 ^ (Int.log 2 x - 52)) :=
    le_trans (Int.floor_nonneg.mpr hq0) (round_even_ge _)
  have hr0F : (0 : F) ≤ (round_even (x / 2 ^ (Int.log 2 x - 52)) : F) := by exact_mod_cast hr0
  refine ⟨mul_nonneg hr0F (le_of_lt hu), ?_⟩
  by_cases hx4 : x < 4
  · have he : Int.log 2 x < 2 := (log_two_lt_iff x hx 2).mp (by norm_num; exact hx4)
    have hxlt : x < (2 : F) ^ (Int.log 2 x + 1) :=
      (log_two_lt_iff x hx _).mpr (by omega)
    have E : (2 : F) ^ (53 : Nat) * 2 ^ (Int.log 2 x - 52) = 2 ^ (Int.log 2 x + 1) := by
      rw [← zpow_natCast, ← zpow_add₀ (two_ne_zero)]
      congr 1
      push_cast
      ring
    have hq : x / 2 ^ (Int.log 2 x - 52) < (((2 : Int) ^ (53 : Nat) : Int) : F) := by
      rw [div_lt_iff₀ hu, Int.cast_pow, Int.cast_ofNat, E]
      exact hxlt
    have hfl : ⌊x / 2 ^ (Int.log 2 x - 52)⌋ < (2 : Int) ^ (53 : Nat) := Int.floor_lt.mpr hq
    have hre : round_even (x / 2 ^ (Int.log 2 x - 52)) ≤ (2 : Int) ^ (53 : Nat) :=
      le_trans (round_even_le _) (by omega)
    have hreF : (round_even (x / 2 ^ (Int.log 2 x - 52)) : F) ≤ (2 : F) ^ (53 : Nat) := by
      exact_mod_cast hre
    calc (round_even (x / 2 ^ (Int.log 2 x - 52)) : F) * 2 ^ (Int.log 2 x - 52)
        ≤ (2 : F) ^ (53 : Nat) * 2 ^ (Int.log 2 x - 52) :=
          mul_le_mul_of_nonneg_right hreF (le_of_lt hu)
      _ = 2 ^ (Int.log 2 x + 1) := E
      _ ≤ (2 : F) ^ (2 : Int) := zpow_le_zpow_right₀ (by norm_num) (by omega)
      _ = 4 := by norm_num
  · have hx4 : 4 ≤ x := not_lt.mp hx4
    have he : Int.log 2 x = 2 := by
      have h1 : (2 : Int) ≤ Int.log 2 x := (log_two_le_iff x hx 2).mp (by norm_num; exact hx4)
      have h2 : Int.log 2 x < 3 := (log_two_lt_iff x hx 3).mp (by
        have : (1 : F) / 2 ^ 52 < 1 := by norm_num
        norm_num
        linarith)
      omega
    rw [he]
    have hu2 : (2 : F) ^ ((2 : Int) - 52) = 1 / 2 ^ (50 : Nat) := by
      rw [show ((2 : Int) - 52) = -((50 : Nat) : Int) by norm_num, zpow_neg, zpow_natCast,
        one_div]
    rw [hu2]
    have hfl : ⌊x / (1 / 2 ^ (50 : Nat))⌋ = (2 : Int) ^ (52 : Nat) := by
      rw [Int.floor_eq_iff]
      push_cast
      constructor
      · rw [le_div_iff₀ (by positivity)]
        norm_num
        linarith
      · rw [div_lt_iff₀ (by positivity)]
        norm_num at h ⊢
        linarith
    have hlt : x / (1 / 2 ^ (50 : Nat)) - ⌊x / (1 / 2 ^ (50 : Nat))⌋ < 1 / 2 := by
      rw [hfl]
      push_cast
      rw [sub_lt_iff_lt_add, div_lt_iff₀ (by positivity)]
      norm_num at h ⊢
      linarith
    rw [round_even_of_lt _ hlt, hfl]
    push_cast
    norm_num

theorem double_add_stall (v : F) (h0 : 0 ≤ v) (h4 : v ≤ 4) :
    0 ≤ double_add v (1 / 2 ^ 52) ∧ double_add v (1 / 2 ^ 52) ≤ 4 := by
  unfold double_add
  exact round_double_le_four _ (by positivity) (by linarith)

theorem four_lt_two_pi : (4 : F) < two_pi := by
  unfold two_pi
  norm_num

theorem step_count_reaches (step : F) (hstep : 0 < step) :
    two_pi ≤ (fun v => v + step)^[step_count step] 0 := by
  rw [iterate_add_exact]
  exact (step_count_spec step hstep).1

theorem render_frame_with_stall (Q : F → Prop) (add : F → F → F) (sin cos : F → F)
    (r : Renderer F) (hQ : ∀ v, Q v → v < two_pi ∧ Q (add v r.cfg_.theta_step)) (h0 : Q 0)
    (fuel : Nat) (out : List Char) : render_frame_with add sin cos r fuel ≠ .ok out := by
  intro h
  unfold render_frame_with at h
  cases hr : rasterize_with add sin cos r fuel with
  | error e => rw [hr] at h; cases h
  | ok st =>
    have hfit := rasterize_with_ok_fits add sin cos r fuel st hr
    rw [rasterize_with_eq add sin cos r fuel hfit] at hr
    exact sweep_with_stall Q add r.cfg_.theta_step hQ _ fuel 0 _ st h0 hr

/-- The loop nest returns once both loop variables have reached `two_pi`. -/
theorem loops_with_total (add : F → F → F) (sin cos : F → F) (r : Renderer F)
    (hne : r.cfg_.shading ≠ []) (n1 n2 : Nat)
    (h1 : two_pi ≤ (fun x => add x r.cfg_.theta_step)^[n1] 0)
    (h2 : two_pi ≤ (fun x => add x r.cfg_.phi_step)^[n2] 0)
    (hdiv : ∀ k j : Nat, (fun x => add x r.cfg_.theta_step)^[k] 0 < two_pi →
      (fun x => add x r.cfg_.phi_step)^[j] 0 < two_pi →
      divisor sin cos r ((fun x => add x r.cfg_.theta_step)^[k] 0)
        ((fun x => add x r.cfg_.phi_step)^[j] 0) ≠ 0) :
    ∀ fuel, max n1 n2 < fuel → ∃ st,
      sweep_with add r.cfg_.theta_step (fun theta st =>
        sweep_with add r.cfg_.phi_step (fun phi st1 =>
          match sample_at sin cos r theta phi with
          | .error e => .error e
          | .ok s => plot r.cfg_ s st1) fuel 0 st) fuel 0
        (blank (r.cfg_.width * r.cfg_.height).toNat) = .ok st ∧
      st.buffer.length = (r.cfg_.width * r.cfg_.height).toNat := by
  intro fuel hfuel
  have key := sweep_with_total
    (fun (st : Buffers F) => st.buffer.length = (r.cfg_.width * r.cfg_.height).toNat ∧
      st.zbuffer.length = (r.cfg_.width * r.cfg_.height).toNat)
    add r.cfg_.theta_step
    (fun theta st =>
        sweep_with add r.cfg_.phi_step (fun phi st1 =>
          match sample_at sin cos r theta phi with
          | .error e => .error e
          | .ok s => plot r.cfg_ s st1) fuel 0 st)
    n1 0 (blank (r.cfg_.width * r.cfg_.height).toNat) h1 (by simp [blank]) ?_ fuel
    (lt_of_le_of_lt (le_max_left _ _) hfuel)
  · obtain ⟨st, e1, e2, _⟩ := key
    exact ⟨st, e1, e2⟩
  · intro k t hk hP
    refine sweep_with_total _ add r.cfg_.phi_step _ n2 0 t h2 hP ?_ fuel
      (lt_of_le_of_lt (le_max_right _ _) hfuel)
    intro j t2 hj hP2
    obtain ⟨s, hs⟩ := sample_at_of_divisor_ne sin cos r _ _ (hdiv k j hk hj)
    simp only [hs]
    obtain ⟨st1, e1, e2, e3⟩ := plot_total r.cfg_ _ rfl hne s t2 hP2.1 hP2.2
    exact ⟨st1, e1, e2, e3⟩

end CoreLemmas

/-! ## The claims -/

section Claims

set_option linter.unusedSectionVars false

variable {F : Type} [LinearOrderedField F] [FloorRing F]

/-- C1 (amended).  For every configuration with `width > 0` and `height > 0` and every
phase, a text returned by `render_frame` has length `height * (width + 1)` and consists of
exactly `height` rows of exactly `width` characters, each row followed by one line feed; the
characters of a row are not line feeds when the palette holds no line feed.  Such a text is
returned, for all sufficient fuel, when the configuration is `regular`. -/
theorem render_frame_shape (sin cos : F → F) (r : Renderer F)
    (hw : 0 < r.cfg_.width) (hh : 0 < r.cfg_.height) :
    (∀ fuel out, render_frame sin cos r fuel = .ok out →
      (out.length : Int) = r.cfg_.height * (r.cfg_.width + 1) ∧
      ∃ rows : List (List Char), (rows.length : Int) = r.cfg_.height ∧
        (∀ row ∈ rows, (row.length : Int) = r.cfg_.width ∧
          ('\n' ∉ r.cfg_.shading → '\n' ∉ row)) ∧
        out = lines_text rows) ∧
    (regular sin cos r →
      ∃ n : Nat, ∀ fuel, n < fuel → ∃ out, render_frame sin cos r fuel = .ok out) := by
  obtain ⟨hwn, hhn, hwpos, hhpos⟩ := int_dims _ _ hw hh
  constructor
  · intro fuel out hres
    obtain ⟨st, l, _, _, _, hb, _, hinv, ho, _⟩ :=
      render_frame_inv sin cos r fuel out _ _ hwn hhn hres
    constructor
    · rw [ho, frame_text_length]
      push_cast
      rw [← hwn, ← hhn]
    · refine ⟨frame_rows r.cfg_.width.toNat r.cfg_.height.toNat st.buffer, ?_, ?_, ho⟩
      · rw [frame_rows_length]; exact hhn.symm
      · intro row hrow
        constructor
        · rw [frame_rows_row_length _ _ _ row hrow]; exact hwn.symm
        · intro hnl hmem
          obtain ⟨x, y, hx, hy, hch⟩ := frame_rows_mem _ _ _ row hrow _ hmem
          have hc := cell_index_lt _ _ x y hx hy
          obtain ⟨ch, hch1, hch2⟩ := cell_state_char r.cfg_ l st _ (hinv _ hc)
          rw [List.getD_eq_getElem?_getD, hch1, Option.getD_some] at hch
          subst hch
          rcases hch2 with h1 | h1
          · exact absurd h1 (by decide)
          · exact hnl h1
  · exact regular_returns sin cos r hw hh

/-- C1, witness: the default configuration at the phase `(0, 0)` returns, for all
sufficient fuel, a text of length `22 * 81`. -/
theorem render_frame_shape_witness :
    (0 : Int) < (sized_config 80 22 : Config ℝ).width ∧
    (0 : Int) < (sized_config 80 22 : Config ℝ).height ∧
    ∃ n : Nat, ∀ fuel, n < fuel → ∃ out,
      render_frame Real.sin Real.cos ⟨(sized_config 80 22 : Config ℝ), 0, 0⟩ fuel = .ok out ∧
      (out.length : Int) = 22 * (80 + 1) := by
  have h := render_frame_shape Real.sin Real.cos ⟨(sized_config 80 22 : Config ℝ), 0, 0⟩
    (by simp [sized_config]) (by simp [sized_config])
  refine ⟨by simp [sized_config], by simp [sized_config], ?_⟩
  obtain ⟨n, hn⟩ := h.2 (sized_regular 80 22 (by simp [INT_MAX]))
  refine ⟨n, fun fuel hf => ?_⟩
  obtain ⟨out, hout⟩ := hn fuel hf
  exact ⟨out, hout, (h.1 fuel out hout).1⟩

/-- C1, counterexample.  With the palette `"\n"`, steps `7` (one sample) and the phase
`(0, π/2)` the one sample is drawn at column 40 of row 2, so the returned text has a line
feed inside a row: it does not consist of 22 lines of 80 characters other than line feeds. -/
theorem render_frame_shape_counterexample :
    (0 : Int) < (palette_config ['\n'] : Config ℝ).width ∧
    (0 : Int) < (palette_config ['\n'] : Config ℝ).height ∧
    ∃ out,
      render_frame Real.sin Real.cos ⟨(palette_config ['\n'] : Config ℝ), 0, Real.pi / 2⟩ 2
        = .ok out ∧
      ¬ is_grid 80 22 out := by
  have h7 : (two_pi : ℝ) ≤ 7 := le_of_lt two_pi_lt_seven
  refine ⟨by simp [palette_config, default_config], by simp [palette_config, default_config],
    ?_⟩
  have hv : visible (palette_config ['\n'] : Config ℝ) ⟨1 / 5, 40, 2, 1⟩ := by
    simp [visible, palette_config, default_config]
  have hch : shade_char (palette_config ['\n'] : Config ℝ) (1 : ℝ) = .ok '\n' := by
    have h8 : trunc (8 : ℝ) = 8 := by
      have : (8 : ℝ) = ((8 : Int) : ℝ) := by norm_num
      rw [this, trunc_intCast]
    simp [shade_char, shade_index, h8, palette_config, default_config, index]
  have hcell : cell (palette_config ['\n'] : Config ℝ) ⟨1 / 5, 40, 2, 1⟩ = 200 := by
    simp [cell, palette_config, default_config]
  have hres := render_frame_single_drawn Real.sin Real.cos
    ⟨(palette_config ['\n'] : Config ℝ), 0, Real.pi / 2⟩ 0 80 22 rfl rfl (by simp [INT_MAX])
    (by simpa [palette_config] using h7) (by simpa [palette_config] using h7)
    _ (palette_sample ['\n']) hv (by norm_num) '\n' hch
  refine ⟨_, hres, ?_⟩
  intro hg
  apply is_grid_cell 80 22 _ hg 40 2 (by norm_num) (by norm_num)
  rw [frame_text_cell 80 22 _ 40 2 (by norm_num) (by norm_num), hcell,
    List.getD_eq_getElem?_getD,
    List.getElem?_set_self (by rw [List.length_replicate]; norm_num)]
  rfl

/-- C2 (amended).  Z-buffer discipline of `render_frame`: for every cell of a returned
frame, among the samples of the loops that have `luminance > 0`, project in bounds to that
cell and have `ooz > 0` (the depth buffer starts at `0.0` and the comparison is strict), the
cell holds the shading character of the one with the largest `ooz`, the first in iteration
order when several share it (`first_max`); a cell with no such sample holds a space.  A
frame is returned, for all sufficient fuel, when the configuration is `regular`. -/
theorem render_frame_zbuffer (sin cos : F → F) (r : Renderer F)
    (hw : 0 < r.cfg_.width) (hh : 0 < r.cfg_.height) :
    (∀ fuel out, render_frame sin cos r fuel = .ok out →
      ∃ l, visited sin cos r fuel = .ok l ∧
        ∀ x y : Nat, (x : Int) < r.cfg_.width → (y : Int) < r.cfg_.height →
          (front_hits r.cfg_ (x + y * r.cfg_.width.toNat) l = [] ∧
            out[y * (r.cfg_.width.toNat + 1) + x]? = some ' ') ∨
          (∃ m ch, first_max (front_hits r.cfg_ (x + y * r.cfg_.width.toNat) l) m ∧
            shade_char r.cfg_ m.luminance = .ok ch ∧
            out[y * (r.cfg_.width.toNat + 1) + x]? = some ch)) ∧
    (regular sin cos r →
      ∃ n : Nat, ∀ fuel, n < fuel → ∃ out, render_frame sin cos r fuel = .ok out) := by
  obtain ⟨hwn, hhn, _, _⟩ := int_dims _ _ hw hh
  refine ⟨?_, regular_returns sin cos r hw hh⟩
  intro fuel out hres
  obtain ⟨st, l, _, hl, hinv, hcell⟩ := render_frame_cell sin cos r fuel out _ _ hwn hhn hres
  refine ⟨l, hl, ?_⟩
  intro x y hx hy
  have hx2 : x < r.cfg_.width.toNat := by omega
  have hy2 : y < r.cfg_.height.toNat := by omega
  rw [hcell x y hx2 hy2]
  rcases hinv _ (cell_index_lt _ _ x y hx2 hy2) with ⟨h1, h2, _⟩ | ⟨m, ch, h1, h2, h3, _⟩
  · exact Or.inl ⟨h1, h2⟩
  · exact Or.inr ⟨m, ch, h1, h2, h3⟩

/-- C2, witness: the statement at the default configuration and the phase `(0, 0)`, with the
frame that it returns. -/
theorem render_frame_zbuffer_witness :
    (0 : Int) < (sized_config 80 22 : Config ℝ).width ∧
    (0 : Int) < (sized_config 80 22 : Config ℝ).height ∧
    ∃ n : Nat, ∀ fuel, n < fuel → ∃ out l,
      render_frame Real.sin Real.cos ⟨(sized_config 80 22 : Config ℝ), 0, 0⟩ fuel = .ok out ∧
      visited Real.sin Real.cos ⟨(sized_config 80 22 : Config ℝ), 0, 0⟩ fuel = .ok l ∧
      ((front_hits (sized_config 80 22 : Config ℝ) (3 + 2 * 80) l = [] ∧
          out[2 * (80 + 1) + 3]? = some ' ') ∨
        (∃ m ch, first_max (front_hits (sized_config 80 22 : Config ℝ) (3 + 2 * 80) l) m ∧
          shade_char (sized_config 80 22 : Config ℝ) m.luminance = .ok ch ∧
          out[2 * (80 + 1) + 3]? = some ch)) := by
  have h := render_frame_zbuffer Real.sin Real.cos ⟨(sized_config 80 22 : Config ℝ), 0, 0⟩
    (by simp [sized_config]) (by simp [sized_config])
  refine ⟨by simp [sized_config], by simp [sized_config], ?_⟩
  obtain ⟨n, hn⟩ := h.2 (sized_regular 80 22 (by simp [INT_MAX]))
  refine ⟨n, fun fuel hf => ?_⟩
  obtain ⟨out, hout⟩ := hn fuel hf
  obtain ⟨l, hl, hcells⟩ := h.1 fuel out hout
  exact ⟨out, l, hout, hl, hcells 3 2 (by simp [sized_config]) (by simp [sized_config])⟩

/-- C2, counterexample.  With `k2 = -5`, steps `7` (one sample) and the phase `(0, π/2)` the
one sample has luminance `1` and projects in bounds to column 40 of row 20, so it is the
sample of largest `ooz` among those of its cell; but its `ooz` is `-1/5`, it is not drawn,
and the cell holds a space, not its shading character `*`. -/
theorem render_frame_zbuffer_counterexample :
    (0 : Int) < (single_config (-5) : Config ℝ).width ∧
    (0 : Int) < (single_config (-5) : Config ℝ).height ∧
    ∃ out l,
      render_frame Real.sin Real.cos ⟨(single_config (-5) : Config ℝ), 0, Real.pi / 2⟩ 2
        = .ok out ∧
      visited Real.sin Real.cos ⟨(single_config (-5) : Config ℝ), 0, Real.pi / 2⟩ 2 = .ok l ∧
      ¬ (∀ x y : Nat, (x : Int) < (single_config (-5) : Config ℝ).width →
          (y : Int) < (single_config (-5) : Config ℝ).height →
          hits (single_config (-5) : Config ℝ)
            (x + y * (single_config (-5) : Config ℝ).width.toNat) l ≠ [] →
          ∃ m ch, first_max (hits (single_config (-5) : Config ℝ)
              (x + y * (single_config (-5) : Config ℝ).width.toNat) l) m ∧
            shade_char (single_config (-5) : Config ℝ) m.luminance = .ok ch ∧
            out[y * ((single_config (-5) : Config ℝ).width.toNat + 1) + x]? = some ch) := by
  have h7 : (two_pi : ℝ) ≤ 7 := le_of_lt two_pi_lt_seven
  have hv : visible (single_config (-5) : Config ℝ) ⟨-(1 / 5), 40, 20, 1⟩ := by
    simp [visible, single_config, default_config]
  have hcell : cell (single_config (-5) : Config ℝ) ⟨-(1 / 5), 40, 20, 1⟩ = 1640 := by
    simp [cell, single_config, default_config]
  have hch : shade_char (single_config (-5) : Config ℝ) (1 : ℝ) = .ok '*' := by
    have h8 : trunc (8 : ℝ) = 8 := by
      have : (8 : ℝ) = ((8 : Int) : ℝ) := by norm_num
      rw [this, trunc_intCast]
    simp [shade_char, shade_index, h8, single_config, default_config, index]
  have hres := render_frame_single_blank Real.sin Real.cos
    ⟨(single_config (-5) : Config ℝ), 0, Real.pi / 2⟩ 0 80 22 rfl rfl (by simp [INT_MAX])
    (by simpa [single_config] using h7) (by simpa [single_config] using h7)
    _ behind_sample (Or.inr (by norm_num))
  have hvis := visited_single Real.sin Real.cos
    ⟨(single_config (-5) : Config ℝ), 0, Real.pi / 2⟩ 0
    (by simpa [single_config] using h7) (by simpa [single_config] using h7)
  rw [record_body, behind_sample] at hvis
  simp only [List.nil_append] at hvis
  refine ⟨by simp [single_config, default_config], by simp [single_config, default_config],
    _, _, hres, hvis, ?_⟩
  intro hclaim
  have hw80 : (single_config (-5) : Config ℝ).width.toNat = 80 := by
    simp [single_config, default_config]
  have hhits : hits (single_config (-5) : Config ℝ) (40 + 20 * 80)
      [(⟨-(1 / 5), 40, 20, 1⟩ : Sample ℝ)] = [⟨-(1 / 5), 40, 20, 1⟩] := by
    have hdec : decide (visible (single_config (-5) : Config ℝ) ⟨-(1 / 5), 40, 20, 1⟩ ∧
        cell (single_config (-5) : Config ℝ) ⟨-(1 / 5), 40, 20, 1⟩ = 40 + 20 * 80) = true :=
      decide_eq_true ⟨hv, hcell⟩
    simp only [hits, List.filter, hdec]
  obtain ⟨m, ch, hm, hmch, hout⟩ := hclaim 40 20 (by simp [single_config, default_config])
    (by simp [single_config, default_config]) (by rw [hw80, hhits]; simp)
  rw [hw80, hhits] at hm
  have hmem := first_max_mem _ _ hm
  rw [List.mem_singleton] at hmem
  subst hmem
  rw [hch] at hmch
  cases hmch
  rw [hw80, frame_text_cell 80 22 _ 40 20 (by norm_num) (by norm_num),
    List.getD_eq_getElem?_getD,
    List.getElem?_replicate_of_lt (by norm_num)] at hout
  simp at hout

/-- C3.  For every configuration with `width, height > 0` and every phase, every cell of a
returned frame (column `x < width` of row `y < height`, at offset `y * (width + 1) + x`)
holds the space character or a character of the palette; this needs no assumption on the
palette.  A frame is returned, for all sufficient fuel, when the configuration is `regular`,
which asks for a palette that is not empty. -/
theorem render_frame_cells (sin cos : F → F) (r : Renderer F)
    (hw : 0 < r.cfg_.width) (hh : 0 < r.cfg_.height) :
    (∀ fuel out, render_frame sin cos r fuel = .ok out →
      ∀ x y : Nat, (x : Int) < r.cfg_.width → (y : Int) < r.cfg_.height →
        ∃ c, out[y * (r.cfg_.width.toNat + 1) + x]? = some c ∧
          (c = ' ' ∨ c ∈ r.cfg_.shading)) ∧
    (regular sin cos r →
      ∃ n : Nat, ∀ fuel, n < fuel → ∃ out, render_frame sin cos r fuel = .ok out) := by
  obtain ⟨hwn, hhn, _, _⟩ := int_dims _ _ hw hh
  refine ⟨?_, regular_returns sin cos r hw hh⟩
  intro fuel out hres x y hx hy
  obtain ⟨st, l, _, _, hinv, hcell⟩ := render_frame_cell sin cos r fuel out _ _ hwn hhn hres
  have hx2 : x < r.cfg_.width.toNat := by omega
  have hy2 : y < r.cfg_.height.toNat := by omega
  rw [hcell x y hx2 hy2]
  exact cell_state_char r.cfg_ l st _ (hinv _ (cell_index_lt _ _ x y hx2 hy2))

/-- C3, witness: in a frame of the default configuration at the phase `(0, 0)` the cell at
column 3 of row 2 is a space or a palette character. -/
theorem render_frame_cells_witness :
    (0 : Int) < (sized_config 80 22 : Config ℝ).width ∧
    (0 : Int) < (sized_config 80 22 : Config ℝ).height ∧
    ∃ n : Nat, ∀ fuel, n < fuel → ∃ out,
      render_frame Real.sin Real.cos ⟨(sized_config 80 22 : Config ℝ), 0, 0⟩ fuel = .ok out ∧
      ∃ c, out[2 * (80 + 1) + 3]? = some c ∧
        (c = ' ' ∨ c ∈ (sized_config 80 22 : Config ℝ).shading) := by
  have h := render_frame_cells Real.sin Real.cos ⟨(sized_config 80 22 : Config ℝ), 0, 0⟩
    (by simp [sized_config]) (by simp [sized_config])
  refine ⟨by simp [sized_config], by simp [sized_config], ?_⟩
  obtain ⟨n, hn⟩ := h.2 (sized_regular 80 22 (by simp [INT_MAX]))
  refine ⟨n, fun fuel hf => ?_⟩
  obtain ⟨out, hout⟩ := hn fuel hf
  exact ⟨out, hout, h.1 fuel out hout 3 2 (by simp [sized_config]) (by simp [sized_config])⟩

/-- C4.  With `width = 10`, `height = 5`, every other parameter at its default and the
phase `(0, 0)`, `render_frame` returns a frame (for all sufficient fuel), some sample of its
loops has `luminance > 0` and projects to `0 ≤ xp < 10`, `0 ≤ yp < 5`, and some cell of the
frame is not a space. -/
theorem default_frame_not_blank :
    ∃ n : Nat, ∀ fuel, n < fuel → ∃ out l,
      render_frame Real.sin Real.cos ⟨(sized_config 10 5 : Config ℝ), 0, 0⟩ fuel = .ok out ∧
      visited Real.sin Real.cos ⟨(sized_config 10 5 : Config ℝ), 0, 0⟩ fuel = .ok l ∧
      (∃ s ∈ l, s.luminance > 0 ∧ 0 ≤ s.xp ∧ s.xp < 10 ∧ 0 ≤ s.yp ∧ s.yp < 5) ∧
      ∃ x y : Nat, x < 10 ∧ y < 5 ∧ ∃ c, out[y * (10 + 1) + x]? = some c ∧ c ≠ ' ' := by
  obtain ⟨n, hn⟩ := regular_returns Real.sin Real.cos ⟨(sized_config 10 5 : Config ℝ), 0, 0⟩
    (by simp [sized_config]) (by simp [sized_config]) (sized_regular 10 5 (by simp [INT_MAX]))
  refine ⟨n, fun fuel hf => ?_⟩
  obtain ⟨out, hout⟩ := hn fuel hf
  obtain ⟨st, l, _, hl, hinv, hcell⟩ := render_frame_cell Real.sin Real.cos
    ⟨(sized_config 10 5 : Config ℝ), 0, 0⟩ fuel out 10 5 rfl rfl hout
  have h2pi : (6 : ℝ) < two_pi := by
    unfold two_pi
    rw [lt_div_iff₀ (by norm_num)]
    norm_num
  obtain ⟨s, hs, hmem⟩ := visited_mem Real.sin Real.cos
    ⟨(sized_config 10 5 : Config ℝ), 0, 0⟩ fuel l hl
    (by norm_num [sized_config, default_config]) (by norm_num [sized_config, default_config])
    45 50 (by norm_num [sized_config, default_config]; linarith)
    (by norm_num [sized_config, default_config]; linarith)
  have hth : ((45 : Nat) : ℝ) * (sized_config 10 5 : Config ℝ).theta_step = 63 / 20 := by
    norm_num [sized_config, default_config]
  have hph : ((50 : Nat) : ℝ) * (sized_config 10 5 : Config ℝ).phi_step = 1 := by
    norm_num [sized_config, default_config]
  simp only at hs
  rw [hth, hph] at hs
  obtain ⟨s1, hs1, hv, hpos⟩ := default_sample_hit
  rw [hs] at hs1
  cases hs1
  have hv2 := hv
  obtain ⟨hlum, hx0, hx1, hy0, hy1⟩ := hv2
  simp only [sized_config] at hx1 hy1
  refine ⟨out, l, hout, hl, ⟨s, hmem, hlum, hx0, hx1, hy0, hy1⟩, ?_⟩
  have hc : cell (sized_config 10 5 : Config ℝ) s = s.xp.toNat + s.yp.toNat * 10 := by
    simp only [cell, sized_config]
    omega
  have hlt := cell_index_lt 10 5 s.xp.toNat s.yp.toNat (by omega) (by omega)
  obtain ⟨ch, hch, hpal⟩ := cell_state_of_front_hit (sized_config 10 5 : Config ℝ) l st s hmem
    hv hpos (by rw [hc]; exact hinv _ hlt)
  refine ⟨s.xp.toNat, s.yp.toNat, by omega, by omega, ch, ?_, ?_⟩
  · rw [hcell _ _ (by omega) (by omega), ← hc]
    exact hch
  · intro h
    subst h
    simp [sized_config, default_config] at hpal

/-- C5.  Shade selection: for every luminance and every palette of length `n ≥ 1` the
selected index is `trunc (luminance * 8)` clamped into `[0, n - 1]`, it is a valid position
of the palette (the character read on line 103 is the palette character at that position),
and it is monotone in the candidate `trunc (luminance * 8)`. -/
theorem shade_selection (cfg : Config F) (hne : cfg.shading ≠ []) (luminance : F) :
    shade_index luminance (cfg.shading.length : Int) =
        max 0 (min (trunc (luminance * 8)) ((cfg.shading.length : Int) - 1)) ∧
      0 ≤ shade_index luminance (cfg.shading.length : Int) ∧
      shade_index luminance (cfg.shading.length : Int) ≤ (cfg.shading.length : Int) - 1 ∧
      (∃ c, shade_char cfg luminance = .ok c ∧
        cfg.shading[(shade_index luminance (cfg.shading.length : Int)).toNat]? = some c) ∧
      ∀ other : F, trunc (luminance * 8) ≤ trunc (other * 8) →
        shade_index luminance (cfg.shading.length : Int) ≤
          shade_index other (cfg.shading.length : Int) := by
  have hlen : 1 ≤ (cfg.shading.length : Int) := by
    have := List.length_pos.mpr hne
    omega
  obtain ⟨c, hc, -, hc2⟩ := shade_char_of_nonempty cfg luminance hne
  exact ⟨shade_index_eq_clamp luminance _ hlen, (shade_index_range luminance _ hlen).1,
    (shade_index_range luminance _ hlen).2, ⟨c, hc, hc2⟩,
    fun other h => shade_index_mono luminance other _ hlen h⟩

/-- C5, witness: the default palette and the luminance `1`. -/
theorem shade_selection_witness :
    (default_config : Config ℝ).shading ≠ [] ∧
    shade_index (1 : ℝ) ((default_config : Config ℝ).shading.length : Int) =
        max 0 (min (trunc ((1 : ℝ) * 8))
          (((default_config : Config ℝ).shading.length : Int) - 1)) ∧
    ∃ c, shade_char (default_config : Config ℝ) (1 : ℝ) = .ok c := by
  have h := shade_selection (default_config : Config ℝ) (by simp [default_config]) (1 : ℝ)
  obtain ⟨c, hc, _⟩ := h.2.2.2.1
  exact ⟨by simp [default_config], h.1, c, hc⟩

/-- C6.  A renderer starts at the phase `(0, 0)`; `step_angles` adds `(a_step, b_step)` to
the phase and leaves the configuration as it is; and when the frames loop of `benchmark`
returns, with `frames = N ≥ 0`, its body has run `N` times (the counter is `N`), the phase
is `(N * a_step, N * b_step)` and the configuration is unchanged.  The loop returns, for
all sufficient fuel, when the configuration is `regular` at each of the `N` phases. -/
theorem phase_stepping (sin cos : F → F) (cfg : Config F) (N : Nat) (hN : cfg.frames = N) :
    ((Renderer.mk_from cfg).a_ = 0 ∧ (Renderer.mk_from cfg).b_ = 0 ∧
      (Renderer.mk_from cfg).cfg_ = cfg) ∧
    (∀ r : Renderer F, (step_angles r).a_ = r.a_ + r.cfg_.a_step ∧
      (step_angles r).b_ = r.b_ + r.cfg_.b_step ∧ (step_angles r).cfg_ = r.cfg_) ∧
    (∀ fuel i after, benchmark_frames sin cos (Renderer.mk_from cfg) fuel = .ok (i, after) →
      i = N ∧ after.a_ = N * cfg.a_step ∧ after.b_ = N * cfg.b_step ∧ after.cfg_ = cfg) ∧
    (0 < cfg.width → 0 < cfg.height →
      (∀ k : Nat, k < N → regular sin cos ⟨cfg, k * cfg.a_step, k * cfg.b_step⟩) →
      ∃ m : Nat, ∀ fuel, m < fuel → ∃ after,
        benchmark_frames sin cos (Renderer.mk_from cfg) fuel = .ok ((N : Int), after)) := by
  have hn : (Renderer.mk_from cfg).cfg_.frames.toNat = N := by
    show cfg.frames.toNat = N
    rw [hN]; exact Int.toNat_natCast N
  refine ⟨⟨rfl, rfl, rfl⟩, step_angles_spec, ?_, ?_⟩
  · intro fuel i after h
    unfold benchmark_frames at h
    rw [hn] at h
    obtain ⟨h1, h2, h3, h4⟩ := benchmark_loop_phase sin cos fuel N 0 _ i after h
    refine ⟨by rw [h1]; simp, ?_, ?_, h4⟩
    · rw [h2]; show (0 : F) + N * cfg.a_step = N * cfg.a_step; rw [zero_add]
    · rw [h3]; show (0 : F) + N * cfg.b_step = N * cfg.b_step; rw [zero_add]
  · intro hw hh hreg
    obtain ⟨m, hm⟩ := benchmark_loop_total sin cos cfg N 0 0 0 (by
      intro k hk
      rw [zero_add, zero_add]
      exact regular_returns sin cos _ hw hh (hreg k hk))
    refine ⟨m, fun fuel hf => ?_⟩
    obtain ⟨⟨i, after⟩, hres⟩ := hm fuel hf
    have hres2 : benchmark_frames sin cos (Renderer.mk_from cfg) fuel = .ok (i, after) := by
      unfold benchmark_frames
      rw [hn]
      exact hres
    obtain ⟨h1, _⟩ := benchmark_loop_phase sin cos fuel N 0 _ i after hres
    refine ⟨after, ?_⟩
    rw [hres2, h1]
    simp

/-- C6, witness: the default configuration, `frames = 500`. -/
theorem phase_stepping_witness :
    (sized_config 80 22 : Config ℝ).frames = ((500 : Nat) : Int) ∧
    ∃ m : Nat, ∀ fuel, m < fuel → ∃ after,
      benchmark_frames Real.sin Real.cos (Renderer.mk_from (sized_config 80 22 : Config ℝ)) fuel
        = .ok (((500 : Nat) : Int), after) ∧
      after.a_ = (500 : Nat) * (sized_config 80 22 : Config ℝ).a_step ∧
      after.b_ = (500 : Nat) * (sized_config 80 22 : Config ℝ).b_step := by
  have h := phase_stepping Real.sin Real.cos (sized_config 80 22 : Config ℝ) 500 rfl
  refine ⟨rfl, ?_⟩
  obtain ⟨m, hm⟩ := h.2.2.2 (by simp [sized_config]) (by simp [sized_config])
    (fun k _ => sized_regular_phase 80 22 (by simp [INT_MAX]) _ _)
  refine ⟨m, fun fuel hf => ?_⟩
  obtain ⟨after, hafter⟩ := hm fuel hf
  have h3 := h.2.2.1 fuel _ after hafter
  exact ⟨after, hafter, h3.2.1, h3.2.2.1⟩

/-- C7 (amended).  `render_frame`, with the addition of the loop updates `theta += theta_step`
and `phi += phi_step` as the parameter `add`, returns a frame, with every index in range and
no zero divisor, for every configuration with positive width and height whose palette is not
empty, whose `width * height + height` fits an `int`, whose loop variables reach `two_pi`
after `n1` and `n2` additions, and for which the divisor `z2 + k2` is not zero at any pair
of values of the loop variables below `two_pi`, and for every phase: all fuel above `n1` and
`n2` gives the frame, of `height * (width + 1)` characters.  With the addition of the field
(exact arithmetic) the function is `render_frame` and every positive step reaches `two_pi`,
after `ceil (two_pi / step)` additions. -/
theorem render_frame_returns (add : F → F → F) (sin cos : F → F) (r : Renderer F)
    (hw : 0 < r.cfg_.width) (hh : 0 < r.cfg_.height) (hne : r.cfg_.shading ≠ [])
    (hfit : r.cfg_.width * r.cfg_.height + r.cfg_.height ≤ INT_MAX) (n1 n2 : Nat)
    (h1 : two_pi ≤ (fun v => add v r.cfg_.theta_step)^[n1] 0)
    (h2 : two_pi ≤ (fun v => add v r.cfg_.phi_step)^[n2] 0)
    (hdiv : ∀ k j : Nat, (fun v => add v r.cfg_.theta_step)^[k] 0 < two_pi →
      (fun v => add v r.cfg_.phi_step)^[j] 0 < two_pi →
      divisor sin cos r ((fun v => add v r.cfg_.theta_step)^[k] 0)
        ((fun v => add v r.cfg_.phi_step)^[j] 0) ≠ 0) :
    (∀ fuel, max n1 n2 < fuel →
      ∃ out st, render_frame_with add sin cos r fuel = .ok out ∧
        rasterize_with add sin cos r fuel = .ok st ∧
        st.buffer.length = r.cfg_.width.toNat * r.cfg_.height.toNat ∧
        serialize r.cfg_ st.buffer = .ok out ∧
        out.length = r.cfg_.height.toNat * (r.cfg_.width.toNat + 1)) ∧
    (∀ fuel, render_frame_with (fun a b => a + b) sin cos r fuel = render_frame sin cos r fuel) ∧
    (∀ step : F, 0 < step → two_pi ≤ (fun v => v + step)^[step_count step] 0) := by
  obtain ⟨hwn, hhn, _, _⟩ := int_dims _ _ hw hh
  have hn : (r.cfg_.width * r.cfg_.height).toNat = r.cfg_.width.toNat * r.cfg_.height.toNat := by
    have e : r.cfg_.width * r.cfg_.height =
        ((r.cfg_.width.toNat * r.cfg_.height.toNat : Nat) : Int) := by
      push_cast
      rw [← hwn, ← hhn]
    rw [e]
    exact Int.toNat_natCast _
  have hfit2 : 0 ≤ r.cfg_.width * r.cfg_.height ∧ r.cfg_.width * r.cfg_.height ≤ INT_MAX :=
    ⟨by positivity, by omega⟩
  have hf1 : fits_int (r.cfg_.width * r.cfg_.height) = true := by
    simp only [fits_int, Bool.and_eq_true, decide_eq_true_eq, INT_MIN]
    exact ⟨by omega, hfit2.2⟩
  have hf2 : ¬ (r.cfg_.width * r.cfg_.height < 0) := by omega
  refine ⟨fun fuel hfuel => ?_, fun fuel => ?_,
    fun step hstep => step_count_reaches step hstep⟩
  · obtain ⟨st, hst, hlen⟩ := loops_with_total add sin cos r hne n1 n2 h1 h2 hdiv fuel hfuel
    have hras : rasterize_with add sin cos r fuel = .ok st := by
      unfold rasterize_with
      simp only [hf1, Bool.not_true, Bool.false_eq_true, if_false, hf2]
      exact hst
    rw [hn] at hlen
    have hser := serialize_eq r.cfg_ st.buffer _ _ hwn hhn
      (by push_cast; rw [← hwn, ← hhn]; exact hfit) hlen
    refine ⟨_, st, ?_, hras, hlen, hser, frame_text_length _ _ st.buffer⟩
    unfold render_frame_with
    rw [hras]
    exact hser
  · have hin : theta_body_with (fun a b : F => a + b) sin cos r.cfg_ (sin r.a_) (cos r.a_)
        (sin r.b_) (cos r.b_) fuel =
        theta_body sin cos r.cfg_ (sin r.a_) (cos r.a_) (sin r.b_) (cos r.b_) fuel := by
      funext theta st
      unfold theta_body_with theta_body
      exact sweep_with_exact _ _ fuel 0 st
    have hr : rasterize_with (fun a b => a + b) sin cos r fuel = rasterize sin cos r fuel := by
      unfold rasterize_with rasterize
      simp only [hin, sweep_with_exact]
    unfold render_frame_with render_frame
    rw [hr]

/-- C7, witness: the default configuration at the phase `(0, 0)` in exact arithmetic: the
loop variables reach `two_pi` after 90 and 315 additions, the divisor is `sin theta + 5`,
and every fuel above 315 gives a frame of `22 * 81` characters. -/
theorem render_frame_returns_witness :
    (0 : Int) < (sized_config 80 22 : Config ℝ).width ∧
    (0 : Int) < (sized_config 80 22 : Config ℝ).height ∧
    (sized_config 80 22 : Config ℝ).shading ≠ [] ∧
    (two_pi : ℝ) ≤ (fun v => v + (sized_config 80 22 : Config ℝ).theta_step)^[90] 0 ∧
    (two_pi : ℝ) ≤ (fun v => v + (sized_config 80 22 : Config ℝ).phi_step)^[315] 0 ∧
    ∀ fuel, 315 < fuel → ∃ out,
      render_frame Real.sin Real.cos ⟨(sized_config 80 22 : Config ℝ), 0, 0⟩ fuel = .ok out ∧
      out.length = 22 * 81 := by
  have hw : (0 : Int) < (sized_config 80 22 : Config ℝ).width := by simp [sized_config]
  have hh : (0 : Int) < (sized_config 80 22 : Config ℝ).height := by simp [sized_config]
  have hne : (sized_config 80 22 : Config ℝ).shading ≠ [] := by
    simp [sized_config, default_config]
  have h1 : (two_pi : ℝ) ≤ (fun v => v + (sized_config 80 22 : Config ℝ).theta_step)^[90] 0 := by
    rw [iterate_add_exact]
    norm_num [two_pi, sized_config, default_config]
  have h2 : (two_pi : ℝ) ≤ (fun v => v + (sized_config 80 22 : Config ℝ).phi_step)^[315] 0 := by
    rw [iterate_add_exact]
    norm_num [two_pi, sized_config, default_config]
  have h := render_frame_returns (fun a b => a + b) Real.sin Real.cos
    ⟨(sized_config 80 22 : Config ℝ), 0, 0⟩ hw hh hne (by simp [sized_config, INT_MAX])
    90 315 h1 h2 (fun k j _ _ => ne_of_gt (sized_divisor_pos 80 22 0 0 _ _))
  refine ⟨hw, hh, hne, h1, h2, ?_⟩
  intro fuel hfuel
  obtain ⟨out, st, hout, _, _, _, hlen⟩ := h.1 fuel (by
    have : max 90 315 = 315 := rfl
    omega)
  rw [h.2.1 fuel] at hout
  exact ⟨out, hout, hlen⟩

/-- C7, counterexample.  Four configurations with positive width, height and steps.
With `k2 = 0`, at the phase `(0, 0)` the first sample `(theta, phi) = (0, 0)` of the loops
has `z2 + k2 = 0`: line 89 divides by zero.  With an empty palette, at the phase `(0, π/2)`
the first sample passes the test of line 96 over the depth entry `0` with `ooz = 1/5`, and
the palette index of line 103 is `-1`.  With 65536 by 65536 cells the product
`width * height` does not fit an `int`.  With `theta_step = 2^-52` and the addition of
`double`s the loop variable `theta` never leaves `[0, 4]`, so no fuel gives a frame, although
the palette is not empty, the sizes fit, no divisor is zero and, in exact arithmetic, a
frame is returned. -/
theorem render_frame_returns_counterexample :
    ((0 : Int) < (camera_config 0 : Config ℝ).width ∧
      (0 : Int) < (camera_config 0 : Config ℝ).height ∧
      (0 : ℝ) < (camera_config 0 : Config ℝ).theta_step ∧
      (0 : ℝ) < (camera_config 0 : Config ℝ).phi_step ∧
      (0 : ℝ) < two_pi ∧
      (rotated_point Real.sin Real.cos ⟨(camera_config 0 : Config ℝ), 0, 0⟩ 0 0).2.2 +
        (camera_config 0 : Config ℝ).k2 = 0 ∧
      divisor Real.sin Real.cos ⟨(camera_config 0 : Config ℝ), 0, 0⟩ 0 0 = 0) ∧
    ((0 : Int) < (palette_config [] : Config ℝ).width ∧
      (0 : Int) < (palette_config [] : Config ℝ).height ∧
      (0 : ℝ) < (palette_config [] : Config ℝ).theta_step ∧
      (0 : ℝ) < (palette_config [] : Config ℝ).phi_step ∧
      sample_at Real.sin Real.cos ⟨(palette_config [] : Config ℝ), 0, Real.pi / 2⟩ 0 0 =
        .ok ⟨1 / 5, 40, 2, 1⟩ ∧
      visible (palette_config [] : Config ℝ) ⟨1 / 5, 40, 2, 1⟩ ∧
      (blank 1760 : Buffers ℝ).zbuffer[cell (palette_config [] : Config ℝ) ⟨1 / 5, 40, 2, 1⟩]?
        = some 0 ∧
      shade_index (1 : ℝ) ((palette_config [] : Config ℝ).shading.length : Int) = -1) ∧
    ((0 : Int) < (sized_config 65536 65536 : Config ℝ).width ∧
      (0 : Int) < (sized_config 65536 65536 : Config ℝ).height ∧
      (0 : ℝ) < (sized_config 65536 65536 : Config ℝ).theta_step ∧
      (0 : ℝ) < (sized_config 65536 65536 : Config ℝ).phi_step ∧
      fits_int ((sized_config 65536 65536 : Config ℝ).width *
        (sized_config 65536 65536 : Config ℝ).height) = false ∧
      ∀ fuel, render_frame Real.sin Real.cos
        ⟨(sized_config 65536 65536 : Config ℝ), 0, 0⟩ fuel = .error .intOverflow) ∧
    ((0 : Int) < (stall_config : Config ℝ).width ∧
      (0 : Int) < (stall_config : Config ℝ).height ∧
      (0 : ℝ) < (stall_config : Config ℝ).theta_step ∧
      (0 : ℝ) < (stall_config : Config ℝ).phi_step ∧
      (stall_config : Config ℝ).shading ≠ [] ∧
      (stall_config : Config ℝ).width * (stall_config : Config ℝ).height +
        (stall_config : Config ℝ).height ≤ INT_MAX ∧
      (∀ theta phi : ℝ,
        divisor Real.sin Real.cos ⟨(stall_config : Config ℝ), 0, 0⟩ theta phi ≠ 0) ∧
      (∀ v : ℝ, 0 ≤ v ∧ v ≤ 4 →
        v < two_pi ∧ 0 ≤ double_add v (stall_config : Config ℝ).theta_step ∧
          double_add v (stall_config : Config ℝ).theta_step ≤ 4) ∧
      (∀ fuel out, render_frame_with double_add Real.sin Real.cos
        ⟨(stall_config : Config ℝ), 0, 0⟩ fuel ≠ .ok out) ∧
      ∃ n : Nat, ∀ fuel, n < fuel → ∃ out,
        render_frame Real.sin Real.cos ⟨(stall_config : Config ℝ), 0, 0⟩ fuel = .ok out) := by
  have hQ : ∀ v : ℝ, 0 ≤ v ∧ v ≤ 4 →
      v < two_pi ∧ 0 ≤ double_add v (stall_config : Config ℝ).theta_step ∧
        double_add v (stall_config : Config ℝ).theta_step ≤ 4 := by
    intro v hv
    exact ⟨lt_of_le_of_lt hv.2 four_lt_two_pi, double_add_stall v hv.1 hv.2⟩
  have hdiv : ∀ theta phi : ℝ,
      divisor Real.sin Real.cos ⟨(stall_config : Config ℝ), 0, 0⟩ theta phi ≠ 0 :=
    fun theta phi => ne_of_gt (sized_divisor_pos 80 22 0 0 theta phi)
  have hts : (0 : ℝ) < (stall_config : Config ℝ).theta_step := by
    simp only [stall_config]; positivity
  have hps : (0 : ℝ) < (stall_config : Config ℝ).phi_step := by
    norm_num [stall_config, default_config]
  have hne : (stall_config : Config ℝ).shading ≠ [] := by simp [stall_config, default_config]
  have hfit : (stall_config : Config ℝ).width * (stall_config : Config ℝ).height +
      (stall_config : Config ℝ).height ≤ INT_MAX := by
    simp [stall_config, default_config, INT_MAX]
  refine ⟨⟨by simp [camera_config, default_config], by simp [camera_config, default_config],
      by norm_num [camera_config, default_config], by norm_num [camera_config, default_config],
      two_pi_pos, ?_, ?_⟩,
    ⟨by simp [palette_config, default_config], by simp [palette_config, default_config],
      by norm_num [palette_config], by norm_num [palette_config], palette_sample [],
      by simp [visible, palette_config, default_config], ?_, ?_⟩,
    ⟨by simp [sized_config], by simp [sized_config],
      by norm_num [sized_config, default_config], by norm_num [sized_config, default_config],
      by simp [sized_config, fits_int, INT_MAX, INT_MIN], overflow_fault 0 0⟩,
    ⟨by simp [stall_config, default_config], by simp [stall_config, default_config],
      hts, hps, hne, hfit, hdiv, hQ, ?_, ?_⟩⟩
  · rw [← divisor_eq]
    simp [divisor, camera_config, default_config]
  · simp [divisor, camera_config, default_config]
  · have hcell : cell (palette_config [] : Config ℝ) ⟨1 / 5, 40, 2, 1⟩ = 200 := by
      simp [cell, palette_config, default_config]
    rw [hcell]
    exact (blank_getElem? 1760 200 (by norm_num)).1
  · have h8 : trunc (8 : ℝ) = 8 := by
      have : (8 : ℝ) = ((8 : Int) : ℝ) := by norm_num
      rw [this, trunc_intCast]
    simp [shade_index, h8, palette_config]
  · intro fuel out
    exact render_frame_with_stall (fun v : ℝ => 0 ≤ v ∧ v ≤ 4) double_add Real.sin Real.cos
      ⟨(stall_config : Config ℝ), 0, 0⟩ (fun v hv => ⟨(hQ v hv).1, (hQ v hv).2⟩)
      ⟨le_refl _, by norm_num⟩ fuel out
  · exact regular_returns Real.sin Real.cos ⟨(stall_config : Config ℝ), 0, 0⟩
      (by simp [stall_config, default_config]) (by simp [stall_config, default_config])
      ⟨hfit, hts, hps, hne, fun k j _ _ => hdiv _ _⟩

/-- C8.  `render_frame` is a function of the configuration and the phase alone: two
renderers with the same configuration and phase return the same text whatever the fuel;
and a call leaves the renderer as it was, so that a second call on the renderer left by
the first returns the same text. -/
theorem render_frame_deterministic (sin cos : F → F) (r1 r2 : Renderer F)
    (hcfg : r1.cfg_ = r2.cfg_) (ha : r1.a_ = r2.a_) (hb : r1.b_ = r2.b_) :
    (∀ fuel1 fuel2 out1 out2, render_frame sin cos r1 fuel1 = .ok out1 →
      render_frame sin cos r2 fuel2 = .ok out2 → out1 = out2) ∧
    (∀ fuel1 out1 after1, render_frame_call sin cos r1 fuel1 = .ok (out1, after1) →
      after1.cfg_ = r1.cfg_ ∧ after1.a_ = r1.a_ ∧ after1.b_ = r1.b_ ∧
      ∀ fuel2 out2 after2, render_frame_call sin cos after1 fuel2 = .ok (out2, after2) →
        out2 = out1 ∧ after2 = after1) := by
  have hr : r1 = r2 := by
    cases r1; cases r2
    simp only at hcfg ha hb
    subst hcfg ha hb
    rfl
  subst hr
  refine ⟨fun fuel1 fuel2 out1 out2 h1 h2 => render_frame_fuel sin cos r1 _ _ _ _ h1 h2, ?_⟩
  intro fuel1 out1 after1 h1
  obtain ⟨h1a, rfl⟩ := render_frame_call_inv sin cos r1 after1 fuel1 out1 h1
  refine ⟨rfl, rfl, rfl, ?_⟩
  intro fuel2 out2 after2 h2
  obtain ⟨h2a, rfl⟩ := render_frame_call_inv sin cos after1 after2 fuel2 out2 h2
  exact ⟨render_frame_fuel sin cos _ _ _ _ _ h2a h1a, rfl⟩

/-- C8, witness: two renderers built from the default configuration. -/
theorem render_frame_deterministic_witness :
    ∃ n : Nat, ∀ fuel1 fuel2, n < fuel1 → n < fuel2 → ∃ out,
      render_frame Real.sin Real.cos (Renderer.mk_from (sized_config 80 22 : Config ℝ)) fuel1
        = .ok out ∧
      render_frame Real.sin Real.cos ⟨(sized_config 80 22 : Config ℝ), 0, 0⟩ fuel2 = .ok out := by
  have h := render_frame_deterministic Real.sin Real.cos
    (Renderer.mk_from (sized_config 80 22 : Config ℝ)) ⟨(sized_config 80 22 : Config ℝ), 0, 0⟩
    rfl rfl rfl
  obtain ⟨n, hn⟩ := regular_returns Real.sin Real.cos ⟨(sized_config 80 22 : Config ℝ), 0, 0⟩
    (by simp [sized_config]) (by simp [sized_config]) (sized_regular 80 22 (by simp [INT_MAX]))
  refine ⟨n, fun fuel1 fuel2 h1 h2 => ?_⟩
  obtain ⟨out1, ho1⟩ := hn fuel1 h1
  obtain ⟨out2, ho2⟩ := hn fuel2 h2
  have e := h.1 fuel1 fuel2 out1 out2 ho1 ho2
  subst e
  exact ⟨out1, ho1, ho2⟩

/-- C9.  `parse_args` ignores unrecognised flags: a token in flag position that is none of
the thirteen recognised flags can be removed without changing the result; and an argument
list with no recognised flag in flag position, the empty one included, gives the default
`Config`, whose values are those of lines 10-22. -/
theorem parse_args_ignores_unrecognised (atoi : String → Int) (atof : String → F) :
    (∀ (prog : String) (pre : List String) (tok : String) (post : List String),
      flag_position pre = true → tok ∉ recognised_flags →
      parse_args atoi atof (prog :: (pre ++ tok :: post)) =
        parse_args atoi atof (prog :: (pre ++ post))) ∧
    (∀ argv : List String,
      (∀ pre tok post, argv.drop 1 = pre ++ tok :: post → flag_position pre = true →
        tok ∉ recognised_flags) →
      parse_args atoi atof argv = default_config) ∧
    ((default_config : Config F).width = 80 ∧ (default_config : Config F).height = 22 ∧
      (default_config : Config F).r1 = 1 ∧ (default_config : Config F).r2 = 2 ∧
      (default_config : Config F).k1 = 30 ∧ (default_config : Config F).k2 = 5 ∧
      (default_config : Config F).a_step = 4 / 100 ∧
      (default_config : Config F).b_step = 2 / 100 ∧
      (default_config : Config F).theta_step = 7 / 100 ∧
      (default_config : Config F).phi_step = 2 / 100 ∧
      (default_config : Config F).shading = ".,-~:;=!*#$@".toList ∧
      (default_config : Config F).benchmark = false ∧
      (default_config : Config F).frames = 500) := by
  refine ⟨?_, ?_, ⟨rfl, rfl, rfl, rfl, rfl, rfl, rfl, rfl, rfl, rfl, rfl, rfl, rfl⟩⟩
  · intro prog pre tok post hpos htok
    unfold parse_args
    simp only [List.drop_succ_cons, List.drop_zero]
    obtain ⟨cfg1, h1⟩ := parse_loop_append atoi atof pre.length pre (le_refl _) hpos
      (default_config : Config F)
    rw [h1, h1, parse_loop_unrecognised atoi atof cfg1 tok htok]
  · intro argv h
    exact parse_loop_all_unrecognised atoi atof _ _ h

/-- C10.  `parse_args` ignores a flag that is missing its argument: when the last token of
the argument list is, in flag position, one of the twelve flags that take a value, the
result is that of the list without it. -/
theorem parse_args_missing_value (atoi : String → Int) (atof : String → F) (prog : String)
    (pre : List String) (flag : String) (hpos : flag_position pre = true)
    (hflag : flag ∈ value_flags) :
    parse_args atoi atof (prog :: (pre ++ [flag])) = parse_args atoi atof (prog :: pre) := by
  unfold parse_args
  simp only [List.drop_succ_cons, List.drop_zero]
  obtain ⟨cfg1, h1⟩ := parse_loop_append atoi atof pre.length pre (le_refl _) hpos
    (default_config : Config F)
  have h2 := h1 []
  rw [List.append_nil] at h2
  rw [h1, h2, parse_loop_value_last atoi atof cfg1 flag hflag]
  rfl

/-- C10, witness: `donut --width 100 --height`. -/
theorem parse_args_missing_value_witness :
    flag_position ["--width", "100"] = true ∧ "--height" ∈ value_flags ∧
    parse_args (fun s => s.toInt?.getD 0) (fun _ => (0 : ℚ))
        ("donut" :: (["--width", "100"] ++ ["--height"])) =
      parse_args (fun s => s.toInt?.getD 0) (fun _ => (0 : ℚ))
        ("donut" :: ["--width", "100"]) :=
  ⟨by simp [flag_position, value_flags], by simp [value_flags],
    parse_args_missing_value _ _ "donut" ["--width", "100"] "--height"
      (by simp [flag_position, value_flags]) (by simp [value_flags])⟩

/-- C11.  Benchmark arithmetic: for a measured total time `T > 0` and a frame count
`F > 0` the value reported as average frame time is `(T / F) * 1000`, the value reported as
FPS is `F / T`, and (exact arithmetic) their product is `1000`. -/
theorem benchmark_arithmetic (cfg : Config F) (total : F) (hT : 0 < total)
    (hF : 0 < cfg.frames) :
    (benchmark_report cfg total).avg_ms = (total / (cfg.frames : F)) * 1000 ∧
      (benchmark_report cfg total).fps = (cfg.frames : F) / total ∧
      (benchmark_report cfg total).frames = cfg.frames ∧
      (benchmark_report cfg total).total = total ∧
      (benchmark_report cfg total).avg_ms * (benchmark_report cfg total).fps = 1000 := by
  have hF2 : (0 : F) < (cfg.frames : F) := by exact_mod_cast hF
  refine ⟨rfl, rfl, rfl, rfl, ?_⟩
  show total / (cfg.frames : F) * 1000 * ((cfg.frames : F) / total) = 1000
  field_simp

/-- C11, witness: 500 frames in 2 seconds are reported as 4 ms per frame and 250 frames per
second. -/
theorem benchmark_arithmetic_witness :
    (0 : ℚ) < 2 ∧ (0 : Int) < (default_config : Config ℚ).frames ∧
    (benchmark_report (default_config : Config ℚ) 2).avg_ms = 4 ∧
    (benchmark_report (default_config : Config ℚ) 2).fps = 250 ∧
    (benchmark_report (default_config : Config ℚ) 2).avg_ms *
      (benchmark_report (default_config : Config ℚ) 2).fps = 1000 := by
  have h := benchmark_arithmetic (default_config : Config ℚ) 2 (by norm_num)
    (by simp [default_config])
  refine ⟨by norm_num, by simp [default_config], ?_, ?_, h.2.2.2.2⟩
  · rw [h.1]; norm_num [default_config]
  · rw [h.2.1]; norm_num [default_config]

/-- C12.  `parse_args` is a total function into `Config`: it has no error result.  With
`atoi` and `atof` the C library functions, of which it is assumed that they return `0` on a
string that has no leading numeric part after optional white space and sign: when one of
the eleven numeric flags stands in flag position and its argument is such a string, the
flag consumes the argument and sets its field to `0`, and when no later occurrence of the
flag has an argument the field of the result is `0`; none of these fields is `0` by
default. -/
theorem parse_args_malformed (atoi : String → Int) (atof : String → F)
    (hatoi : ∀ s, starts_integer s = false → atoi s = 0)
    (hatof : ∀ s, starts_float s = false → atof s = 0) :
    (∀ argv : List String, ∃ cfg : Config F, parse_args atoi atof argv = cfg) ∧
    (∀ (cfg : Config F) (flag v : String) (rest : List String), flag ∈ numeric_flags →
      malformed flag v →
      parse_loop atoi atof cfg (flag :: v :: rest) =
          parse_loop atoi atof (set_value atoi atof cfg flag v) rest ∧
        numeric_field (set_value atoi atof cfg flag v) flag = 0) ∧
    (∀ (prog : String) (pre : List String) (flag v : String) (post : List String),
      flag_position pre = true → flag ∈ numeric_flags → malformed flag v →
      flag ∉ valued_flags post →
      numeric_field (parse_args atoi atof (prog :: (pre ++ flag :: v :: post))) flag = 0) ∧
    (∀ flag ∈ numeric_flags, numeric_field (default_config : Config F) flag ≠ 0) := by
  refine ⟨fun argv => ⟨_, rfl⟩, ?_, ?_, fun flag h => numeric_field_default flag h⟩
  · intro cfg flag v rest hflag hv
    obtain ⟨h1, h2⟩ := malformed_zero atoi atof hatoi hatof flag v hv
    exact ⟨parse_loop_value atoi atof cfg flag (numeric_flags_value flag hflag) v rest,
      numeric_field_set_value atoi atof cfg flag v hflag h1 h2⟩
  · intro prog pre flag v post hpos hflag hv hno
    obtain ⟨h1, h2⟩ := malformed_zero atoi atof hatoi hatof flag v hv
    have hlast := parse_loop_last atoi atof (default_config : Config F) default_config pre flag v
      post hpos (numeric_flags_value flag hflag) hno
    rw [show parse_args atoi atof (prog :: (pre ++ flag :: v :: post)) =
      parse_loop atoi atof default_config (pre ++ flag :: v :: post) from rfl,
      numeric_field_of_same flag hflag _ _ hlast]
    exact numeric_field_set_value atoi atof default_config flag v hflag h1 h2

/-- C12, witness: `donut --width abc --k2 -x` gives `width = 0` and `k2 = 0`. -/
theorem parse_args_malformed_witness :
    (∀ s, starts_integer s = false → atoi_of s = 0) ∧
    (∀ s, starts_float s = false → (atof_of s : ℚ) = 0) ∧
    numeric_field (parse_args atoi_of atof_of
      ("donut" :: ([] ++ "--width" :: "abc" :: ["--k2", "-x"])) : Config ℚ) "--width" = 0 ∧
    numeric_field (parse_args atoi_of atof_of
      ("donut" :: (["--width", "abc"] ++ "--k2" :: "-x" :: [])) : Config ℚ) "--k2" = 0 := by
  have h := parse_args_malformed atoi_of (atof_of : String → ℚ) atoi_of_malformed
    atof_of_malformed
  refine ⟨atoi_of_malformed, atof_of_malformed, ?_, ?_⟩
  · exact h.2.2.1 "donut" [] "--width" "abc" ["--k2", "-x"] rfl (by simp [numeric_flags])
      (by simp only [malformed, int_flags, List.mem_cons, true_or, if_true]; rfl)
      (by simp [valued_flags, value_flags])
  · exact h.2.2.1 "donut" ["--width", "abc"] "--k2" "-x" []
      (by simp [flag_position, value_flags]) (by simp [numeric_flags])
      (by
        have : "--k2" ∉ int_flags := by simp [int_flags]
        simp only [malformed, if_neg this]
        rfl)
      (by simp [valued_flags])

/-- C13.  For `width, height > 0` and a non-empty palette: a sample that passes the test of
line 96 and whose depth entry is `0` is drawn when its `ooz` is positive (the depth entry
becomes its `ooz` and the character its shading character), and is not drawn when its `ooz`
is zero or negative (the buffers stay as they are).  In a returned frame the depth entry of
a cell is `0` exactly when every sample that passes the test and falls on the cell has
`ooz ≤ 0`, and such a cell shows a space. -/
theorem depth_zero_draw (sin cos : F → F) (r : Renderer F)
    (hw : 0 < r.cfg_.width) (hh : 0 < r.cfg_.height) (hne : r.cfg_.shading ≠ []) :
    (∀ (s : Sample F) (st : Buffers F), visible r.cfg_ s →
      st.buffer.length = st.zbuffer.length → st.zbuffer[cell r.cfg_ s]? = some 0 →
      (0 < s.ooz → ∃ ch st1, shade_char r.cfg_ s.luminance = .ok ch ∧
        plot r.cfg_ s st = .ok st1 ∧ st1.zbuffer[cell r.cfg_ s]? = some s.ooz ∧
        st1.buffer[cell r.cfg_ s]? = some ch) ∧
      (s.ooz ≤ 0 → plot r.cfg_ s st = .ok st)) ∧
    (∀ fuel out, render_frame sin cos r fuel = .ok out →
      ∃ st l, rasterize sin cos r fuel = .ok st ∧ visited sin cos r fuel = .ok l ∧
        ∀ x y : Nat, (x : Int) < r.cfg_.width → (y : Int) < r.cfg_.height →
          (st.zbuffer[x + y * r.cfg_.width.toNat]? = some 0 ↔
            ∀ s ∈ l, visible r.cfg_ s → cell r.cfg_ s = x + y * r.cfg_.width.toNat →
              s.ooz ≤ 0) ∧
          (st.zbuffer[x + y * r.cfg_.width.toNat]? = some 0 →
            out[y * (r.cfg_.width.toNat + 1) + x]? = some ' ')) ∧
    (regular sin cos r →
      ∃ n : Nat, ∀ fuel, n < fuel → ∃ out, render_frame sin cos r fuel = .ok out) := by
  obtain ⟨hwn, hhn, _, _⟩ := int_dims _ _ hw hh
  refine ⟨?_, ?_, regular_returns sin cos r hw hh⟩
  · intro s st hv hlen hz
    have hlt : cell r.cfg_ s < st.zbuffer.length := by
      rw [List.getElem?_eq_some] at hz
      exact hz.1
    constructor
    · intro hpos
      obtain ⟨ch, hch, _, _⟩ := shade_char_of_nonempty r.cfg_ s.luminance hne
      refine ⟨ch, _, hch, plot_draw r.cfg_ s st hv 0 hz hpos (by rw [hlen]; exact hlt) ch hch,
        ?_, ?_⟩
      · exact List.getElem?_set_self hlt
      · exact List.getElem?_set_self (by rw [hlen]; exact hlt)
    · intro hle
      exact plot_keep r.cfg_ s st hv 0 hz hle
  · intro fuel out hres
    obtain ⟨st, l, h1, h2, hinv, hcell⟩ := render_frame_cell sin cos r fuel out _ _ hwn hhn hres
    refine ⟨st, l, h1, h2, ?_⟩
    intro x y hx hy
    have hx2 : x < r.cfg_.width.toNat := by omega
    have hy2 : y < r.cfg_.height.toNat := by omega
    have hc := cell_state_zero_iff r.cfg_ l st _
      (hinv _ (cell_index_lt _ _ x y hx2 hy2))
    rw [hcell x y hx2 hy2, ← front_hits_eq_nil_iff]
    exact hc

/-- C13, witness: on the blank buffers of the default dimensions the sample of the phase
`(0, π/2)` at the angles `(0, 0)`, with `ooz = 1/5`, is drawn at position `40 + 80 * 2`. -/
theorem depth_zero_draw_witness :
    (0 : Int) < (palette_config ['.'] : Config ℝ).width ∧
    (0 : Int) < (palette_config ['.'] : Config ℝ).height ∧
    (palette_config ['.'] : Config ℝ).shading ≠ [] ∧
    sample_at Real.sin Real.cos ⟨(palette_config ['.'] : Config ℝ), 0, Real.pi / 2⟩ 0 0 =
      .ok ⟨1 / 5, 40, 2, 1⟩ ∧
    ∃ ch st1, shade_char (palette_config ['.'] : Config ℝ) (1 : ℝ) = .ok ch ∧
      plot (palette_config ['.'] : Config ℝ) ⟨1 / 5, 40, 2, 1⟩ (blank 1760) = .ok st1 ∧
      st1.zbuffer[200]? = some (1 / 5) ∧ st1.buffer[200]? = some ch := by
  have hw : (0 : Int) < (palette_config ['.'] : Config ℝ).width := by
    simp [palette_config, default_config]
  have hh : (0 : Int) < (palette_config ['.'] : Config ℝ).height := by
    simp [palette_config, default_config]
  have hne : (palette_config ['.'] : Config ℝ).shading ≠ [] := by simp [palette_config]
  have hv : visible (palette_config ['.'] : Config ℝ) ⟨1 / 5, 40, 2, 1⟩ := by
    simp [visible, palette_config, default_config]
  have hcell : cell (palette_config ['.'] : Config ℝ) ⟨1 / 5, 40, 2, 1⟩ = 200 := by
    simp [cell, palette_config, default_config]
  have h := ((depth_zero_draw Real.sin Real.cos
    ⟨(palette_config ['.'] : Config ℝ), 0, Real.pi / 2⟩ hw hh hne).1
    ⟨1 / 5, 40, 2, 1⟩ (blank 1760) hv
    (by rw [blank, List.length_replicate, List.length_replicate])
    (by rw [hcell]; exact (blank_getElem? 1760 200 (by norm_num)).1)).1 (by norm_num)
  rw [hcell] at h
  exact ⟨hw, hh, hne, palette_sample ['.'], h⟩

/-- C13, counterexample.  With `k2 = -10`, steps `7` (one sample) and the phase `(0, π/2)` the
one sample has luminance `1` and projects in bounds to column 40 of row 15, and the depth
entry of its cell in the blank buffers is `0`; but its `ooz` is `-1/10`, so the test
`ooz > zbuffer[idx]` fails and the sample is not drawn: the buffers stay blank, the depth
entry stays `0` and the cell keeps its space instead of the shading character `*`. -/
theorem depth_zero_draw_counterexample :
    (0 : Int) < (single_config (-10) : Config ℝ).width ∧
    (0 : Int) < (single_config (-10) : Config ℝ).height ∧
    (single_config (-10) : Config ℝ).shading ≠ [] ∧
    sample_at Real.sin Real.cos ⟨(single_config (-10) : Config ℝ), 0, Real.pi / 2⟩ 0 0 =
      .ok ⟨-(1 / 10), 40, 15, 1⟩ ∧
    visited Real.sin Real.cos ⟨(single_config (-10) : Config ℝ), 0, Real.pi / 2⟩ 2 =
      .ok [⟨-(1 / 10), 40, 15, 1⟩] ∧
    visible (single_config (-10) : Config ℝ) ⟨-(1 / 10), 40, 15, 1⟩ ∧
    cell (single_config (-10) : Config ℝ) ⟨-(1 / 10), 40, 15, 1⟩ = 1240 ∧
    (blank 1760 : Buffers ℝ).zbuffer[1240]? = some 0 ∧
    (blank 1760 : Buffers ℝ).buffer[1240]? = some ' ' ∧
    shade_char (single_config (-10) : Config ℝ) (1 : ℝ) = .ok '*' ∧
    plot (single_config (-10) : Config ℝ) ⟨-(1 / 10), 40, 15, 1⟩ (blank 1760) =
      .ok (blank 1760) ∧
    rasterize Real.sin Real.cos ⟨(single_config (-10) : Config ℝ), 0, Real.pi / 2⟩ 2 =
      .ok (blank 1760) ∧
    render_frame Real.sin Real.cos ⟨(single_config (-10) : Config ℝ), 0, Real.pi / 2⟩ 2 =
      .ok (frame_text 80 22 (List.replicate (80 * 22) ' ')) := by
  have h7 : (two_pi : ℝ) ≤ 7 := le_of_lt two_pi_lt_seven
  have hv : visible (single_config (-10) : Config ℝ) ⟨-(1 / 10), 40, 15, 1⟩ := by
    simp [visible, single_config, default_config]
  have hcell : cell (single_config (-10) : Config ℝ) ⟨-(1 / 10), 40, 15, 1⟩ = 1240 := by
    simp [cell, single_config, default_config]
  have hch : shade_char (single_config (-10) : Config ℝ) (1 : ℝ) = .ok '*' := by
    have h8 : trunc (8 : ℝ) = 8 := by
      have : (8 : ℝ) = ((8 : Int) : ℝ) := by norm_num
      rw [this, trunc_intCast]
    simp [shade_char, shade_index, h8, single_config, default_config, index]
  have hz := (blank_getElem? 1760 1240 (by norm_num) :
    (blank 1760 : Buffers ℝ).zbuffer[1240]? = some 0 ∧ _)
  have hplot : plot (single_config (-10) : Config ℝ) ⟨-(1 / 10), 40, 15, 1⟩ (blank 1760) =
      .ok (blank 1760) :=
    plot_keep _ _ _ hv 0 (by rw [hcell]; exact hz.1) (by norm_num)
  have hvis := visited_single Real.sin Real.cos
    ⟨(single_config (-10) : Config ℝ), 0, Real.pi / 2⟩ 0
    (by simpa [single_config] using h7) (by simpa [single_config] using h7)
  rw [record_body, far_sample] at hvis
  simp only [List.nil_append] at hvis
  have hras := rasterize_single Real.sin Real.cos
    ⟨(single_config (-10) : Config ℝ), 0, Real.pi / 2⟩ 0
    (by simp [single_config, default_config, INT_MAX])
    (by simpa [single_config] using h7) (by simpa [single_config] using h7)
  rw [far_sample] at hras
  have hn : ((single_config (-10) : Config ℝ).width *
      (single_config (-10) : Config ℝ).height).toNat = 1760 := by
    simp [single_config, default_config]
  simp only [hn] at hras
  rw [hplot] at hras
  have hres := render_frame_single_blank Real.sin Real.cos
    ⟨(single_config (-10) : Config ℝ), 0, Real.pi / 2⟩ 0 80 22 rfl rfl (by simp [INT_MAX])
    (by simpa [single_config] using h7) (by simpa [single_config] using h7)
    _ far_sample (Or.inr (by norm_num))
  exact ⟨by simp [single_config, default_config], by simp [single_config, default_config],
    by simp [single_config, default_config], far_sample, hvis, hv, hcell, hz.1, hz.2, hch,
    hplot, hras, hres⟩

/-- C14.  The screen coordinates are the truncations toward zero of
`fx = width / 2 + k1 * ooz * x2` and `fy = height / 2 - (k1 / 2) * ooz * y2`, with the
halves taken in the field.  Hence, for `width, height > 0` (the grid dimensions of the data
model), a sample with `luminance > 0` passes the test of line 96 exactly when
`-1 < fx < width` and `-1 < fy < height`: when they hold `plot` goes on to the depth test
and, the depth entry being below `ooz`, writes the cell `xp + width * yp`, and `plot`
changes the buffers only when they hold.  A sample with `fx` in `(-1, 0)` has `xp = 0` and
is written in column 0, at `width * yp`, and one with `fy` in `(-1, 0)` has `yp = 0` and is
written in row 0, at `xp`; a sample with `fx ≤ -1`, `fx ≥ width`, `fy ≤ -1` or
`fy ≥ height` is dropped: `plot` leaves the buffers as they are. -/
theorem truncated_coordinates (sin cos : F → F) (r : Renderer F)
    (hw : 0 < r.cfg_.width) (hh : 0 < r.cfg_.height) (theta phi : F) (s : Sample F)
    (hs : sample_at sin cos r theta phi = .ok s) :
    s.xp = trunc ((r.cfg_.width : F) / 2 + r.cfg_.k1 * s.ooz *
      (rotated_point sin cos r theta phi).1) ∧
    s.yp = trunc ((r.cfg_.height : F) / 2 - (r.cfg_.k1 * (1 / 2)) * s.ooz *
      (rotated_point sin cos r theta phi).2.1) ∧
    s.xp = trunc (screen_x sin cos r theta phi) ∧ s.yp = trunc (screen_y sin cos r theta phi) ∧
    (0 < s.luminance →
      (visible r.cfg_ s ↔
        (-1 < screen_x sin cos r theta phi ∧ screen_x sin cos r theta phi < r.cfg_.width ∧
          -1 < screen_y sin cos r theta phi ∧
          screen_y sin cos r theta phi < r.cfg_.height))) ∧
    (-1 < screen_x sin cos r theta phi → screen_x sin cos r theta phi < 0 → s.xp = 0) ∧
    (-1 < screen_y sin cos r theta phi → screen_y sin cos r theta phi < 0 → s.yp = 0) ∧
    ((screen_x sin cos r theta phi ≤ -1 ∨ (r.cfg_.width : F) ≤ screen_x sin cos r theta phi ∨
        screen_y sin cos r theta phi ≤ -1 ∨
        (r.cfg_.height : F) ≤ screen_y sin cos r theta phi) →
      ∀ st, plot r.cfg_ s st = .ok st) ∧
    (0 < s.luminance → -1 < screen_x sin cos r theta phi →
      screen_x sin cos r theta phi < r.cfg_.width → -1 < screen_y sin cos r theta phi →
      screen_y sin cos r theta phi < r.cfg_.height →
      ∀ (st : Buffers F) (depth : F) (ch : Char), st.buffer.length = st.zbuffer.length →
        st.zbuffer[(s.xp + r.cfg_.width * s.yp).toNat]? = some depth →
        shade_char r.cfg_ s.luminance = .ok ch →
        (depth < s.ooz → plot r.cfg_ s st =
          .ok ⟨st.buffer.set (s.xp + r.cfg_.width * s.yp).toNat ch,
            st.zbuffer.set (s.xp + r.cfg_.width * s.yp).toNat s.ooz⟩) ∧
        (s.ooz ≤ depth → plot r.cfg_ s st = .ok st)) ∧
    (∀ st st1 : Buffers F, plot r.cfg_ s st = .ok st1 →
      (st1.buffer ≠ st.buffer ∨ st1.zbuffer ≠ st.zbuffer) →
      0 < s.luminance ∧ -1 < screen_x sin cos r theta phi ∧
        screen_x sin cos r theta phi < r.cfg_.width ∧ -1 < screen_y sin cos r theta phi ∧
        screen_y sin cos r theta phi < r.cfg_.height) ∧
    (0 < s.luminance → -1 < screen_x sin cos r theta phi → screen_x sin cos r theta phi < 0 →
      -1 < screen_y sin cos r theta phi → screen_y sin cos r theta phi < r.cfg_.height →
      ∀ (st : Buffers F) (depth : F) (ch : Char), st.buffer.length = st.zbuffer.length →
        st.zbuffer[(r.cfg_.width * s.yp).toNat]? = some depth → depth < s.ooz →
        shade_char r.cfg_ s.luminance = .ok ch →
        plot r.cfg_ s st =
          .ok ⟨st.buffer.set (r.cfg_.width * s.yp).toNat ch,
            st.zbuffer.set (r.cfg_.width * s.yp).toNat s.ooz⟩) ∧
    (0 < s.luminance → -1 < screen_y sin cos r theta phi → screen_y sin cos r theta phi < 0 →
      -1 < screen_x sin cos r theta phi → screen_x sin cos r theta phi < r.cfg_.width →
      ∀ (st : Buffers F) (depth : F) (ch : Char), st.buffer.length = st.zbuffer.length →
        st.zbuffer[s.xp.toNat]? = some depth → depth < s.ooz →
        shade_char r.cfg_ s.luminance = .ok ch →
        plot r.cfg_ s st =
          .ok ⟨st.buffer.set s.xp.toNat ch, st.zbuffer.set s.xp.toNat s.ooz⟩) := by
  obtain ⟨_, hooz, hxp, hyp, _⟩ := sample_at_inv sin cos r theta phi s hs
  have hvis : visible r.cfg_ s ↔ (0 < s.luminance ∧
      (-1 < screen_x sin cos r theta phi ∧ screen_x sin cos r theta phi < r.cfg_.width ∧
        -1 < screen_y sin cos r theta phi ∧
        screen_y sin cos r theta phi < r.cfg_.height)) := by
    unfold visible
    rw [hxp, hyp, ge_iff_le, ge_iff_le, trunc_nonneg_iff, trunc_nonneg_iff,
      trunc_lt_iff _ _ hw, trunc_lt_iff _ _ hh]
  have hx0 : -1 < screen_x sin cos r theta phi → screen_x sin cos r theta phi < 0 →
      s.xp = 0 := by
    intro h0 h1
    rw [hxp]; exact trunc_eq_zero _ h0 (by linarith)
  have hy0 : -1 < screen_y sin cos r theta phi → screen_y sin cos r theta phi < 0 →
      s.yp = 0 := by
    intro h0 h1
    rw [hyp]; exact trunc_eq_zero _ h0 (by linarith)
  have hdraw : ∀ (st : Buffers F) (depth : F) (ch : Char), visible r.cfg_ s →
      st.buffer.length = st.zbuffer.length →
      st.zbuffer[(s.xp + r.cfg_.width * s.yp).toNat]? = some depth → depth < s.ooz →
      shade_char r.cfg_ s.luminance = .ok ch →
      plot r.cfg_ s st =
        .ok ⟨st.buffer.set (s.xp + r.cfg_.width * s.yp).toNat ch,
          st.zbuffer.set (s.xp + r.cfg_.width * s.yp).toNat s.ooz⟩ := by
    intro st depth ch hv hlen hz hlt hch
    have hz2 : cell r.cfg_ s < st.zbuffer.length := by
      rw [List.getElem?_eq_some] at hz
      exact hz.1
    have hi := (visible_cell_lt r.cfg_ s hv).1.symm
    unfold visible at hv
    unfold plot
    rw [if_pos hv]
    simp only
    rw [index_eq_of_getElem? st.zbuffer (cell r.cfg_ s) depth hz _ hi]
    simp only
    rw [if_pos hlt, store_eq_of_lt st.zbuffer (cell r.cfg_ s) s.ooz hz2 _ hi]
    simp only
    rw [hch]
    simp only
    rw [store_eq_of_lt st.buffer (cell r.cfg_ s) ch (by rw [hlen]; exact hz2) _ hi]
    rfl
  have hkeep : ∀ (st : Buffers F) (depth : F), visible r.cfg_ s →
      st.zbuffer[(s.xp + r.cfg_.width * s.yp).toNat]? = some depth → s.ooz ≤ depth →
      plot r.cfg_ s st = .ok st := by
    intro st depth hv hz hle
    have hi := (visible_cell_lt r.cfg_ s hv).1.symm
    unfold visible at hv
    unfold plot
    rw [if_pos hv]
    simp only
    rw [index_eq_of_getElem? st.zbuffer (cell r.cfg_ s) depth hz _ hi]
    simp only
    rw [if_neg (not_lt.mpr hle)]
  have hskip : ∀ st : Buffers F, ¬ visible r.cfg_ s → plot r.cfg_ s st = .ok st := by
    intro st hv
    unfold visible at hv
    unfold plot
    rw [if_neg hv]
  refine ⟨by rw [hxp, hooz]; rfl, by rw [hyp, hooz]; rfl, hxp, hyp, ?_, hx0, hy0, ?_, ?_, ?_,
    ?_, ?_⟩
  · intro hl
    rw [hvis]
    exact ⟨fun h => h.2, fun h => ⟨hl, h⟩⟩
  · intro hout st
    apply hskip
    rw [hvis]
    rintro ⟨_, h1, h2, h3, h4⟩
    rcases hout with h | h | h | h <;> linarith
  · intro hl h1 h2 h3 h4 st depth ch hlen hz hch
    have hv : visible r.cfg_ s := hvis.mpr ⟨hl, h1, h2, h3, h4⟩
    exact ⟨fun hlt => hdraw st depth ch hv hlen hz hlt hch,
      fun hle => hkeep st depth hv hz hle⟩
  · intro st st1 hp hne
    by_contra hno
    have hv : ¬ visible r.cfg_ s := fun hv => hno (hvis.mp hv)
    rw [hskip st hv] at hp
    cases hp
    rcases hne with h | h <;> exact h rfl
  · intro hl h1 h2 h3 h4 st depth ch hlen hz hlt hch
    have hv : visible r.cfg_ s := hvis.mpr ⟨hl, h1, by
      have : (0 : F) < (r.cfg_.width : F) := by exact_mod_cast hw
      linarith, h3, h4⟩
    have h0 := hx0 h1 h2
    have e : s.xp + r.cfg_.width * s.yp = r.cfg_.width * s.yp := by rw [h0, zero_add]
    have := hdraw st depth ch hv hlen (by rw [e]; exact hz) hlt hch
    rw [e] at this
    exact this
  · intro hl h1 h2 h3 h4 st depth ch hlen hz hlt hch
    have hv : visible r.cfg_ s := hvis.mpr ⟨hl, h3, h4, h1, by
      have : (0 : F) < (r.cfg_.height : F) := by exact_mod_cast hh
      linarith⟩
    have h0 := hy0 h1 h2
    have e : s.xp + r.cfg_.width * s.yp = s.xp := by rw [h0, mul_zero, add_zero]
    have := hdraw st depth ch hv hlen (by rw [e]; exact hz) hlt hch
    rw [e] at this
    exact this

/-- C14, witness: with 17 columns and 22 rows, at the phase `(0, π - π/3)` the sample of the
angles `(0, 0)` has `fx = -1/2` and `fy = 11 - 9 sin (π/3)`, so `xp = 0` and `yp = 3`; it
passes the test and on the blank buffers it is written in column 0 of row 3, at `17 * 3`. -/
theorem truncated_coordinates_witness :
    (0 : Int) < (sized_config 17 22 : Config ℝ).width ∧
    (0 : Int) < (sized_config 17 22 : Config ℝ).height ∧
    sample_at Real.sin Real.cos
        ⟨(sized_config 17 22 : Config ℝ), 0, Real.pi - Real.pi / 3⟩ 0 0 =
      .ok ⟨1 / 5, 0, 3, Real.sin (Real.pi / 3)⟩ ∧
    screen_x Real.sin Real.cos
      ⟨(sized_config 17 22 : Config ℝ), 0, Real.pi - Real.pi / 3⟩ 0 0 = -(1 / 2) ∧
    0 < Real.sin (Real.pi / 3) ∧
    visible (sized_config 17 22 : Config ℝ) ⟨1 / 5, 0, 3, Real.sin (Real.pi / 3)⟩ ∧
    ∃ ch, shade_char (sized_config 17 22 : Config ℝ) (Real.sin (Real.pi / 3)) = .ok ch ∧
      plot (sized_config 17 22 : Config ℝ) ⟨1 / 5, 0, 3, Real.sin (Real.pi / 3)⟩ (blank 374) =
        .ok ⟨(blank 374 : Buffers ℝ).buffer.set 51 ch,
          (blank 374 : Buffers ℝ).zbuffer.set 51 (1 / 5)⟩ := by
  obtain ⟨hs1, hs2⟩ := sin_pi_div_three_bounds
  obtain ⟨ex, ey⟩ := edge_screen 17 22
  have hx : trunc (((17 : Int) : ℝ) / 2 - 9) = 0 :=
    trunc_eq_zero _ (by norm_num) (by norm_num)
  have hy : trunc (((22 : Int) : ℝ) / 2 - 9 * Real.sin (Real.pi / 3)) = 3 := by
    unfold trunc
    rw [if_pos (by push_cast; linarith), Int.floor_eq_iff]
    push_cast
    constructor <;> linarith
  have hs := edge_sample 17 22
  rw [hx, hy] at hs
  have hw : (0 : Int) < (sized_config 17 22 : Config ℝ).width := by simp [sized_config]
  have hh : (0 : Int) < (sized_config 17 22 : Config ℝ).height := by simp [sized_config]
  have h := truncated_coordinates Real.sin Real.cos
    ⟨(sized_config 17 22 : Config ℝ), 0, Real.pi - Real.pi / 3⟩ hw hh 0 0 _ hs
  have hl : (0 : ℝ) < Real.sin (Real.pi / 3) := by linarith
  have b1 : -1 < screen_x Real.sin Real.cos
      ⟨(sized_config 17 22 : Config ℝ), 0, Real.pi - Real.pi / 3⟩ 0 0 := by
    rw [ex]; norm_num
  have b2 : screen_x Real.sin Real.cos
      ⟨(sized_config 17 22 : Config ℝ), 0, Real.pi - Real.pi / 3⟩ 0 0 < 0 := by
    rw [ex]; norm_num
  have b3 : -1 < screen_y Real.sin Real.cos
      ⟨(sized_config 17 22 : Config ℝ), 0, Real.pi - Real.pi / 3⟩ 0 0 := by
    rw [ey]; push_cast; linarith
  have b4 : screen_y Real.sin Real.cos
      ⟨(sized_config 17 22 : Config ℝ), 0, Real.pi - Real.pi / 3⟩ 0 0 <
        ((sized_config 17 22 : Config ℝ).height : ℝ) := by
    rw [ey]
    simp only [sized_config]
    push_cast
    linarith
  have b5 : screen_x Real.sin Real.cos
      ⟨(sized_config 17 22 : Config ℝ), 0, Real.pi - Real.pi / 3⟩ 0 0 <
        ((sized_config 17 22 : Config ℝ).width : ℝ) := by
    rw [ex]
    simp only [sized_config]
    norm_num
  obtain ⟨ch, hch, _, _⟩ := shade_char_of_nonempty (sized_config 17 22 : Config ℝ)
    (Real.sin (Real.pi / 3)) (by simp [sized_config, default_config])
  have hdraw := h.2.2.2.2.2.2.2.2.2.2.1 hl b1 b2 b3 b4 (blank 374) 0 ch
    (by rw [blank, List.length_replicate, List.length_replicate])
    (by
      show (blank 374 : Buffers ℝ).zbuffer[((17 : Int) * 3).toNat]? = some 0
      exact (blank_getElem? 374 51 (by norm_num)).1)
    (by norm_num) hch
  refine ⟨hw, hh, hs, by rw [ex]; norm_num, hl, ?_, ch, hch, hdraw⟩
  exact (h.2.2.2.2.1 hl).mpr ⟨b1, b5, b3, b4⟩

/-- C15.  Row-major placement, for `width, height > 0`: `(xp, yp) ↦ xp + width * yp` maps
the cells one-to-one onto the positions `0 .. width * height - 1` of the buffer; in a
returned frame the character of cell `(xp, yp)` stands at offset `yp * (width + 1) + xp`;
a plotting step changes no buffer entry but that of its own cell; and a write to the
buffer entry of cell `(xp, yp)` changes the text at that offset and nowhere else. -/
theorem row_major_placement (sin cos : F → F) (r : Renderer F)
    (hw : 0 < r.cfg_.width) (hh : 0 < r.cfg_.height) :
    (∀ xp yp : Int, 0 ≤ xp → xp < r.cfg_.width → 0 ≤ yp → yp < r.cfg_.height →
      0 ≤ xp + r.cfg_.width * yp ∧ xp + r.cfg_.width * yp < r.cfg_.width * r.cfg_.height) ∧
    (∀ xp yp xq yq : Int, 0 ≤ xp → xp < r.cfg_.width → 0 ≤ xq → xq < r.cfg_.width →
      xp + r.cfg_.width * yp = xq + r.cfg_.width * yq → xp = xq ∧ yp = yq) ∧
    (∀ idx : Int, 0 ≤ idx → idx < r.cfg_.width * r.cfg_.height →
      ∃ xp yp : Int, 0 ≤ xp ∧ xp < r.cfg_.width ∧ 0 ≤ yp ∧ yp < r.cfg_.height ∧
        idx = xp + r.cfg_.width * yp) ∧
    (∀ fuel out, render_frame sin cos r fuel = .ok out →
      ∃ st, rasterize sin cos r fuel = .ok st ∧
        ∀ xp yp : Nat, (xp : Int) < r.cfg_.width → (yp : Int) < r.cfg_.height →
          out[yp * (r.cfg_.width.toNat + 1) + xp]? =
            st.buffer[((xp : Int) + r.cfg_.width * (yp : Int)).toNat]?) ∧
    (∀ (s : Sample F) (st st1 : Buffers F), plot r.cfg_ s st = .ok st1 →
      ∀ c : Nat, c ≠ (s.xp + r.cfg_.width * s.yp).toNat → st1.buffer[c]? = st.buffer[c]?) ∧
    (∀ (buffer : List Char) (xp yp : Nat) (ch : Char),
      (buffer.length : Int) = r.cfg_.width * r.cfg_.height →
      (xp : Int) < r.cfg_.width → (yp : Int) < r.cfg_.height →
      ∀ text, serialize r.cfg_ buffer = .ok text →
        ∃ written, store buffer ((xp : Int) + r.cfg_.width * (yp : Int)) ch = .ok written ∧
          serialize r.cfg_ written = .ok (text.set (yp * (r.cfg_.width.toNat + 1) + xp) ch)) := by
  obtain ⟨hwn, hhn, hwpos, hhpos⟩ := int_dims _ _ hw hh
  generalize r.cfg_.width.toNat = w at hwn hwpos
  generalize r.cfg_.height.toNat = h at hhn hhpos
  refine ⟨?_, ?_, ?_, ?_, ?_, ?_⟩
  · intro xp yp hx0 hx1 hy0 hy1
    have h1 : 0 ≤ r.cfg_.width * yp := mul_nonneg (by omega) hy0
    have h2 : r.cfg_.width * (yp + 1) ≤ r.cfg_.width * r.cfg_.height :=
      mul_le_mul_of_nonneg_left (by omega) (by omega)
    have h3 : r.cfg_.width * (yp + 1) = r.cfg_.width * yp + r.cfg_.width := by ring
    omega
  · intro xp yp xq yq hp0 hp1 hq0 hq1 he
    have hmp : (xp + r.cfg_.width * yp) % r.cfg_.width = xp := by
      rw [Int.add_mul_emod_self_left]; exact Int.emod_eq_of_lt hp0 hp1
    have hmq : (xq + r.cfg_.width * yq) % r.cfg_.width = xq := by
      rw [Int.add_mul_emod_self_left]; exact Int.emod_eq_of_lt hq0 hq1
    have hxx : xp = xq := by rw [← hmp, ← hmq, he]
    subst hxx
    have : r.cfg_.width * yp = r.cfg_.width * yq := by omega
    exact ⟨rfl, Int.eq_of_mul_eq_mul_left (by omega) this⟩
  · intro idx h0 h1
    refine ⟨idx % r.cfg_.width, idx / r.cfg_.width, Int.emod_nonneg _ (by omega),
      Int.emod_lt_of_pos _ hw, Int.ediv_nonneg h0 (by omega), ?_,
      (Int.emod_add_ediv idx r.cfg_.width).symm⟩
    rw [Int.ediv_lt_iff_lt_mul hw, Int.mul_comm]
    exact h1
  · intro fuel out hres
    obtain ⟨st, l, hst, _, _, hcell⟩ := render_frame_cell sin cos r fuel out w h hwn hhn hres
    refine ⟨st, hst, ?_⟩
    intro xp yp hx hy
    rw [hcell xp yp (by omega) (by omega)]
    congr 1
    rw [hwn]
    have : ((xp : Int) + (w : Int) * (yp : Int)) = ((xp + yp * w : Nat) : Int) := by
      push_cast; ring
    rw [this]
    exact (Int.toNat_natCast _).symm
  · intro s st st1 hp c hc
    exact (plot_other_cells r.cfg_ s st st1 hp c hc).1
  · intro buffer xp yp ch hlen hx hy text htext
    have hlen2 : buffer.length = w * h := by
      have : ((buffer.length : Nat) : Int) = ((w * h : Nat) : Int) := by
        rw [hlen, hwn, hhn]; push_cast; ring
      exact_mod_cast this
    have hx2 : xp < w := by omega
    have hy2 : yp < h := by omega
    obtain ⟨htxt, hfit⟩ := serialize_inv r.cfg_ buffer text w h hwn hhn hlen2 htext
    have hidx : ((xp : Int) + r.cfg_.width * (yp : Int)) = ((xp + yp * w : Nat) : Int) := by
      rw [hwn]; push_cast; ring
    have hlt : xp + yp * w < buffer.length := by
      rw [hlen2]; exact cell_index_lt w h xp yp hx2 hy2
    refine ⟨buffer.set (xp + yp * w) ch, store_eq_of_lt buffer _ ch hlt _ hidx, ?_⟩
    rw [serialize_eq r.cfg_ _ w h hwn hhn hfit (by rw [List.length_set]; exact hlen2),
      frame_text_set w h buffer xp yp hx2 hy2 hlen2 ch, htxt]

/-- C15, witness: in a frame of the default configuration at the phase `(0, 0)` the cell at
column 3 of row 2 stands at offset `2 * 81 + 3` and is the buffer entry `3 + 80 * 2`. -/
theorem row_major_placement_witness :
    (0 : Int) < (sized_config 80 22 : Config ℝ).width ∧
    (0 : Int) < (sized_config 80 22 : Config ℝ).height ∧
    ∃ n : Nat, ∀ fuel, n < fuel → ∃ out st,
      render_frame Real.sin Real.cos ⟨(sized_config 80 22 : Config ℝ), 0, 0⟩ fuel = .ok out ∧
      rasterize Real.sin Real.cos ⟨(sized_config 80 22 : Config ℝ), 0, 0⟩ fuel = .ok st ∧
      out[2 * (80 + 1) + 3]? = st.buffer[3 + 80 * 2]? := by
  have h := row_major_placement Real.sin Real.cos ⟨(sized_config 80 22 : Config ℝ), 0, 0⟩
    (by simp [sized_config]) (by simp [sized_config])
  refine ⟨by simp [sized_config], by simp [sized_config], ?_⟩
  obtain ⟨n, hn⟩ := regular_returns Real.sin Real.cos ⟨(sized_config 80 22 : Config ℝ), 0, 0⟩
    (by simp [sized_config]) (by simp [sized_config]) (sized_regular 80 22 (by simp [INT_MAX]))
  refine ⟨n, fun fuel hf => ?_⟩
  obtain ⟨out, hout⟩ := hn fuel hf
  obtain ⟨st, hst, hcells⟩ := h.2.2.2.1 fuel out hout
  exact ⟨out, st, hout, hst, hcells 3 2 (by simp [sized_config]) (by simp [sized_config])⟩

/-- C16.  For `theta_step > 0` and `phi_step > 0`, in exact arithmetic with
`two_pi = 6.283185307179586`: given fuel above `ceil (two_pi / step)`, a loop of line 67 or
73 started at `0` runs its body exactly at `k * step` for `k = 0 .. ceil (two_pi / step) - 1`
in order.  So the outer loop of `render_frame` runs `theta_body` exactly at the angles
`k * theta_step`, and `theta_body` runs the inner body exactly at the angles `j * phi_step`;
the loop nest visits exactly the grid of pairs `(k * theta_step, j * phi_step)`, every angle
of which lies in `[0, two_pi)`; the buffers of a frame are those of plotting, in this order,
the samples at the pairs of the grid, `ceil (two_pi / theta_step) * ceil (two_pi / phi_step)`
of them; and `render_frame` returns, with fuel above the two counts, when the sizes fit, the
palette is not empty and no divisor on the grid is zero.  With the default steps the counts
are `90`, `315` and `90 * 315 = 28350`. -/
theorem sweep_grid (sin cos : F → F) (r : Renderer F)
    (hts : 0 < r.cfg_.theta_step) (hps : 0 < r.cfg_.phi_step) :
    (∀ (σ : Type) (body : F → σ → Except Fault σ) (st : σ) (fuel : Nat),
      step_count r.cfg_.theta_step < fuel →
      sweep r.cfg_.theta_step body fuel 0 st =
        run_list body ((List.range (step_count r.cfg_.theta_step)).map
          (fun k : Nat => (k : F) * r.cfg_.theta_step)) st) ∧
    (∀ (σ : Type) (body : F → σ → Except Fault σ) (st : σ) (fuel : Nat),
      step_count r.cfg_.phi_step < fuel →
      sweep r.cfg_.phi_step body fuel 0 st =
        run_list body ((List.range (step_count r.cfg_.phi_step)).map
          (fun j : Nat => (j : F) * r.cfg_.phi_step)) st) ∧
    (∀ fuel, max (step_count r.cfg_.theta_step) (step_count r.cfg_.phi_step) < fuel →
      visited_angles r.cfg_ fuel = .ok (angle_grid r.cfg_)) ∧
    (∀ p ∈ angle_grid r.cfg_,
      ∃ k j : Nat, k < step_count r.cfg_.theta_step ∧ j < step_count r.cfg_.phi_step ∧
        p = ((k : F) * r.cfg_.theta_step, (j : F) * r.cfg_.phi_step) ∧
        0 ≤ p.1 ∧ p.1 < two_pi ∧ 0 ≤ p.2 ∧ p.2 < two_pi) ∧
    (angle_grid r.cfg_).length = step_count r.cfg_.theta_step * step_count r.cfg_.phi_step ∧
    (∀ fuel l, visited sin cos r fuel = .ok l →
      List.Forall₂ (fun (p : F × F) s => sample_at sin cos r p.1 p.2 = .ok s)
        (angle_grid r.cfg_) l ∧
      l.length = step_count r.cfg_.theta_step * step_count r.cfg_.phi_step) ∧
    ((∀ k j : Nat, (k : F) * r.cfg_.theta_step < two_pi → (j : F) * r.cfg_.phi_step < two_pi →
        divisor sin cos r (k * r.cfg_.theta_step) (j * r.cfg_.phi_step) ≠ 0) →
      ∀ fuel, max (step_count r.cfg_.theta_step) (step_count r.cfg_.phi_step) < fuel →
        ∃ l, visited sin cos r fuel = .ok l) ∧
    (step_count (default_config : Config F).theta_step = 90 ∧
      step_count (default_config : Config F).phi_step = 315 ∧
      (angle_grid (default_config : Config F)).length = 28350) ∧
    (∀ fuel, step_count r.cfg_.theta_step < fuel →
      0 ≤ r.cfg_.width * r.cfg_.height ∧ r.cfg_.width * r.cfg_.height ≤ INT_MAX →
      rasterize sin cos r fuel =
        run_list (theta_body sin cos r.cfg_ (sin r.a_) (cos r.a_) (sin r.b_) (cos r.b_) fuel)
          ((List.range (step_count r.cfg_.theta_step)).map
            (fun k : Nat => (k : F) * r.cfg_.theta_step))
          (blank (r.cfg_.width * r.cfg_.height).toNat)) ∧
    (∀ fuel, step_count r.cfg_.phi_step < fuel → ∀ (theta : F) (st : Buffers F),
      theta_body sin cos r.cfg_ (sin r.a_) (cos r.a_) (sin r.b_) (cos r.b_) fuel theta st =
        run_list
          (phi_body sin cos r.cfg_ (sin r.a_) (cos r.a_) (sin r.b_) (cos r.b_) (sin theta)
            (cos theta) (r.cfg_.r2 + r.cfg_.r1 * cos theta) (r.cfg_.r1 * sin theta))
          ((List.range (step_count r.cfg_.phi_step)).map
            (fun j : Nat => (j : F) * r.cfg_.phi_step)) st) ∧
    (∀ fuel st, rasterize sin cos r fuel = .ok st →
      ∃ l, visited sin cos r fuel = .ok l ∧
        List.Forall₂ (fun (p : F × F) s => sample_at sin cos r p.1 p.2 = .ok s)
          (angle_grid r.cfg_) l ∧
        l.length = step_count r.cfg_.theta_step * step_count r.cfg_.phi_step ∧
        plot_all r.cfg_ l (blank (r.cfg_.width * r.cfg_.height).toNat) = .ok st) ∧
    (∀ fuel out, render_frame sin cos r fuel = .ok out →
      ∃ st l, rasterize sin cos r fuel = .ok st ∧ visited sin cos r fuel = .ok l ∧
        List.Forall₂ (fun (p : F × F) s => sample_at sin cos r p.1 p.2 = .ok s)
          (angle_grid r.cfg_) l ∧
        l.length = step_count r.cfg_.theta_step * step_count r.cfg_.phi_step ∧
        plot_all r.cfg_ l (blank (r.cfg_.width * r.cfg_.height).toNat) = .ok st ∧
        serialize r.cfg_ st.buffer = .ok out) ∧
    (0 < r.cfg_.width → 0 < r.cfg_.height → regular sin cos r →
      ∀ fuel, max (step_count r.cfg_.theta_step) (step_count r.cfg_.phi_step) < fuel →
        ∃ out, render_frame sin cos r fuel = .ok out) := by
  refine ⟨fun σ body st fuel hf => sweep_from_zero _ hts body st fuel hf,
    fun σ body st fuel hf => sweep_from_zero _ hps body st fuel hf,
    fun fuel hf => visited_angles_eq r.cfg_ hts hps fuel hf,
    angle_grid_mem r.cfg_ hts hps, angle_grid_length r.cfg_, ?_,
    fun hdiv fuel hf => visited_returns sin cos r hts hps hdiv fuel hf, ?_,
    ?_, ?_, fun fuel st h => rasterize_samples sin cos r hts hps fuel st h, ?_,
    fun hw hh hreg fuel hf => render_frame_at_count sin cos r hw hh hreg fuel hf⟩
  · intro fuel l hl
    have h := visited_grid sin cos r hts hps fuel l hl
    exact ⟨h, by rw [← h.length_eq, angle_grid_length]⟩
  · refine ⟨default_step_count.1, default_step_count.2, ?_⟩
    rw [angle_grid_length, default_step_count.1, default_step_count.2]
  · intro fuel hf hfit
    unfold rasterize
    have h1 : fits_int (r.cfg_.width * r.cfg_.height) = true := by
      simp only [fits_int, Bool.and_eq_true, decide_eq_true_eq, INT_MIN]
      exact ⟨by omega, hfit.2⟩
    have h2 : ¬ (r.cfg_.width * r.cfg_.height < 0) := by omega
    simp only [h1, Bool.not_true, Bool.false_eq_true, if_false, h2]
    exact sweep_from_zero r.cfg_.theta_step hts
      (theta_body sin cos r.cfg_ (sin r.a_) (cos r.a_) (sin r.b_) (cos r.b_) fuel)
      (blank (r.cfg_.width * r.cfg_.height).toNat) fuel hf
  · intro fuel hf theta st
    unfold theta_body
    exact sweep_from_zero r.cfg_.phi_step hps _ st fuel hf
  · intro fuel out hout
    unfold render_frame at hout
    cases hr : rasterize sin cos r fuel with
    | error e => rw [hr] at hout; cases hout
    | ok st =>
      rw [hr] at hout
      obtain ⟨l, h1, h2, h3, h4⟩ := rasterize_samples sin cos r hts hps fuel st hr
      exact ⟨st, l, rfl, h1, h2, h3, h4, hout⟩

/-- C16, witness: with the default configuration and fuel `316`, `render_frame` at the phase
`(0, 0)` returns a frame, made by plotting the `28350` samples of the grid. -/
theorem sweep_grid_witness :
    (0 : ℝ) < (sized_config 80 22 : Config ℝ).theta_step ∧
    (0 : ℝ) < (sized_config 80 22 : Config ℝ).phi_step ∧
    ∃ out st l,
      render_frame Real.sin Real.cos ⟨(sized_config 80 22 : Config ℝ), 0, 0⟩ 316 = .ok out ∧
      rasterize Real.sin Real.cos ⟨(sized_config 80 22 : Config ℝ), 0, 0⟩ 316 = .ok st ∧
      visited Real.sin Real.cos ⟨(sized_config 80 22 : Config ℝ), 0, 0⟩ 316 = .ok l ∧
      plot_all (sized_config 80 22 : Config ℝ) l (blank 1760) = .ok st ∧
      l.length = 28350 := by
  have hts : (0 : ℝ) < (sized_config 80 22 : Config ℝ).theta_step := by
    norm_num [sized_config, default_config]
  have hps : (0 : ℝ) < (sized_config 80 22 : Config ℝ).phi_step := by
    norm_num [sized_config, default_config]
  have h := sweep_grid Real.sin Real.cos ⟨(sized_config 80 22 : Config ℝ), 0, 0⟩ hts hps
  have e1 : step_count (sized_config 80 22 : Config ℝ).theta_step = 90 :=
    (default_step_count (F := ℝ)).1
  have e2 : step_count (sized_config 80 22 : Config ℝ).phi_step = 315 :=
    (default_step_count (F := ℝ)).2
  obtain ⟨out, hout⟩ := h.2.2.2.2.2.2.2.2.2.2.2.2 (by simp [sized_config])
    (by simp [sized_config]) (sized_regular 80 22 (by simp [INT_MAX])) 316
    (by
      show max (step_count (sized_config 80 22 : Config ℝ).theta_step)
        (step_count (sized_config 80 22 : Config ℝ).phi_step) < 316
      rw [e1, e2]
      norm_num)
  obtain ⟨st, l, h1, h2, _, h4, h5, _⟩ := h.2.2.2.2.2.2.2.2.2.2.2.1 316 out hout
  have hn : ((sized_config 80 22 : Config ℝ).width *
      (sized_config 80 22 : Config ℝ).height).toNat = 1760 := by
    simp [sized_config]
  refine ⟨hts, hps, out, st, l, hout, h1, h2, ?_, ?_⟩
  · have h5b : plot_all (sized_config 80 22 : Config ℝ) l
        (blank ((sized_config 80 22 : Config ℝ).width *
          (sized_config 80 22 : Config ℝ).height).toNat) = .ok st := h5
    rw [hn] at h5b
    exact h5b
  · rw [h4]
    show step_count (sized_config 80 22 : Config ℝ).theta_step *
      step_count (sized_config 80 22 : Config ℝ).phi_step = 28350
    rw [e1, e2]

/-- C17.  Over the reals with the true sine and cosine the luminance of lines 93-94 is at most
`sqrt 2` at all angles and phases.  Hence for every sample with `luminance > 0` the
conversion `trunc (luminance * 8)` lies in `[0, 11]`: the test `shade < 0` fails, and for a
palette of length at least 12 the test `shade >= size` fails too, the shade index is the
unclamped `trunc (luminance * 8)`, and the character is the palette entry at that position. -/
theorem luminance_bound (r : Renderer ℝ) (theta phi : ℝ) :
    luminance_at Real.sin Real.cos r.a_ r.b_ theta phi ≤ Real.sqrt 2 ∧
    ∀ s, sample_at Real.sin Real.cos r theta phi = .ok s →
      s.luminance = luminance_at Real.sin Real.cos r.a_ r.b_ theta phi ∧
      (0 < s.luminance →
        0 ≤ trunc (s.luminance * 8) ∧ trunc (s.luminance * 8) ≤ 11 ∧
        ¬ trunc (s.luminance * 8) < 0 ∧
        (∀ size : Int, 12 ≤ size →
          ¬ trunc (s.luminance * 8) ≥ size ∧
          shade_index s.luminance size = trunc (s.luminance * 8)) ∧
        (12 ≤ r.cfg_.shading.length →
          ∃ c, shade_char r.cfg_ s.luminance = .ok c ∧
            r.cfg_.shading[(trunc (s.luminance * 8)).toNat]? = some c)) := by
  refine ⟨luminance_le_sqrt_two _ _ _ _, ?_⟩
  intro s hs
  obtain ⟨_, _, _, _, hl⟩ := sample_at_inv Real.sin Real.cos r theta phi s hs
  refine ⟨hl, ?_⟩
  intro hpos
  have hle : s.luminance ≤ Real.sqrt 2 := by rw [hl]; exact luminance_le_sqrt_two _ _ _ _
  have hlt : s.luminance * 8 < ((12 : Int) : ℝ) := by
    have := sqrt_two_lt
    push_cast
    linarith
  have h0 : 0 ≤ trunc (s.luminance * 8) := trunc_nonneg_of _ (by linarith)
  have h12 : trunc (s.luminance * 8) < 12 := trunc_lt_of _ 12 (by norm_num) hlt
  refine ⟨h0, by omega, by omega, ?_, ?_⟩
  · intro size hsize
    exact ⟨by omega, shade_index_unclamped _ _ h0 (by omega)⟩
  · intro hlen
    have hne : r.cfg_.shading ≠ [] := by
      intro h
      rw [h] at hlen
      simp at hlen
    obtain ⟨c, hc, _, hget⟩ := shade_char_of_nonempty r.cfg_ s.luminance hne
    rw [shade_index_unclamped _ _ h0 (by omega)] at hget
    exact ⟨c, hc, hget⟩

/-- C17, witness: at the phase `(0, 0)` and the angles `(π / 2, 0)` the sample of the default
configuration has luminance `1`, and its shade index for 12 characters is the unclamped
`trunc (1 * 8)`. -/
theorem luminance_bound_witness :
    ∃ s, sample_at Real.sin Real.cos ⟨(sized_config 80 22 : Config ℝ), 0, 0⟩ (Real.pi / 2) 0
        = .ok s ∧
      s.luminance = 1 ∧ s.luminance ≤ Real.sqrt 2 ∧
      shade_index s.luminance 12 = trunc (s.luminance * 8) := by
  have h := luminance_bound ⟨(sized_config 80 22 : Config ℝ), 0, 0⟩ (Real.pi / 2) 0
  have hs := sized_sample 80 22 (Real.pi / 2) 0
  obtain ⟨h1, h2⟩ := h.2 _ hs
  have hl : (1 : ℝ) = Real.sin (Real.pi / 2) - Real.cos (Real.pi / 2) * Real.sin 0 := by
    rw [Real.sin_pi_div_two, Real.cos_pi_div_two, Real.sin_zero]; norm_num
  refine ⟨_, hs, hl.symm, ?_, ?_⟩
  · rw [h1]; exact h.1
  · exact ((h2 (by rw [← hl]; norm_num)).2.2.2.1 12 (le_refl _)).2

/-- C18.  Over the reals with the true sine and cosine: the two rotations preserve the squared
norm, `x2² + y2² + z2² = x² + y² + z²`; for `r1, r2 ≥ 0` every point of the torus has
`x² + y² + z² ≤ (r1 + r2)²`; and if moreover `k2 > r1 + r2`, then at every angle pair and
phase `z2 + k2 > 0`, the sample is computed without fault, and its `ooz` satisfies
`1 / (k2 + r1 + r2) ≤ ooz ≤ 1 / (k2 - r1 - r2)`. -/
theorem depth_bounds (r : Renderer ℝ) (theta phi : ℝ) :
    ((rotated_point Real.sin Real.cos r theta phi).1 ^ 2 +
        (rotated_point Real.sin Real.cos r theta phi).2.1 ^ 2 +
        (rotated_point Real.sin Real.cos r theta phi).2.2 ^ 2 =
      (surface_point Real.sin Real.cos r.cfg_ theta phi).1 ^ 2 +
        (surface_point Real.sin Real.cos r.cfg_ theta phi).2.1 ^ 2 +
        (surface_point Real.sin Real.cos r.cfg_ theta phi).2.2 ^ 2) ∧
    (0 ≤ r.cfg_.r1 → 0 ≤ r.cfg_.r2 →
      (surface_point Real.sin Real.cos r.cfg_ theta phi).1 ^ 2 +
        (surface_point Real.sin Real.cos r.cfg_ theta phi).2.1 ^ 2 +
        (surface_point Real.sin Real.cos r.cfg_ theta phi).2.2 ^ 2 ≤
          (r.cfg_.r1 + r.cfg_.r2) ^ 2) ∧
    (0 ≤ r.cfg_.r1 → 0 ≤ r.cfg_.r2 → r.cfg_.r1 + r.cfg_.r2 < r.cfg_.k2 →
      0 < (rotated_point Real.sin Real.cos r theta phi).2.2 + r.cfg_.k2 ∧
      ∃ s, sample_at Real.sin Real.cos r theta phi = .ok s ∧
        s.ooz = 1 / ((rotated_point Real.sin Real.cos r theta phi).2.2 + r.cfg_.k2) ∧
        1 / (r.cfg_.k2 + r.cfg_.r1 + r.cfg_.r2) ≤ s.ooz ∧
        s.ooz ≤ 1 / (r.cfg_.k2 - r.cfg_.r1 - r.cfg_.r2)) := by
  refine ⟨rotated_norm r theta phi, fun hr1 hr2 => surface_norm r.cfg_ hr1 hr2 theta phi, ?_⟩
  intro hr1 hr2 hk
  have habs := abs_le.mp (rotated_depth_abs r hr1 hr2 theta phi)
  have hpos : 0 < (rotated_point Real.sin Real.cos r theta phi).2.2 + r.cfg_.k2 := by linarith
  refine ⟨hpos, ?_⟩
  obtain ⟨s, hs⟩ := sample_at_of_divisor_ne Real.sin Real.cos r theta phi
    (by rw [divisor_eq]; exact ne_of_gt hpos)
  obtain ⟨_, hooz, _⟩ := sample_at_inv Real.sin Real.cos r theta phi s hs
  refine ⟨s, hs, hooz, ?_, ?_⟩
  · rw [hooz]
    exact one_div_le_one_div_of_le hpos (by linarith)
  · rw [hooz]
    exact one_div_le_one_div_of_le (by linarith) (by linarith)

/-- C18, witness: with the default radii `1` and `2` and camera distance `5`, at the angles
`(1, 2)` and the phase `(3, 4)` the divisor is positive and `1 / 8 ≤ ooz ≤ 1 / 2`. -/
theorem depth_bounds_witness :
    (0 : ℝ) ≤ (sized_config 80 22 : Config ℝ).r1 ∧ (0 : ℝ) ≤ (sized_config 80 22 : Config ℝ).r2 ∧
    (sized_config 80 22 : Config ℝ).r1 + (sized_config 80 22 : Config ℝ).r2 <
      (sized_config 80 22 : Config ℝ).k2 ∧
    0 < (rotated_point Real.sin Real.cos ⟨(sized_config 80 22 : Config ℝ), 3, 4⟩ 1 2).2.2 + 5 ∧
    ∃ s, sample_at Real.sin Real.cos ⟨(sized_config 80 22 : Config ℝ), 3, 4⟩ 1 2 = .ok s ∧
      1 / 8 ≤ s.ooz ∧ s.ooz ≤ 1 / 2 := by
  have h := (depth_bounds ⟨(sized_config 80 22 : Config ℝ), 3, 4⟩ 1 2).2.2
    (by norm_num [sized_config, default_config]) (by norm_num [sized_config, default_config])
    (by norm_num [sized_config, default_config])
  refine ⟨by norm_num [sized_config, default_config], by norm_num [sized_config, default_config],
    by norm_num [sized_config, default_config], h.1, ?_⟩
  obtain ⟨s, hs, _, h1, h2⟩ := h.2
  refine ⟨s, hs, ?_, ?_⟩
  · have e : (1 : ℝ) / 8 = 1 / ((sized_config 80 22 : Config ℝ).k2 +
        (sized_config 80 22 : Config ℝ).r1 + (sized_config 80 22 : Config ℝ).r2) := by
      norm_num [sized_config, default_config]
    rw [e]; exact h1
  · have e : (1 : ℝ) / 2 = 1 / ((sized_config 80 22 : Config ℝ).k2 -
        (sized_config 80 22 : Config ℝ).r1 - (sized_config 80 22 : Config ℝ).r2) := by
      norm_num [sized_config, default_config]
    rw [e]; exact h2

/-- C19.  The token after a value flag in flag position is that flag's argument whatever it
is, a recognised flag name included: parsing goes on after it, and the assignment does not
touch `benchmark`.  So `--width --benchmark` leaves `benchmark = false` and sets `width` to
`atoi "--benchmark"`, which is `0` for an `atoi` that returns `0` where there is no digit,
and `--shading --benchmark` sets `shading` to `--benchmark` and leaves `benchmark = false`.
When no later occurrence of the flag has an argument, the field of the result is the one
this occurrence assigns: the last occurrence with an argument determines the field. -/
theorem parse_args_consumes (atoi : String → Int) (atof : String → F) :
    (∀ (prog : String) (pre : List String) (flag v : String) (post : List String),
      flag_position pre = true → flag ∈ value_flags →
      parse_args atoi atof (prog :: (pre ++ flag :: v :: post)) =
          parse_loop atoi atof
            (set_value atoi atof (parse_args atoi atof (prog :: pre)) flag v) post ∧
        (set_value atoi atof (parse_args atoi atof (prog :: pre)) flag v).benchmark =
          (parse_args atoi atof (prog :: pre)).benchmark) ∧
    (∀ prog : String,
      (parse_args atoi atof [prog, "--width", "--benchmark"]).benchmark = false ∧
      (parse_args atoi atof [prog, "--width", "--benchmark"]).width = atoi "--benchmark" ∧
      ((∀ s, starts_integer s = false → atoi s = 0) →
        (parse_args atoi atof [prog, "--width", "--benchmark"]).width = 0)) ∧
    (∀ prog : String,
      (parse_args atoi atof [prog, "--shading", "--benchmark"]).shading =
          "--benchmark".toList ∧
        (parse_args atoi atof [prog, "--shading", "--benchmark"]).benchmark = false) ∧
    (∀ (prog : String) (pre : List String) (flag v : String) (post : List String),
      flag_position pre = true → flag ∈ value_flags → flag ∉ valued_flags post →
      same_field flag (parse_args atoi atof (prog :: (pre ++ flag :: v :: post)))
        (set_value atoi atof default_config flag v)) := by
  refine ⟨?_, ?_, ?_, ?_⟩
  · intro prog pre flag v post hpos hflag
    rw [parse_args_split atoi atof prog pre hpos, parse_loop_value atoi atof _ flag hflag v post]
    exact ⟨rfl, set_value_keeps_benchmark atoi atof _ flag v⟩
  · intro prog
    have e : parse_args atoi atof [prog, "--width", "--benchmark"] =
        { (default_config : Config F) with width := atoi "--benchmark" } := by
      simp [parse_args, parse_loop]
    rw [e]
    exact ⟨rfl, rfl, fun h => h _ rfl⟩
  · intro prog
    have e : parse_args atoi atof [prog, "--shading", "--benchmark"] =
        { (default_config : Config F) with shading := "--benchmark".toList } := by
      simp [parse_args, parse_loop]
    rw [e]
    exact ⟨rfl, rfl⟩
  · intro prog pre flag v post hpos hflag hno
    exact parse_loop_last atoi atof default_config default_config pre flag v post hpos hflag hno

/-- C19, witness: in `donut --width 10 --width 20` the second `--width` determines the
field, and in `donut --height --width 7` the token `--width` is the argument of `--height`,
so the width keeps its default. -/
theorem parse_args_consumes_witness :
    (parse_args atoi_of atof_of ("donut" :: (["--width", "10"] ++ "--width" :: "20" :: [])) :
      Config ℚ).width = 20 ∧
    (parse_args atoi_of atof_of ("donut" :: ([] ++ "--height" :: "--width" :: ["7"])) :
      Config ℚ).width = 80 ∧
    (parse_args atoi_of atof_of ("donut" :: ([] ++ "--height" :: "--width" :: ["7"])) :
      Config ℚ).height = 0 := by
  have h := parse_args_consumes atoi_of (atof_of : String → ℚ)
  have h1 := (h.2.2.2 "donut" ["--width", "10"] "--width" "20" []
    (by simp [flag_position, value_flags]) (by simp [value_flags])
    (by simp [valued_flags])).1 rfl
  have h2 := (h.1 "donut" [] "--height" "--width" ["7"] rfl (by simp [value_flags])).1
  refine ⟨?_, ?_, ?_⟩
  · rw [h1]
    simp [set_value]
    rfl
  · rw [h2]
    simp [parse_args, parse_loop, set_value, default_config]
  · rw [h2]
    simp [parse_args, parse_loop, set_value]
    rfl

end Claims

end Donut
